import Mathlib

/-!
# The feed-forward network engine `FFN` (methods/ann/ffn_impl.hpp)

A shallow embedding of the member functions of `FFN` that orchestrate the
forward, backward and gradient passes, of the optimizer-facing `Evaluate`
family, of `ResetData`, `Train` and `Predict`, and of `serialize`, `Swap`, the
copy and move constructors and the assignment, followed by theorems about them.

Conventions of the embedding.

* `size_t` values are natural numbers; every `size_t` operation whose result can
  leave the range is taken modulo `SIZE = 2^64` (`sizeAdd`, `sizeSub`, `sizeMul`).
* A matrix (`arma::mat`) is its shape together with its elements in column-major
  order.  Elements are integers: the engine only moves, zeroes and adds numbers,
  and rounding of the elements is not modelled.  The one `double` computation
  that decides what the engine does, `std::floor(0.1 * n_elem)` in the tests that
  replace a backing buffer, is computed as IEEE 754 arithmetic does (`floorTenth`).
* The layer class, the output layer and the initialization rule are not defined
  in this file of the repository; they enter as the parameter `Env`.
* Indexing a `std::vector` out of range is undefined behaviour in C++; here the
  function that does it returns `none`.
* Every call of a layer method made by a pass is first listed as a `Call`
  (which layer, which operands), in program order, and then executed by `exec`.
* An entry of a view table keeps its offset and the matrix last stored through
  it; until a layer stores one, that is the shape the engine gave the view.
  Whether the view lies inside its backing buffer is a property of the engine
  (`viewsInside`), not a condition for a call to execute, and neither is it one
  that a matrix stored through a view has the number of elements of the view.
  The theorems that say what `Forward`, `Evaluate` and `Gradient` return are
  about engines and layers for which both hold, and say so (`carvedInside`,
  `layout`).
-/

namespace FFN

/-! ## `size_t` arithmetic -/

/-- The number of values of the 64-bit type `size_t`. -/
def SIZE : Nat := 18446744073709551616

/-- Addition of two `size_t` values. -/
def sizeAdd (a b : Nat) : Nat := (a + b) % SIZE

/-- Subtraction of two `size_t` values (wraps around below zero). -/
def sizeSub (a b : Nat) : Nat := (a + (SIZE - b % SIZE)) % SIZE

/-- Multiplication of two `size_t` values. -/
def sizeMul (a b : Nat) : Nat := (a * b) % SIZE

/-- The values taken by `i` in `for (size_t i = lo; i < hi; ++i)`. -/
def loopRange (lo hi : Nat) : List Nat := List.range' lo (hi - lo)

/-- Conversion of a mathematical integer to the 32-bit type `int`. -/
def wrapInt (z : Int) : Int := (z + 2147483648) % 4294967296 - 2147483648

/-- The call `std::accumulate(v.begin(), v.end(), 0)` on a vector of `size_t`: the
accumulator has the type of the initial value `0`, that is `int`, so every partial sum is
converted back to `int`. -/
def accumulate (v : List Nat) : Int := v.foldl (fun acc d => wrapInt (acc + (d : Int))) 0

/-- Conversion of an `int` to `size_t`. -/
def toSize (z : Int) : Nat := (z % (SIZE : Int)).toNat

/-! ## The `double` arithmetic of the buffer tests -/

/-- One step of the count of the binary digits of a number: `acc.2` loses its `b` lowest
digits, which are added to the count `acc.1`, when it has more than `b` digits. -/
def bitStep (acc : Nat × Nat) (b : Nat) : Nat × Nat :=
  if 2 ^ b ≤ acc.2 then (acc.1 + b, acc.2 / 2 ^ b) else acc

/-- The number of binary digits of `n`, for `n` below `2 ^ 128`. -/
def bitLength (n : Nat) : Nat :=
  ([64, 32, 16, 8, 4, 2, 1].foldl bitStep (0, n)).1 +
    (if ([64, 32, 16, 8, 4, 2, 1].foldl bitStep (0, n)).2 = 0 then 0 else 1)

/-- The integer nearest to `n` among the numbers with at most 53 significant binary
digits, a tie going to the even significand: the rounding of IEEE 754 `double`
arithmetic in its default mode, for `n` below `2 ^ 128`. -/
def nearestDouble (n : Nat) : Nat :=
  if bitLength n ≤ 53 then n
  else
    if n % 2 ^ (bitLength n - 53) > 2 ^ (bitLength n - 54) ∨
        (n % 2 ^ (bitLength n - 53) = 2 ^ (bitLength n - 54) ∧
          n / 2 ^ (bitLength n - 53) % 2 = 1) then
      (n / 2 ^ (bitLength n - 53) + 1) * 2 ^ (bitLength n - 53)
    else n / 2 ^ (bitLength n - 53) * 2 ^ (bitLength n - 53)

/-- The value of `std::floor(0.1 * n)` for an unsigned 64-bit `n`: `n` is converted to
`double`, multiplied by the `double` written `0.1`, which is `3602879701896397 / 2^55`,
the product is rounded to a `double`, and `std::floor` takes its integer part. -/
def floorTenth (n : Nat) : Nat :=
  nearestDouble (3602879701896397 * nearestDouble n) / 2 ^ 55

/-! ## Matrices -/

/-- A dense matrix: shape and elements in column-major order. -/
structure Mat where
  n_rows : Nat
  n_cols : Nat
  mem : List Int
deriving DecidableEq, Repr

namespace Mat

/-- The member `n_elem`. -/
def n_elem (m : Mat) : Nat := m.n_rows * m.n_cols

/-- The member function `is_empty()`. -/
def is_empty (m : Mat) : Bool := m.n_elem == 0

/-- The default-constructed (0 x 0) matrix. -/
def empty : Mat := ⟨0, 0, []⟩

/-- The generator `arma::zeros<OutputType>(r, c)`. -/
def zerosOf (r c : Nat) : Mat := ⟨r, c, List.replicate (r * c) 0⟩

/-- The member function `zeros()`: every element becomes zero, the shape is kept. -/
def zeros (m : Mat) : Mat := { m with mem := List.replicate (m.n_rows * m.n_cols) 0 }

/-- The member function `set_size(n)` of a matrix: the shape becomes `n x 1`.  The
elements are kept when their number does not change and are unspecified otherwise (zero
here).  For a matrix object that is a strict alias of auxiliary memory, such as an entry
of `layerOutputs`, Armadillo rejects a change of the number of elements; the function
gives the shape in that case too, and the theorems on `Evaluate`, which passes
`layerOutputs.back()` as `results`, show that the number does not change there. -/
def set_size (m : Mat) (n : Nat) : Mat :=
  if m.n_elem = n then ⟨n, 1, m.mem⟩ else ⟨n, 1, List.replicate n 0⟩

/-- The member function `cols(first, last)`: the columns `first .. last`, both included.
Armadillo rejects `first > last` and `last >= n_cols`. -/
def cols (m : Mat) (first last : Nat) : Option Mat :=
  if first ≤ last ∧ last < m.n_cols then
    some ⟨m.n_rows, last - first + 1,
      (m.mem.drop (first * m.n_rows)).take ((last - first + 1) * m.n_rows)⟩
  else none

/-- The offset, in elements, of `colptr(c)` from the start of the matrix memory. -/
def colptr (m : Mat) (c : Nat) : Nat := sizeMul c m.n_rows

end Mat

/-- A backing buffer of an arena (`layerOutputMatrix`, `deltaMatrix`): its shape, and a
counter that goes up every time the member is assigned a newly constructed matrix, so
that two values of the member with the same counter are the same buffer. -/
structure Arena where
  n_rows : Nat
  n_cols : Nat
  generation : Nat
deriving DecidableEq, Repr

namespace Arena

/-- The member `n_elem`. -/
def n_elem (a : Arena) : Nat := a.n_rows * a.n_cols

/-- The assignment `m = OutputType(1, n)`. -/
def replace (a : Arena) (n : Nat) : Arena := ⟨1, n, a.generation + 1⟩

/-- The offset, in elements, of `colptr(c)` from the start of the buffer. -/
def colptr (a : Arena) (c : Nat) : Nat := sizeMul c a.n_rows

end Arena

/-- An entry of `layerOutputs`, `layerDeltas` or `layerGradients`: a matrix object made
with the auxiliary-memory constructor `OutputType(ptr, rows, cols, false, true)`.
`start` is the offset of `ptr` in the buffer it points into; `mat` is the shape given to
the constructor and the elements last stored through the object. -/
structure Alias where
  start : Nat
  mat : Mat
deriving DecidableEq, Repr

/-! ## The collaborators of the engine -/

/-- The operations of a layer, a parameter of the embedding: the layer class is declared
outside this file, and the engine uses nothing of it but these member functions (their
contract is section 4.1 of the specification).  `σ` is the type of a layer object.
`Forward` returns the layer after the call and the output it wrote; `Backward` maps the
layer output and the upstream gradient to the input gradient; `Gradient` maps the layer
input, the upstream gradient and the present content of the parameter-gradient view to
its new content; `InputDimensions` and `Deterministic` read the members of these names,
`setInputDimensions` and `setDeterministic` are the assignments to `InputDimensions()`
and `Deterministic()`; `Clone` is the copy made by `Clone()`. -/
structure LayerOps (σ : Type) where
  Forward : σ → Mat → σ × Mat
  Backward : σ → Mat → Mat → Mat
  Gradient : σ → Mat → Mat → Mat → Mat
  Loss : σ → Int
  OutputSize : σ → Nat
  WeightSize : σ → Nat
  OutputDimensions : σ → List Nat
  InputDimensions : σ → List Nat
  setInputDimensions : σ → List Nat → σ
  Deterministic : σ → Bool
  setDeterministic : σ → Bool → σ
  Clone : σ → σ

/-- The operations of the output layer (template parameter `OutputLayerType`), a
parameter of the embedding: `Forward(predictions, targets)` returns the loss,
`Backward(predictions, targets, error)` writes `error`. -/
structure OutputLayerOps where
  Forward : Mat → Mat → Int
  Backward : Mat → Mat → Mat

/-- Everything the engine is instantiated with: the layer operations, the output layer,
and `NetworkInitialization::Initialize(network, parameters)` (declared outside this
file), which fills the parameter buffer and hands every layer its weights without
adding or removing a layer. -/
structure Env (σ : Type) where
  layer : LayerOps σ
  outputLayer : OutputLayerOps
  initNetwork : List σ → Mat → List σ × Mat
  initNetwork_length : ∀ net p, (initNetwork net p).1.length = net.length

/-! ## The engine state -/

/-- The data members of `FFN` (those of `Swap`), without the output layer and the
initialization rule, which are in `Env`. -/
structure State (σ : Type) where
  network : List σ
  parameters : Mat
  reset : Bool
  inputDimensions : List Nat
  predictors : Mat
  responses : Mat
  numFunctions : Nat
  error : Mat
  deterministic : Bool
  layerOutputMatrix : Arena
  totalOutputSize : Nat
  layerOutputs : List Alias
  deltaMatrix : Arena
  layerDeltas : List Alias
  gradientMatrix : Mat
  layerGradients : List Alias

/-- A running member function: the engine, and the two matrices its caller passed by
reference, the read-only one (`inputs`, `input`) and the one written to (`results`,
`gradient`). -/
structure Frame (σ : Type) where
  st : State σ
  input : Mat
  caller : Mat

/-- The matrices a layer method can be handed. -/
inductive Operand where
  | input
  | caller
  | error
  | layerOutput (i : Nat)
  | layerDelta (i : Nat)
  | layerGradient (i : Nat)
deriving DecidableEq, Repr

/-- One call of a layer method: the index of the layer in `network` and the operands in
the order of the C++ argument list. -/
inductive Call where
  | forward (layer : Nat) (src dst : Operand)
  | backward (layer : Nat) (out gy g : Operand)
  | gradient (layer : Nat) (src err grad : Operand)
deriving DecidableEq, Repr

/-- Overwrite the elements of `l` from position `start` on with `ys`, without changing
the length of `l`. -/
def overwrite (l : List Int) (start : Nat) (ys : List Int) : List Int :=
  l.take start ++ ys.take (l.length - start) ++ l.drop (start + (ys.take (l.length - start)).length)

/-- The matrix an operand denotes.  A parameter-gradient view shows the elements of the
caller's gradient it points into. -/
def read {σ : Type} (fr : Frame σ) : Operand → Option Mat
  | .input => some fr.input
  | .caller => some fr.caller
  | .error => some fr.st.error
  | .layerOutput i => (fr.st.layerOutputs[i]?).map (fun a => a.mat)
  | .layerDelta i => (fr.st.layerDeltas[i]?).map (fun a => a.mat)
  | .layerGradient i => (fr.st.layerGradients[i]?).map (fun a =>
      ⟨a.mat.n_rows, a.mat.n_cols, (fr.caller.mem.drop a.start).take (a.mat.n_rows * a.mat.n_cols)⟩)

/-- Store `y` into the matrix an operand denotes.  A parameter-gradient view stores into
the caller's gradient, at its offset and no further than its own size.  An output or a
delta view records `y` in its entry of the table, whatever the size of `y` and wherever
the view points: in the source these views are strict aliases of a fixed number of
elements of the backing buffer (lines 634-635 and 672-673), and a store of another number
of elements, or through a view outside the buffer, is an error or undefined there.  The
theorems that say what a pass returns are about engines and layers for which every store
has the size of its view inside the buffer, and show it. -/
def write {σ : Type} (fr : Frame σ) (o : Operand) (y : Mat) : Option (Frame σ) :=
  match o with
  | .input => none
  | .caller => some { fr with caller := y }
  | .error => some { fr with st := { fr.st with error := y } }
  | .layerOutput i =>
      (fr.st.layerOutputs[i]?).map (fun a =>
        { fr with st := { fr.st with layerOutputs := fr.st.layerOutputs.set i { a with mat := y } } })
  | .layerDelta i =>
      (fr.st.layerDeltas[i]?).map (fun a =>
        { fr with st := { fr.st with layerDeltas := fr.st.layerDeltas.set i { a with mat := y } } })
  | .layerGradient i =>
      (fr.st.layerGradients[i]?).map (fun a =>
        { fr with caller := { fr.caller with
            mem := overwrite fr.caller.mem a.start (y.mem.take (a.mat.n_rows * a.mat.n_cols)) } })

/-- Execute one call of a layer method. -/
def exec {σ : Type} (E : Env σ) (fr : Frame σ) : Call → Option (Frame σ)
  | .forward k i o => do
      let s ← fr.st.network[k]?
      let x ← read fr i
      write { fr with st := { fr.st with network := fr.st.network.set k (E.layer.Forward s x).1 } }
        o (E.layer.Forward s x).2
  | .backward k out gy g => do
      let s ← fr.st.network[k]?
      let y ← read fr out
      let e ← read fr gy
      write fr g (E.layer.Backward s y e)
  | .gradient k i e g => do
      let s ← fr.st.network[k]?
      let x ← read fr i
      let err ← read fr e
      let old ← read fr g
      write fr g (E.layer.Gradient s x err old)

/-- Execute a list of calls in order. -/
def run {σ : Type} (E : Env σ) (fr : Frame σ) (cs : List Call) : Option (Frame σ) :=
  cs.foldlM (exec E) fr

/-! ## Initialization of parameters and of the three arenas -/

/-- The member function `ResetDeterministic()`: the loop assigns `true` to the
`Deterministic()` flag of every layer. -/
def ResetDeterministic {σ : Type} (E : Env σ) (st : State σ) : State σ :=
  { st with network := st.network.map (fun s => E.layer.setDeterministic s true) }

/-- The member function `ResetParameters()`. -/
def ResetParameters {σ : Type} (E : Env σ) (st : State σ) : State σ :=
  { ResetDeterministic E st with
    network := (E.initNetwork (ResetDeterministic E st).network st.parameters).1
    parameters := (E.initNetwork (ResetDeterministic E st).network st.parameters).2 }

/-- The test of `InitializeForwardPassMemory` that decides whether `layerOutputMatrix`
is replaced: `batchSize * totalOutputSize > layerOutputMatrix.n_elem ||
batchSize * totalOutputSize < std::floor(0.1 * layerOutputMatrix.n_elem)`.  `requested`
is `batchSize * totalOutputSize`; in the second comparison it is converted to `double`. -/
def outputNeedsRealloc (requested n_elem : Nat) : Bool :=
  decide (requested > n_elem) || decide (nearestDouble requested < floorTenth n_elem)

/-- The first statement of `InitializeForwardPassMemory(batchSize)`: the backing buffer
is replaced by one of `batchSize * totalOutputSize` elements when the test holds. -/
def reallocOutputs {σ : Type} (st : State σ) (batchSize : Nat) : State σ :=
  if outputNeedsRealloc (sizeMul batchSize st.totalOutputSize) st.layerOutputMatrix.n_elem then
    { st with layerOutputMatrix := st.layerOutputMatrix.replace (sizeMul batchSize st.totalOutputSize) }
  else st

/-- The body of the loop of `InitializeForwardPassMemory`, on the pair of the engine and
the local variable `start`. -/
def aliasOutput {σ : Type} (E : Env σ) (batchSize : Nat) (acc : State σ × Nat) (i : Nat) :
    Option (State σ × Nat) := do
  let s ← acc.1.network[i]?
  let old ← acc.1.layerOutputs[i]?
  let view : Alias :=
    ⟨acc.1.layerOutputMatrix.colptr acc.2, ⟨E.layer.OutputSize s, batchSize, old.mat.mem⟩⟩
  some ({ acc.1 with layerOutputs := acc.1.layerOutputs.set i view },
        sizeAdd acc.2 (sizeMul batchSize (E.layer.OutputSize s)))

/-- The member function `InitializeForwardPassMemory(batchSize)`. -/
def InitializeForwardPassMemory {σ : Type} (E : Env σ) (st : State σ) (batchSize : Nat) :
    Option (State σ) :=
  ((loopRange 0 st.layerOutputs.length).foldlM (aliasOutput E batchSize)
    (reallocOutputs st batchSize, 0)).map (fun acc => acc.1)

/-- The local variable `inputSize` of `InitializeBackwardPassMemory`. -/
def inputSize {σ : Type} (st : State σ) : Nat := toSize (accumulate st.inputDimensions)

/-- The local variable `totalInputSize` of `InitializeBackwardPassMemory`. -/
def totalInputSize {σ : Type} (E : Env σ) (st : State σ) : Option Nat :=
  (st.network[sizeSub st.network.length 1]?).map (fun back =>
    sizeAdd (sizeSub st.totalOutputSize (E.layer.OutputSize back)) (inputSize st))

/-- The test of `InitializeBackwardPassMemory` that decides whether `deltaMatrix` is
replaced: the first comparison is against `deltaMatrix.n_elem`, the second against
`std::floor(0.1 * layerOutputMatrix.n_elem)`. -/
def deltaNeedsRealloc (requested deltaElem outputElem : Nat) : Bool :=
  decide (requested > deltaElem) || decide (nearestDouble requested < floorTenth outputElem)

/-- The first statements of `InitializeBackwardPassMemory(batchSize)`, up to the
replacement of `deltaMatrix`. -/
def reallocDeltas {σ : Type} (E : Env σ) (st : State σ) (batchSize : Nat) : Option (State σ) :=
  (totalInputSize E st).map (fun total =>
    if deltaNeedsRealloc (sizeMul batchSize total) st.deltaMatrix.n_elem
        st.layerOutputMatrix.n_elem then
      { st with deltaMatrix := st.deltaMatrix.replace (sizeMul batchSize total) }
    else st)

/-- The local variable `layerInputSize` of the loop of `InitializeBackwardPassMemory`:
`(i == 0) ? inputSize : network[i - 1]->OutputSize()`. -/
def layerInputSize {σ : Type} (E : Env σ) (st : State σ) (i : Nat) : Option Nat :=
  if i = 0 then some (inputSize st) else (st.network[sizeSub i 1]?).map E.layer.OutputSize

/-- The body of the loop of `InitializeBackwardPassMemory`, on the pair of the engine and
the local variable `start`. -/
def aliasDelta {σ : Type} (E : Env σ) (batchSize : Nat) (acc : State σ × Nat) (i : Nat) :
    Option (State σ × Nat) :=
  (layerInputSize E acc.1 i).bind (fun size =>
    (acc.1.layerDeltas[i]?).bind (fun old =>
      let view : Alias := ⟨acc.1.deltaMatrix.colptr acc.2, ⟨size, batchSize, old.mat.mem⟩⟩
      some ({ acc.1 with layerDeltas := acc.1.layerDeltas.set i view },
            sizeAdd acc.2 (sizeMul batchSize size))))

/-- The member function `InitializeBackwardPassMemory(batchSize)`. -/
def InitializeBackwardPassMemory {σ : Type} (E : Env σ) (st : State σ) (batchSize : Nat) :
    Option (State σ) := do
  let st1 ← reallocDeltas E st batchSize
  ((loopRange 0 st1.layerDeltas.length).foldlM (aliasDelta E batchSize) (st1, 0)).map
    (fun acc => acc.1)

/-- The body of the loop of `InitializeGradientPassMemory`.  The local variable `start`
is part of the loop state although the body does not assign it. -/
def aliasGradient {σ : Type} (E : Env σ) (gradient : Mat) (acc : State σ × Nat) (i : Nat) :
    Option (State σ × Nat) := do
  let s ← acc.1.network[i]?
  let old ← acc.1.layerGradients[i]?
  let view : Alias := ⟨gradient.colptr acc.2, ⟨E.layer.WeightSize s, 1, old.mat.mem⟩⟩
  some ({ acc.1 with layerGradients := acc.1.layerGradients.set i view }, acc.2)

/-- The member function `InitializeGradientPassMemory(gradient)`. -/
def InitializeGradientPassMemory {σ : Type} (E : Env σ) (st : State σ) (gradient : Mat) :
    Option (State σ) :=
  ((loopRange 0 st.layerGradients.length).foldlM (aliasGradient E gradient) (st, 0)).map
    (fun acc => acc.1)

/-! ## The three passes -/

/-- The calls of layer `Forward` methods made by `Forward(inputs, results, begin, end)`,
in program order; `results` tells which object the caller passed as `results`. -/
def ForwardCalls (results : Operand) (begin end_ : Nat) : List Call :=
  if end_ > begin then
    [Call.forward begin .input (.layerOutput begin)]
    ++ (loopRange 1 (sizeSub end_ begin)).map (fun i =>
        Call.forward (sizeAdd begin i) (.layerOutput (sizeSub (sizeAdd begin i) 1))
          (.layerOutput (sizeAdd begin i)))
    ++ [Call.forward end_ (.layerOutput (sizeSub end_ 1)) results]
  else
    [Call.forward end_ .input results]

/-- One step of the loop of the shape propagation of `Forward`:
`network[i]->InputDimensions() = network[i - 1]->OutputDimensions()`. -/
def propagateStep {σ : Type} (E : Env σ) (net : List σ) (i : Nat) : Option (List σ) := do
  let prev ← net[sizeSub i 1]?
  let cur ← net[i]?
  some (net.set i (E.layer.setInputDimensions cur (E.layer.OutputDimensions prev)))

/-- The block of `Forward` guarded by `if (!reset)`, on the layer list: the first layer
gets the dimensions `[n_rows, 1]`, every later layer the output dimensions of the layer
before it. -/
def propagateShapes {σ : Type} (E : Env σ) (net : List σ) (n_rows : Nat) : Option (List σ) := do
  let front ← net[0]?
  (loopRange 1 net.length).foldlM (propagateStep E)
    (net.set 0 (E.layer.setInputDimensions front [n_rows, 1]))

/-- The statement `if (parameters.is_empty()) ResetParameters();`. -/
def initializeIfEmpty {σ : Type} (E : Env σ) (st : State σ) : State σ :=
  if st.parameters.is_empty then ResetParameters E st else st

/-- The statement `if (!reset) { ...; reset = true; }` of `Forward`. -/
def propagateIfNeeded {σ : Type} (E : Env σ) (st : State σ) (n_rows : Nat) : Option (State σ) :=
  if st.reset then some st
  else (propagateShapes E st.network n_rows).map (fun net =>
    { st with network := net, reset := true })

/-- The statement `results.set_size(inputs.n_cols * network[end]->OutputSize())`. -/
def sizeResults {σ : Type} (E : Env σ) (fr : Frame σ) (results : Operand) (end_ : Nat) :
    Option (Frame σ) :=
  (fr.st.network[end_]?).bind (fun last =>
    (read fr results).bind (fun old =>
      write fr results (old.set_size (sizeMul fr.input.n_cols (E.layer.OutputSize last)))))

/-- The statements of `Forward(inputs, results, begin, end)` between the sanity check and
the first layer call: lazy parameter initialization, the output arena, the shape
propagation, and the sizing of `results`. -/
def ForwardPrepare {σ : Type} (E : Env σ) (fr : Frame σ) (results : Operand) (end_ : Nat) :
    Option (Frame σ) :=
  (InitializeForwardPassMemory E (initializeIfEmpty E fr.st) fr.input.n_cols).bind (fun st2 =>
    (propagateIfNeeded E st2 fr.input.n_rows).bind (fun st3 =>
      sizeResults E { fr with st := st3 } results end_))

/-- The member function `Forward(inputs, results, begin, end)`.  `fr.input` is `inputs`;
`results` names the object passed as `results`, which is `fr.caller` for `.caller`. -/
def Forward {σ : Type} (E : Env σ) (fr : Frame σ) (results : Operand) (begin end_ : Nat) :
    Option (Frame σ) :=
  if end_ < begin then some fr
  else (ForwardPrepare E fr results end_).bind (fun fr1 => run E fr1 (ForwardCalls results begin end_))

/-- The member function `Forward(inputs, results)`. -/
def ForwardAll {σ : Type} (E : Env σ) (fr : Frame σ) (results : Operand) : Option (Frame σ) :=
  Forward E fr results 0 (sizeSub fr.st.network.length 1)

/-- The calls of layer `Backward` methods made by the parameterless `Backward()`, in
program order, for a layer list of `nNet` entries and view tables of `nOut` and `nDelta`
entries (`back()` is the entry at `size() - 1`). -/
def BackwardCalls (nNet nOut nDelta : Nat) : List Call :=
  [Call.backward (sizeSub nNet 1) (.layerOutput (sizeSub nOut 1)) .error
    (.layerDelta (sizeSub nDelta 1))]
  ++ (loopRange 1 nNet).map (fun i =>
      Call.backward (sizeSub nNet i) (.layerOutput (sizeSub nNet i))
        (.layerDelta (sizeAdd (sizeSub nNet i) 1)) (.layerDelta (sizeSub nNet i)))

/-- The member function `Backward()`. -/
def Backward {σ : Type} (E : Env σ) (st : State σ) : Option (State σ) := do
  let back ← st.layerOutputs[sizeSub st.layerOutputs.length 1]?
  let st1 ← InitializeBackwardPassMemory E st back.mat.n_cols
  let fr ← run E ⟨st1, Mat.empty, Mat.empty⟩
    (BackwardCalls st1.network.length st1.layerOutputs.length st1.layerDeltas.length)
  some fr.st

/-- The calls of layer `Gradient` methods made by `Gradient(input, gradient)`, in program
order, for a layer list of `nNet` entries and a table `layerGradients` of `nGrad`
entries. -/
def GradientCalls (nNet nGrad : Nat) : List Call :=
  [Call.gradient 0 .input (.layerDelta 1) (.layerGradient 0)]
  ++ (loopRange 1 (sizeSub nNet 1)).map (fun i =>
      Call.gradient i (.layerOutput (sizeSub i 1)) (.layerDelta (sizeAdd i 1)) (.layerGradient i))
  ++ [Call.gradient (sizeSub nNet 1) (.layerOutput (sizeSub nNet 2)) .error
      (.layerGradient (sizeSub nGrad 1))]

/-- The member function `Gradient(input, gradient)`; `fr.input` is `input` and
`fr.caller` is `gradient`. -/
def Gradient {σ : Type} (E : Env σ) (fr : Frame σ) : Option (Frame σ) := do
  let st1 ← InitializeGradientPassMemory E fr.st fr.caller
  run E { fr with st := st1 } (GradientCalls st1.network.length st1.layerGradients.length)

/-! ## The optimizer-facing functions -/

/-- The loop `for (i < network.size()) res += network[i]->Loss()`. -/
def addLosses {σ : Type} (E : Env σ) (net : List σ) (res : Int) : Int :=
  net.foldl (fun r s => r + E.layer.Loss s) res

/-- The last column index `begin + batchSize - 1` of a batch. -/
def lastCol (begin batchSize : Nat) : Nat := sizeSub (sizeAdd begin batchSize) 1

/-- The first two statements of `Evaluate(parameters, begin, batchSize, deterministic)`:
lazy parameter initialization and the switch of the mode flag. -/
def EvaluatePrepare {σ : Type} (E : Env σ) (st : State σ) (deterministic : Bool) : State σ :=
  if deterministic != (initializeIfEmpty E st).deterministic then
    ResetDeterministic E { initializeIfEmpty E st with deterministic := deterministic }
  else initializeIfEmpty E st

/-- The member function `Evaluate(parameters, begin, batchSize, deterministic)`; the
argument `parameters` is unnamed in the source and not used.  The result is the engine
after the call and the returned loss. -/
def Evaluate {σ : Type} (E : Env σ) (st : State σ) (begin batchSize : Nat) (deterministic : Bool) :
    Option (State σ × Int) :=
  ((EvaluatePrepare E st deterministic).predictors.cols begin (lastCol begin batchSize)).bind
  (fun p =>
    (ForwardAll E ⟨EvaluatePrepare E st deterministic, p, Mat.empty⟩
      (.layerOutput (sizeSub (EvaluatePrepare E st deterministic).layerOutputs.length 1))).bind
    (fun fr =>
      (fr.st.layerOutputs[sizeSub fr.st.layerOutputs.length 1]?).bind (fun out =>
        (fr.st.responses.cols begin (lastCol begin batchSize)).bind (fun r =>
          some (fr.st, addLosses E fr.st.network (E.outputLayer.Forward out.mat r))))))

/-- The member function `Evaluate(parameters, begin, batchSize)`. -/
def EvaluateBatch {σ : Type} (E : Env σ) (st : State σ) (begin batchSize : Nat) :
    Option (State σ × Int) :=
  Evaluate E st begin batchSize true

/-- The member function `Evaluate(parameters)`: one call per column of `predictors`
(which no call changes), the results added up in `res`. -/
def EvaluateDataset {σ : Type} (E : Env σ) (st : State σ) : Option (State σ × Int) :=
  (loopRange 0 st.predictors.n_cols).foldlM (fun acc i =>
    (Evaluate E acc.1 i 1 true).map (fun r => (r.1, acc.2 + r.2))) (st, 0)

/-- The first statement of `EvaluateWithGradient(parameters, begin, gradient, batchSize)`:
an empty `gradient` becomes a zero matrix of the shape of the argument `parameters`, any
other is zeroed in place. -/
def zeroGradient (parameters gradient : Mat) : Mat :=
  if gradient.is_empty then Mat.zerosOf parameters.n_rows parameters.n_cols else gradient.zeros

/-- The statements of `EvaluateWithGradient(parameters, begin, gradient, batchSize)` that
compute the returned value `res`: the zeroing of `gradient`, the call
`Evaluate(parameters, begin, batchSize, false)` and the loop over `Loss()` after it.
The result is the engine, `gradient` and `res`. -/
def EvaluateWithGradientLoss {σ : Type} (E : Env σ) (st : State σ) (parameters : Mat)
    (begin : Nat) (gradient : Mat) (batchSize : Nat) : Option (State σ × Mat × Int) :=
  (Evaluate E st begin batchSize false).map (fun r =>
    (r.1, zeroGradient parameters gradient, addLosses E r.1.network r.2))

/-- The member function `EvaluateWithGradient(parameters, begin, gradient, batchSize)`:
the result is the engine, `gradient` and the returned loss. -/
def EvaluateWithGradient {σ : Type} (E : Env σ) (st : State σ) (parameters : Mat)
    (begin : Nat) (gradient : Mat) (batchSize : Nat) : Option (State σ × Mat × Int) := do
  let r ← EvaluateWithGradientLoss E st parameters begin gradient batchSize
  let out ← r.1.layerOutputs[sizeSub r.1.layerOutputs.length 1]?
  let t ← r.1.responses.cols begin (lastCol begin batchSize)
  let st1 : State σ := { r.1 with error := E.outputLayer.Backward out.mat t }
  let st2 ← Backward E st1
  let p ← st2.predictors.cols begin (lastCol begin batchSize)
  let fr ← Gradient E ⟨st2, p, r.2.1⟩
  some (fr.st, fr.caller, r.2.2)

/-- The member function `EvaluateWithGradient(parameters, gradient)`: one call per column
of `predictors`, all on the same `gradient`, the returned losses added up in `res`. -/
def EvaluateWithGradientDataset {σ : Type} (E : Env σ) (st : State σ) (parameters gradient : Mat) :
    Option (State σ × Mat × Int) :=
  (loopRange 0 st.predictors.n_cols).foldlM (fun acc i =>
    (EvaluateWithGradient E acc.1 parameters i acc.2.1 1).map (fun r =>
      (r.1, r.2.1, acc.2.2 + r.2.2))) (st, gradient, 0)

/-- The member function `Backward(inputs, targets, gradients)`: the result is the engine,
`gradients` and the returned loss. -/
def BackwardTargets {σ : Type} (E : Env σ) (st : State σ) (inputs targets : Mat) :
    Option (State σ × Mat × Int) := do
  let out ← st.layerOutputs[sizeSub st.network.length 1]?
  let res := addLosses E st.network (E.outputLayer.Forward out.mat targets)
  let st1 : State σ := { st with error := E.outputLayer.Backward out.mat targets }
  let st2 ← Backward E st1
  let fr ← Gradient E ⟨st2, inputs, Mat.zerosOf st.parameters.n_rows st.parameters.n_cols⟩
  some (fr.st, fr.caller, res)


/-! ## The dataset, training and prediction -/

/-- The member function `ResetData(predictors, responses)`. -/
def ResetData {σ : Type} (E : Env σ) (st : State σ) (predictors responses : Mat) : State σ :=
  let st1 : State σ := ResetDeterministic E
    { st with numFunctions := responses.n_cols, predictors := predictors,
              responses := responses, deterministic := false }
  if st1.reset then st1 else ResetParameters E st1

/-- The member function `Train(predictors, responses, optimizer, callbacks...)`.  The
optimizer is a template parameter: `Optimize` is its call
`optimizer.Optimize(*this, parameters, callbacks...)`, which gets the engine and returns
it, after the iterations, with the final objective.  The timer and the log line are not
modelled. -/
def Train {σ : Type} (E : Env σ) (Optimize : State σ → Option (State σ × Int)) (st : State σ)
    (predictors responses : Mat) : Option (State σ × Int) :=
  Optimize (ResetData E st predictors responses)

/-- The member function `set_size(r, c)` of a matrix: the shape becomes `r x c`.  The
elements are kept when their number does not change and are unspecified otherwise (zero
here). -/
def Mat.set_size2 (m : Mat) (r c : Nat) : Mat :=
  if m.n_elem = r * c then ⟨r, c, m.mem⟩ else ⟨r, c, List.replicate (r * c) 0⟩

/-- The matrix object `OutputType(m.colptr(i), m.n_rows, 1, false, true)`: column `i` of
`m` as a matrix of one column. -/
def Mat.columnAlias (m : Mat) (i : Nat) : Mat :=
  ⟨m.n_rows, 1, (m.mem.drop (m.colptr i)).take m.n_rows⟩

/-- The statement `if (!deterministic) { deterministic = true; ResetDeterministic(); }`
of `Predict`. -/
def forceDeterministic {σ : Type} (E : Env σ) (st : State σ) : State σ :=
  if st.deterministic then st else ResetDeterministic E { st with deterministic := true }

/-- The body of the loop of `Predict`, on the pair of the engine and `results`: the call
`Forward(predictorAlias, resultAlias)`; what the call leaves in `resultAlias` is in the
memory of column `i` of `results`. -/
def predictColumn {σ : Type} (E : Env σ) (predictors : Mat) (acc : State σ × Mat) (i : Nat) :
    Option (State σ × Mat) :=
  (ForwardAll E ⟨acc.1, predictors.columnAlias i, acc.2.columnAlias i⟩ .caller).map (fun fr =>
    (fr.st, { acc.2 with
      mem := overwrite acc.2.mem (acc.2.colptr i) (fr.caller.mem.take acc.2.n_rows) }))

/-- The member function `Predict(predictors, results, batchSize)`: the result is the
engine after the call and `results`.  The source does not use `batchSize`. -/
def Predict {σ : Type} (E : Env σ) (st : State σ) (predictors results : Mat) (_batchSize : Nat) :
    Option (State σ × Mat) :=
  ((forceDeterministic E (initializeIfEmpty E st)).network[sizeSub
      (forceDeterministic E (initializeIfEmpty E st)).network.length 1]?).bind (fun back =>
    (loopRange 0 predictors.n_cols).foldlM (predictColumn E predictors)
      (forceDeterministic E (initializeIfEmpty E st),
       results.set_size2 (E.layer.OutputSize back) predictors.n_cols))

/-! ## Serialization, copies and moves -/

/-- An engine as an object: the output layer and the initialization rule, which are data
members too, are in `env`, the other data members in `st`. -/
structure Engine (σ : Type) where
  env : Env σ
  st : State σ

/-- What `serialize` hands to the archive, in the order of the source: `outputLayer`,
`initializeRule`, `network`, `parameters`, `inputDimensions`, `reset`. -/
structure Archive (σ : Type) where
  outputLayer : OutputLayerOps
  initNetwork : List σ → Mat → List σ × Mat
  initNetwork_length : ∀ net p, (initNetwork net p).1.length = net.length
  network : List σ
  parameters : Mat
  inputDimensions : List Nat
  reset : Bool

/-- The member function `clear()` of a backing buffer: it has no element afterwards. -/
def Arena.clear (a : Arena) : Arena := ⟨0, 0, a.generation + 1⟩

/-- A default-constructed `OutputType()` as an entry of a view table. -/
def Alias.empty : Alias := ⟨0, Mat.empty⟩

/-- The member function `serialize(ar, version)` with a saving archive. -/
def serializeSave {σ : Type} (eng : Engine σ) : Archive σ where
  outputLayer := eng.env.outputLayer
  initNetwork := eng.env.initNetwork
  initNetwork_length := eng.env.initNetwork_length
  network := eng.st.network
  parameters := eng.st.parameters
  inputDimensions := eng.st.inputDimensions
  reset := eng.st.reset

/-- The member function `serialize(ar, version)` with a loading archive: the six
archived members are read, then the block under `cereal::is_loading` runs.  The members
`error` and `totalOutputSize` are not mentioned by the function. -/
def serializeLoad {σ : Type} (ar : Archive σ) (eng : Engine σ) : Engine σ where
  env :=
    { layer := eng.env.layer
      outputLayer := ar.outputLayer
      initNetwork := ar.initNetwork
      initNetwork_length := ar.initNetwork_length }
  st :=
    { network := ar.network
      parameters := ar.parameters
      inputDimensions := ar.inputDimensions
      reset := ar.reset
      predictors := Mat.empty
      responses := Mat.empty
      numFunctions := 0
      layerOutputMatrix := eng.st.layerOutputMatrix.clear
      layerOutputs := List.replicate ar.network.length Alias.empty
      deltaMatrix := eng.st.deltaMatrix.clear
      layerDeltas := List.replicate ar.network.length Alias.empty
      gradientMatrix := Mat.empty
      layerGradients := List.replicate ar.network.length Alias.empty
      deterministic := true
      error := eng.st.error
      totalOutputSize := eng.st.totalOutputSize }

/-- The copy constructor `FFN(const FFN& network)`: ten members are copied by the
initializer list, the layers are cloned, the three view tables get one empty entry per
layer, `totalOutputSize` is copied; the three backing buffers are default-constructed. -/
def copyConstructor {σ : Type} (src : Engine σ) : Engine σ where
  env := src.env
  st :=
    { network := src.st.network.map src.env.layer.Clone
      parameters := src.st.parameters
      reset := src.st.reset
      inputDimensions := src.st.inputDimensions
      predictors := src.st.predictors
      responses := src.st.responses
      numFunctions := src.st.numFunctions
      error := src.st.error
      deterministic := src.st.deterministic
      layerOutputMatrix := ⟨0, 0, 0⟩
      totalOutputSize := src.st.totalOutputSize
      layerOutputs := List.replicate (src.st.network.map src.env.layer.Clone).length Alias.empty
      deltaMatrix := ⟨0, 0, 0⟩
      layerDeltas := List.replicate (src.st.network.map src.env.layer.Clone).length Alias.empty
      gradientMatrix := Mat.empty
      layerGradients := List.replicate (src.st.network.map src.env.layer.Clone).length Alias.empty }

/-- The move constructor `FFN(FFN&& network)`: the initializer list names every data
member except `totalOutputSize`, and the body is empty, so that member is not initialized
by the constructor; `uninitialized` is the value it then holds. -/
def moveConstructor {σ : Type} (uninitialized : Nat) (src : Engine σ) : Engine σ where
  env := src.env
  st :=
    { network := src.st.network
      parameters := src.st.parameters
      reset := src.st.reset
      inputDimensions := src.st.inputDimensions
      predictors := src.st.predictors
      responses := src.st.responses
      numFunctions := src.st.numFunctions
      error := src.st.error
      deterministic := src.st.deterministic
      layerOutputMatrix := src.st.layerOutputMatrix
      totalOutputSize := uninitialized
      layerOutputs := src.st.layerOutputs
      deltaMatrix := src.st.deltaMatrix
      layerDeltas := src.st.layerDeltas
      gradientMatrix := src.st.gradientMatrix
      layerGradients := src.st.layerGradients }

/-- The member function `Swap(network)`: every data member is exchanged; the result is
the pair of the engine the function is called on and of its argument. -/
def Swap {σ : Type} (self other : Engine σ) : Engine σ × Engine σ :=
  ({ env := { self.env with outputLayer := other.env.outputLayer,
                            initNetwork := other.env.initNetwork,
                            initNetwork_length := other.env.initNetwork_length },
     st := other.st },
   { env := { other.env with outputLayer := self.env.outputLayer,
                             initNetwork := self.env.initNetwork,
                             initNetwork_length := self.env.initNetwork_length },
     st := self.st })

/-- The assignment `operator=(FFN network)`: `Swap(network); return *this;`.  The
parameter is passed by value, so `arg` is the engine made from the right-hand side by the
copy constructor or by the move constructor. -/
def assign {σ : Type} (self arg : Engine σ) : Engine σ := (Swap self arg).1


/-! ## Vocabulary of the theorems -/

/-- The uniform description of a forward pass over the layers `begin .. end_`: layer `k`
reads the caller's input when it is the first and the output view of layer `k - 1`
otherwise, and writes `results` when it is the last and its own output view otherwise. -/
def forwardChain (results : Operand) (begin end_ : Nat) : List Call :=
  (List.range' begin (end_ - begin + 1)).map (fun k =>
    Call.forward k (if k = begin then Operand.input else Operand.layerOutput (k - 1))
      (if k = end_ then results else Operand.layerOutput k))

/-- The composition of the `Forward` functions of a list of layers, first layer first. -/
def compose {σ : Type} (E : Env σ) (layers : List σ) (x : Mat) : Mat :=
  layers.foldl (fun v s => (E.layer.Forward s v).2) x

/-- The engine with the table `layerOutputs` forgotten. -/
def State.dropOutputs {σ : Type} (st : State σ) : State σ := { st with layerOutputs := [] }

/-- The engine with the table `layerDeltas` forgotten. -/
def State.dropDeltas {σ : Type} (st : State σ) : State σ := { st with layerDeltas := [] }

/-- The engine with the table `layerGradients` forgotten. -/
def State.dropGradients {σ : Type} (st : State σ) : State σ := { st with layerGradients := [] }

/-- The engine with the layer list forgotten. -/
def State.dropNetwork {σ : Type} (st : State σ) : State σ := { st with network := [] }

/-- The number of layers and the lengths of the three view tables. -/
structure Sizes where
  nNet : Nat
  nOut : Nat
  nDelta : Nat
  nGrad : Nat
deriving DecidableEq, Repr

/-- The sizes of the vectors of an engine. -/
def State.sizes {σ : Type} (st : State σ) : Sizes :=
  ⟨st.network.length, st.layerOutputs.length, st.layerDeltas.length, st.layerGradients.length⟩

/-- An operand that is an entry of a view table names an existing entry. -/
def Operand.inRange (z : Sizes) : Operand → Bool
  | .input => true
  | .caller => true
  | .error => true
  | .layerOutput i => decide (i < z.nOut)
  | .layerDelta i => decide (i < z.nDelta)
  | .layerGradient i => decide (i < z.nGrad)

/-- The operand a call writes. -/
def Call.target : Call → Operand
  | .forward _ _ dst => dst
  | .backward _ _ _ g => g
  | .gradient _ _ _ grad => grad

/-- The operands a call reads. -/
def Call.sources : Call → List Operand
  | .forward _ src _ => [src]
  | .backward _ out gy _ => [out, gy]
  | .gradient _ src err grad => [src, err, grad]

/-- The layer a call invokes. -/
def Call.layer : Call → Nat
  | .forward k _ _ => k
  | .backward k _ _ _ => k
  | .gradient k _ _ _ => k

/-- Every index a call uses, into the layer list and into the view tables, is in range,
and the call does not write the read-only input. -/
def Call.inRange (z : Sizes) (c : Call) : Bool :=
  decide (c.layer < z.nNet) && c.sources.all (Operand.inRange z) && c.target.inRange z
    && decide (c.target ≠ Operand.input)

/-! ## A small concrete engine, used to instantiate the theorems -/

/-- A layer that multiplies its input by `scale`, counts its `Forward` calls, reports the
auxiliary loss `aux`, multiplies an upstream gradient by `scale`, and adds the sum of its
input and of its upstream gradient to every element of its parameter gradient. -/
structure SampleLayer where
  scale : Int
  aux : Int
  outSize : Nat
  weights : Nat
  inDims : List Nat
  det : Bool
  calls : Nat
deriving DecidableEq, Repr

/-- The operations of `SampleLayer`. -/
def sampleOps : LayerOps SampleLayer where
  Forward s x := ({ s with calls := s.calls + 1 }, ⟨x.n_rows, x.n_cols, x.mem.map (fun v => v * s.scale)⟩)
  Backward s _ e := ⟨e.n_rows, e.n_cols, e.mem.map (fun v => v * s.scale)⟩
  Gradient _ x e old := ⟨old.n_rows, old.n_cols, old.mem.map (fun v => v + x.mem.sum + e.mem.sum)⟩
  Loss s := s.aux
  OutputSize s := s.outSize
  WeightSize s := s.weights
  OutputDimensions s := [s.outSize, 1]
  InputDimensions s := s.inDims
  setInputDimensions s d := { s with inDims := d }
  Deterministic s := s.det
  setDeterministic s b := { s with det := b }
  Clone s := s

/-- An output layer whose loss is the sum of the differences between prediction and
target. -/
def sampleOutputLayer : OutputLayerOps where
  Forward p t := (List.zipWith (fun a b => a - b) p.mem t.mem).sum
  Backward p t := ⟨p.n_rows, p.n_cols, List.zipWith (fun a b => a - b) p.mem t.mem⟩

/-- The sample environment; initialization zeroes the parameter buffer. -/
def sampleEnv : Env SampleLayer where
  layer := sampleOps
  outputLayer := sampleOutputLayer
  initNetwork net _ := (net, Mat.zerosOf (net.map (fun s => s.weights)).sum 1)
  initNetwork_length := fun _ _ => rfl

/-- An engine of two layers (times 2, times 3; two and three weights; auxiliary loss 1
each) with a cached dataset of two examples. -/
def sampleState : State SampleLayer where
  network := [⟨2, 1, 1, 2, [], false, 0⟩, ⟨3, 1, 1, 3, [], false, 0⟩]
  parameters := Mat.zerosOf 5 1
  reset := false
  inputDimensions := [1]
  predictors := ⟨1, 2, [1, 2]⟩
  responses := ⟨1, 2, [0, 0]⟩
  numFunctions := 2
  error := Mat.empty
  deterministic := false
  layerOutputMatrix := ⟨0, 0, 0⟩
  totalOutputSize := 2
  layerOutputs := [⟨0, Mat.empty⟩, ⟨0, Mat.empty⟩]
  deltaMatrix := ⟨0, 0, 0⟩
  layerDeltas := [⟨0, Mat.empty⟩, ⟨0, Mat.empty⟩]
  gradientMatrix := Mat.empty
  layerGradients := [⟨0, Mat.empty⟩, ⟨0, Mat.empty⟩]

/-- The sample engine given one delta view more than it has layers, so that the index
`layerDeltas[network.size()]` used by `Backward()` names an existing entry. -/
def spareViewState : State SampleLayer :=
  { sampleState with layerDeltas := [⟨0, Mat.empty⟩, ⟨0, Mat.empty⟩, ⟨0, Mat.empty⟩] }

/-- The sample engine with an output arena of 25 elements. -/
def arena25State : State SampleLayer :=
  { sampleState with layerOutputMatrix := ⟨1, 25, 0⟩ }

/-- The sample engine with a delta arena of 5 elements and an output arena of 100
elements. -/
def wideOutputState : State SampleLayer :=
  { sampleState with deltaMatrix := ⟨1, 5, 0⟩, layerOutputMatrix := ⟨1, 100, 0⟩ }

/-- The sample engine with a delta arena of 5 elements and an output arena of 10
elements; it differs from `wideOutputState` in the output arena only. -/
def narrowOutputState : State SampleLayer :=
  { sampleState with deltaMatrix := ⟨1, 5, 0⟩, layerOutputMatrix := ⟨1, 10, 0⟩ }

/-- A call frame on `sampleState` with the one-example input `[5]`. -/
def sampleFrame : Frame SampleLayer := ⟨sampleState, ⟨1, 1, [5]⟩, Mat.empty⟩

/-- The operations of an element-wise layer on `SampleLayer`: the output has the shape of
the input, so `OutputDimensions()` is `InputDimensions()` and `OutputSize()` is the product
of the input dimensions (1 as long as none is recorded). -/
def shapedOps : LayerOps SampleLayer :=
  { sampleOps with
    OutputSize := fun s => s.inDims.prod
    OutputDimensions := fun s => s.inDims }

/-- The sample environment with element-wise layers. -/
def shapedEnv : Env SampleLayer :=
  { sampleEnv with layer := shapedOps }

/-- A newly built engine of two element-wise layers (times 2, times 3): no input
dimensions are recorded yet, `reset` is false, every `OutputSize()` is 1 and
`totalOutputSize` is their sum 2. -/
def freshState : State SampleLayer :=
  { sampleState with predictors := Mat.empty, responses := Mat.empty, numFunctions := 0 }

/-- A call frame on `freshState` with an input of three rows and two columns. -/
def freshFrame : Frame SampleLayer := ⟨freshState, ⟨3, 2, [1, 2, 3, 4, 5, 6]⟩, Mat.empty⟩

/-- The sample engine as an object. -/
def sampleEngine : Engine SampleLayer := ⟨sampleEnv, sampleState⟩

/-- An engine without layers, as made by the constructor `FFN(outputLayer,
initializeRule)`, with the value 0 in `totalOutputSize`. -/
def blankEngine : Engine SampleLayer where
  env := sampleEnv
  st :=
    { network := []
      parameters := Mat.empty
      reset := false
      inputDimensions := []
      predictors := Mat.empty
      responses := Mat.empty
      numFunctions := 0
      error := Mat.empty
      deterministic := false
      layerOutputMatrix := ⟨0, 0, 0⟩
      totalOutputSize := 0
      layerOutputs := []
      deltaMatrix := ⟨0, 0, 0⟩
      layerDeltas := []
      gradientMatrix := Mat.empty
      layerGradients := [] }


/-! ## Vocabulary of the theorems on copies, archives and modes -/

/-- The invariant of `totalOutputSize`: it is the sum of `OutputSize()` over the layers
of the engine. -/
def totalOutputSizeInvariant {σ : Type} (eng : Engine σ) : Bool :=
  decide (eng.st.totalOutputSize = (eng.st.network.map eng.env.layer.OutputSize).sum)

/-- Every view of a table lies inside the backing buffer it points into. -/
def viewsInside (arena : Arena) (views : List Alias) : Bool :=
  views.all (fun a => decide (a.start + a.mat.n_elem ≤ arena.n_elem))

/-- The members `Deterministic()` and `InputDimensions()` of a layer are data members:
an assignment to one of them sets it and leaves the other, and `Forward` leaves both, as
it leaves the output dimensions. -/
structure MemberContract {σ : Type} (L : LayerOps σ) : Prop where
  deterministic_set : ∀ s b, L.Deterministic (L.setDeterministic s b) = b
  deterministic_dims : ∀ s d, L.Deterministic (L.setInputDimensions s d) = L.Deterministic s
  deterministic_forward : ∀ s x, L.Deterministic (L.Forward s x).1 = L.Deterministic s
  dims_set : ∀ s d, L.InputDimensions (L.setInputDimensions s d) = d
  dims_deterministic : ∀ s b, L.InputDimensions (L.setDeterministic s b) = L.InputDimensions s
  dims_forward : ∀ s x, L.InputDimensions (L.Forward s x).1 = L.InputDimensions s
  outputDimensions_forward : ∀ s x, L.OutputDimensions (L.Forward s x).1 = L.OutputDimensions s

/-- The members of the engine that are no layer list, no view table, no backing buffer
and not `error`. -/
structure Members where
  parameters : Mat
  reset : Bool
  inputDimensions : List Nat
  predictors : Mat
  responses : Mat
  numFunctions : Nat
  deterministic : Bool
  totalOutputSize : Nat
deriving DecidableEq, Repr

/-- The members of an engine. -/
def State.members {σ : Type} (st : State σ) : Members :=
  ⟨st.parameters, st.reset, st.inputDimensions, st.predictors, st.responses, st.numFunctions,
    st.deterministic, st.totalOutputSize⟩

/-- One call of a member function made from outside on an engine, with its arguments. -/
inductive EngineCall where
  | forward (inputs results : Mat) (begin end_ : Nat)
  | backward
  | gradient (input gradient : Mat)
  | evaluate (begin batchSize : Nat) (deterministic : Bool)
  | evaluateWithGradient (parameters : Mat) (begin : Nat) (gradient : Mat) (batchSize : Nat)
  | predict (predictors results : Mat) (batchSize : Nat)
  | resetData (predictors responses : Mat)
deriving DecidableEq, Repr

/-- The engine after one call made from outside. -/
def EngineCall.apply {σ : Type} (E : Env σ) (st : State σ) : EngineCall → Option (State σ)
  | .forward inputs results begin end_ =>
      (Forward E ⟨st, inputs, results⟩ Operand.caller begin end_).map (fun fr => fr.st)
  | .backward => Backward E st
  | .gradient x g => (Gradient E ⟨st, x, g⟩).map (fun fr => fr.st)
  | .evaluate begin batchSize deterministic =>
      (Evaluate E st begin batchSize deterministic).map (fun r => r.1)
  | .evaluateWithGradient parameters begin g batchSize =>
      (EvaluateWithGradient E st parameters begin g batchSize).map (fun r => r.1)
  | .predict predictors results batchSize =>
      (Predict E st predictors results batchSize).map (fun r => r.1)
  | .resetData predictors responses => some (ResetData E st predictors responses)

/-- The engine after a sequence of calls made from outside, in order. -/
def applyCalls {σ : Type} (E : Env σ) (st : State σ) (calls : List EngineCall) :
    Option (State σ) :=
  calls.foldlM (EngineCall.apply E) st

/-! ## Vocabulary of the theorem on batches -/

/-- The columns `begin .. begin + batchSize - 1` of a matrix. -/
def Mat.batch (m : Mat) (begin batchSize : Nat) : Mat :=
  ⟨m.n_rows, batchSize, (m.mem.drop (begin * m.n_rows)).take (batchSize * m.n_rows)⟩

/-- The layers act on each column of their input independently of the others: the output
has as many columns as the input, and column `i` of the output for an input is the
output for column `i` of the input alone. -/
def ColumnwiseLayers {σ : Type} (L : LayerOps σ) : Prop :=
  ∀ s x, (L.Forward s x).2.n_cols = x.n_cols ∧
    ∀ i, i < x.n_cols → ((L.Forward s x).2).batch i 1 = (L.Forward s (x.batch i 1)).2

/-- The value returned by `Evaluate(parameters, begin, batchSize, deterministic)` on an
engine, 0 if the call does not return. -/
def evaluateLoss {σ : Type} (E : Env σ) (st : State σ) (begin batchSize : Nat)
    (deterministic : Bool) : Int :=
  ((Evaluate E st begin batchSize deterministic).map (fun r => r.2)).getD 0

/-- An output layer whose loss is, column by column, the sum of the differences between
prediction and target. -/
def columnLossLayer : OutputLayerOps where
  Forward p t := ((List.range p.n_cols).map (fun i =>
    (List.zipWith (fun a b => a - b) (p.batch i 1).mem (t.batch i 1).mem).sum)).sum
  Backward p t := ⟨p.n_rows, p.n_cols, List.zipWith (fun a b => a - b) p.mem t.mem⟩

/-- The sample layers without auxiliary loss. -/
def quietOps : LayerOps SampleLayer :=
  { sampleOps with Loss := fun _ => 0 }

/-- The sample environment with layers without auxiliary loss and the column-by-column
loss. -/
def quietEnv : Env SampleLayer :=
  { sampleEnv with layer := quietOps, outputLayer := columnLossLayer }


/-! ## Vocabulary of the theorems on the layout of the arenas -/

/-- The views of a table lie one after the other from the start of the buffer, in the
order of the table: every view starts where the sizes of the views before it end. -/
def contiguousViews (views : List Alias) : Prop :=
  ∀ (i : Nat) (a : Alias), views[i]? = some a →
    a.start = ((views.take i).map (fun v => v.mat.n_elem)).sum

/-- No two views of a table overlap: a view ends before any later view starts. -/
def disjointViews (views : List Alias) : Prop :=
  ∀ (i j : Nat) (a b : Alias), i < j → views[i]? = some a → views[j]? = some b →
    a.start + a.mat.n_elem ≤ b.start

/-- The sample engine with the parameter buffer `[1, 2, 3, 4, 5]`; `reset` is false. -/
def presetState : State SampleLayer :=
  { sampleState with parameters := ⟨5, 1, [1, 2, 3, 4, 5]⟩ }

/-- The sample engine with the input-shape record `[3, 4]`. -/
def imageState : State SampleLayer :=
  { sampleState with inputDimensions := [3, 4] }

/-- The sample engine in inference mode: the mode flag of the engine and of both layers
is true. -/
def inferenceState : State SampleLayer :=
  { sampleState with
    deterministic := true
    network := [⟨2, 1, 1, 2, [], true, 0⟩, ⟨3, 1, 1, 3, [], true, 0⟩] }

/-- The numbers of rows that `InitializeBackwardPassMemory` gives the delta views, in the
order of the layers: `inputSize` for layer 0, the output size of layer `i - 1` for layer
`i`. -/
def deltaRows {σ : Type} (E : Env σ) (st : State σ) : List Nat :=
  (inputSize st :: st.network.map E.layer.OutputSize).take st.network.length


/-! ## Vocabulary of the theorems on passes that stay inside the arenas -/

/-- The layers write a parameter gradient of the shape and of the number of elements of
the view they are given. -/
def GradientContract {σ : Type} (L : LayerOps σ) : Prop :=
  ∀ s x e old, (L.Gradient s x e old).n_rows = old.n_rows ∧
    (L.Gradient s x e old).n_cols = old.n_cols ∧
    (L.Gradient s x e old).mem.length = old.mem.length

/-- What the specification says `Gradient(input, gradient)` does with layer `i`, on the
engine `st` and the present content `g` of `gradient`: the `Gradient` of layer `i` is given
`input` when `i` is 0 and the recorded output of layer `i - 1` otherwise, `error` when `i`
is the last layer and the delta view of layer `i + 1` otherwise, and the
parameter-gradient view `i`, which shows and receives the elements of `gradient` from its
offset on. -/
def specGradientStep {σ : Type} (E : Env σ) (st : State σ) (input g : Mat) (i : Nat) :
    Option Mat :=
  (st.network[i]?).bind (fun s =>
    (if i = 0 then some input else (st.layerOutputs[i - 1]?).map (fun a => a.mat)).bind (fun x =>
      (if i = st.network.length - 1 then some st.error
        else (st.layerDeltas[i + 1]?).map (fun a => a.mat)).bind (fun e =>
        (st.layerGradients[i]?).map (fun v =>
          let old : Mat :=
            ⟨v.mat.n_rows, v.mat.n_cols, (g.mem.drop v.start).take (v.mat.n_rows * v.mat.n_cols)⟩
          let y : Mat := E.layer.Gradient s x e old
          { g with mem := overwrite g.mem v.start y.mem }))))

/-- What the specification says `Gradient(input, gradient)` does: once the
parameter-gradient views are made, the layers `0, 1, ..., L - 1` are called once each, in
this order, as `specGradientStep` says; the engine is otherwise left as it is. -/
def specGradient {σ : Type} (E : Env σ) (fr : Frame σ) : Option (Frame σ) :=
  (InitializeGradientPassMemory E fr.st fr.caller).bind (fun st1 =>
    ((List.range st1.network.length).foldlM (specGradientStep E st1 fr.input) fr.caller).map
      (fun g => ⟨st1, fr.input, g⟩))

/-- The sample engine after a forward and a backward pass on the one-example input `[5]`:
the output views hold `[10]` and `[30]`, the delta views `[4]` and `[7]`, `error` is
`[9]`, and both arenas have two elements. -/
def trainedState : State SampleLayer :=
  { sampleState with
    reset := true
    layerOutputMatrix := ⟨1, 2, 1⟩
    layerOutputs := [⟨0, ⟨1, 1, [10]⟩⟩, ⟨1, ⟨1, 1, [30]⟩⟩]
    deltaMatrix := ⟨1, 2, 1⟩
    layerDeltas := [⟨0, ⟨1, 1, [4]⟩⟩, ⟨1, ⟨1, 1, [7]⟩⟩]
    error := ⟨1, 1, [9]⟩ }

/-- A call frame on `trainedState` with the input `[5]` and a gradient of five elements. -/
def trainedFrame : Frame SampleLayer := ⟨trainedState, ⟨1, 1, [5]⟩, ⟨5, 1, [1, 1, 1, 1, 1]⟩⟩

/-! ## Vocabulary of the theorem on batches and single examples -/

theorem sizeSub_of_le {a b : Nat} (hb : b ≤ a) (ha : a < SIZE) : sizeSub a b = a - b := by
  unfold sizeSub SIZE at *
  omega

theorem sizeAdd_of_lt {a b : Nat} (h : a + b < SIZE) : sizeAdd a b = a + b := by
  unfold sizeAdd
  exact Nat.mod_eq_of_lt h

theorem sizeMul_of_lt {a b : Nat} (h : a * b < SIZE) : sizeMul a b = a * b := by
  unfold sizeMul
  exact Nat.mod_eq_of_lt h

/-- A loop in the `Option` monad whose body keeps an invariant and succeeds under it
succeeds and keeps the invariant. -/
theorem foldlM_invariant {α β : Type} (f : β → α → Option β) (I : β → Prop) :
    ∀ (l : List α) (b : β), I b →
      (∀ b a, a ∈ l → I b → ∃ b', f b a = some b' ∧ I b') →
      ∃ b', l.foldlM f b = some b' ∧ I b' := by
  intro l
  induction l with
  | nil => intro b hb _; exact ⟨b, by simp, hb⟩
  | cons a l ih =>
    intro b hb hstep
    obtain ⟨b1, h1, hI1⟩ := hstep b a (by simp) hb
    obtain ⟨b2, h2, hI2⟩ := ih b1 hI1 (fun b' a' ha' hI => hstep b' a' (by simp [ha']) hI)
    exact ⟨b2, by simp [List.foldlM_cons, h1, h2], hI2⟩

theorem run_nil {σ : Type} (E : Env σ) (fr : Frame σ) : run E fr [] = some fr := by
  simp [run]

theorem run_cons {σ : Type} (E : Env σ) (fr : Frame σ) (c : Call) (cs : List Call) :
    run E fr (c :: cs) = (exec E fr c).bind (fun fr1 => run E fr1 cs) := by
  simp [run, List.foldlM_cons]

theorem run_append {σ : Type} (E : Env σ) (fr : Frame σ) (cs ds : List Call) :
    run E fr (cs ++ ds) = (run E fr cs).bind (fun fr1 => run E fr1 ds) := by
  simp [run, List.foldlM_append]


theorem ForwardCalls_eq_forwardChain (results : Operand) (begin end_ : Nat)
    (h : begin ≤ end_) (hs : end_ < SIZE) :
    ForwardCalls results begin end_ = forwardChain results begin end_ := by
  unfold ForwardCalls forwardChain
  rcases Nat.eq_or_lt_of_le h with heq | hlt
  · subst heq
    simp
  · rw [if_pos hlt]
    obtain ⟨n, rfl⟩ : ∃ n, end_ = begin + (n + 1) := ⟨end_ - begin - 1, by omega⟩
    have e1 : begin + (n + 1) - begin + 1 = 1 + (n + 1) := by omega
    have e2 : sizeSub (begin + (n + 1)) begin = n + 1 := by
      rw [sizeSub_of_le (by omega) hs]; omega
    have e3 : sizeSub (begin + (n + 1)) 1 = begin + n := by
      rw [sizeSub_of_le (by omega) hs]; omega
    have e4 : List.range' begin (1 + (n + 1)) =
        begin :: (List.map (fun i => begin + i) (List.range' 1 n) ++ [begin + (n + 1)]) := by
      rw [Nat.add_comm 1 (n + 1), List.range'_succ, List.range'_concat, List.map_add_range']
      simp [Nat.add_assoc, Nat.add_comm 1 n]
    rw [e1, e2, e3, e4]
    simp only [loopRange, Nat.add_sub_cancel, List.map_cons, List.map_append, List.map_map,
      List.singleton_append, List.cons_append, List.map_nil]
    have hmid : ∀ i ∈ List.range' 1 n,
        Call.forward (sizeAdd begin i) (Operand.layerOutput (sizeSub (sizeAdd begin i) 1))
            (Operand.layerOutput (sizeAdd begin i)) =
          ((fun k => Call.forward k (if k = begin then Operand.input else Operand.layerOutput (k - 1))
            (if k = begin + (n + 1) then results else Operand.layerOutput k)) ∘ fun i => begin + i) i := by
      intro i hi
      obtain ⟨h1, h2⟩ := List.mem_range'_1.1 hi
      have ha : sizeAdd begin i = begin + i := sizeAdd_of_lt (by omega)
      have hb : sizeSub (begin + i) 1 = begin + i - 1 := sizeSub_of_le (by omega) (by omega)
      have hc : ¬ (begin + i = begin) := by omega
      have hd : ¬ (begin + i = begin + (n + 1)) := by omega
      simp only [Function.comp, ha, hb, if_neg hc, if_neg hd]
    rw [List.map_congr_left hmid]
    have hc : ¬ (begin + (n + 1) = begin) := by omega
    simp [hc]


theorem reallocOutputs_dropOutputs {σ : Type} (st : State σ) (b : Nat) :
    (reallocOutputs st b).layerOutputs = st.layerOutputs ∧
    (reallocOutputs st b).network = st.network := by
  unfold reallocOutputs
  split <;> exact ⟨rfl, rfl⟩

theorem mem_loopRange_zero {i n : Nat} (h : i ∈ loopRange 0 n) : i < n := by
  have := List.mem_range'_1.1 h
  simp at this
  omega

/-- The forward-pass arena set-up succeeds when there are at least as many layers as
output views, and changes nothing but the backing buffer and the views. -/
theorem InitializeForwardPassMemory_ok {σ : Type} (E : Env σ) (st : State σ) (b : Nat)
    (h : st.layerOutputs.length ≤ st.network.length) :
    ∃ st', InitializeForwardPassMemory E st b = some st' ∧
      st'.dropOutputs = (reallocOutputs st b).dropOutputs ∧
      st'.layerOutputs.length = st.layerOutputs.length := by
  obtain ⟨hlen, hnet⟩ := reallocOutputs_dropOutputs st b
  obtain ⟨acc, hacc, hI1, hI2⟩ := foldlM_invariant (aliasOutput E b)
    (fun acc => acc.1.dropOutputs = (reallocOutputs st b).dropOutputs ∧
      acc.1.layerOutputs.length = st.layerOutputs.length)
    (loopRange 0 st.layerOutputs.length) (reallocOutputs st b, 0) ⟨rfl, by rw [hlen]⟩
    (by
      intro acc i hi hI
      obtain ⟨hI1, hI2⟩ := hI
      have hi' : i < st.layerOutputs.length := mem_loopRange_zero hi
      have hn : acc.1.network = st.network := by
        have := congrArg State.network hI1
        exact this.trans hnet
      have h1 : i < acc.1.network.length := by rw [hn]; omega
      have h2 : i < acc.1.layerOutputs.length := by rw [hI2]; exact hi'
      refine ⟨_, by simp [aliasOutput, List.getElem?_eq_getElem h1, List.getElem?_eq_getElem h2]; rfl, ?_, ?_⟩
      · exact hI1
      · simp [hI2])
  exact ⟨acc.1, by simp [InitializeForwardPassMemory, hacc], hI1, hI2⟩

theorem propagateShapes_ok {σ : Type} (E : Env σ) (net : List σ) (r : Nat) (h : 0 < net.length)
    (hs : net.length < SIZE) :
    ∃ net', propagateShapes E net r = some net' ∧ net'.length = net.length := by
  have h0 : net[0]? = some net[0] := List.getElem?_eq_getElem h
  obtain ⟨net', h1, h2⟩ := foldlM_invariant (propagateStep E) (fun l => l.length = net.length)
    (loopRange 1 net.length) (net.set 0 (E.layer.setInputDimensions net[0] [r, 1])) (by simp)
    (by
      intro l i hi hl
      obtain ⟨hi1, hi2⟩ := List.mem_range'_1.1 hi
      have e1 : sizeSub i 1 = i - 1 := sizeSub_of_le hi1 (by omega)
      have h1 : i - 1 < l.length := by omega
      have h2 : i < l.length := by omega
      exact ⟨_, by simp [propagateStep, e1, List.getElem?_eq_getElem h1, List.getElem?_eq_getElem h2]; rfl,
        by simp [hl]⟩)
  exact ⟨net', by simp [propagateShapes, h0, h1], h2⟩


theorem exec_forward_view {σ : Type} (E : Env σ) (fr : Frame σ) (k j : Nat) (src : Operand)
    (s : σ) (x : Mat) (hs : fr.st.network[k]? = some s) (hx : read fr src = some x)
    (hj : j < fr.st.layerOutputs.length) :
    ∃ fr1, exec E fr (Call.forward k src (Operand.layerOutput j)) = some fr1 ∧
      fr1.st.network = fr.st.network.set k (E.layer.Forward s x).1 ∧
      fr1.st.layerOutputs = fr.st.layerOutputs.set j
          { fr.st.layerOutputs[j] with mat := (E.layer.Forward s x).2 } ∧
      fr1.input = fr.input ∧ fr1.caller = fr.caller ∧
      fr1.st.responses = fr.st.responses ∧ fr1.st.predictors = fr.st.predictors := by
  refine ⟨{ fr with st := { fr.st with
        network := fr.st.network.set k (E.layer.Forward s x).1
        layerOutputs := fr.st.layerOutputs.set j
          { fr.st.layerOutputs[j] with mat := (E.layer.Forward s x).2 } } }, ?_, rfl, rfl, rfl, rfl, rfl, rfl⟩
  simp [exec, hs, hx, write, List.getElem?_eq_getElem hj]

theorem exec_forward_caller {σ : Type} (E : Env σ) (fr : Frame σ) (k : Nat) (src : Operand)
    (s : σ) (x : Mat) (hs : fr.st.network[k]? = some s) (hx : read fr src = some x) :
    ∃ fr1, exec E fr (Call.forward k src Operand.caller) = some fr1 ∧
      fr1.st.network = fr.st.network.set k (E.layer.Forward s x).1 ∧
      fr1.st.layerOutputs = fr.st.layerOutputs ∧
      fr1.input = fr.input ∧ fr1.caller = (E.layer.Forward s x).2 ∧
      fr1.st.responses = fr.st.responses ∧ fr1.st.predictors = fr.st.predictors := by
  refine ⟨{ fr with st := { fr.st with network := fr.st.network.set k (E.layer.Forward s x).1 },
                     caller := (E.layer.Forward s x).2 }, ?_, rfl, rfl, rfl, rfl, rfl, rfl⟩
  simp [exec, hs, hx, write]

theorem read_layerOutput {σ : Type} (fr : Frame σ) (j : Nat) :
    read fr (Operand.layerOutput j) = (fr.st.layerOutputs[j]?).map (fun a => a.mat) := rfl

theorem compose_cons {σ : Type} (E : Env σ) (s : σ) (l : List σ) (x : Mat) :
    compose E (s :: l) x = compose E l (E.layer.Forward s x).2 := rfl

theorem compose_nil {σ : Type} (E : Env σ) (x : Mat) : compose E [] x = x := rfl

/-- The calls of the layers `a .. a + n - 1`, each reading the output view of the layer
before it and writing its own. -/
theorem run_views {σ : Type} (E : Env σ) :
    ∀ (n a : Nat) (fr : Frame σ) (x : Mat), 0 < a →
      a + n ≤ fr.st.network.length → fr.st.layerOutputs.length = fr.st.network.length →
      read fr (Operand.layerOutput (a - 1)) = some x →
      ∃ fr', run E fr ((List.range' a n).map (fun k =>
                Call.forward k (Operand.layerOutput (k - 1)) (Operand.layerOutput k))) = some fr' ∧
        fr'.st.network.length = fr.st.network.length ∧
        fr'.st.layerOutputs.length = fr.st.layerOutputs.length ∧
        (∀ j, j < a - 1 → read fr' (Operand.layerOutput j) = read fr (Operand.layerOutput j)) ∧
        (∀ j, a - 1 ≤ j → j < a + n → read fr' (Operand.layerOutput j) =
          some (compose E ((fr.st.network.drop a).take (j + 1 - a)) x)) ∧
        (∀ j, j < a ∨ a + n ≤ j → fr'.st.network[j]? = fr.st.network[j]?) ∧
        fr'.input = fr.input ∧ fr'.caller = fr.caller ∧ fr'.st.responses = fr.st.responses ∧
        fr'.st.predictors = fr.st.predictors := by
  intro n
  induction n with
  | zero =>
    intro a fr x ha _ _ hx
    refine ⟨fr, by simp [run], rfl, rfl, fun _ _ => rfl, ?_, fun _ _ => rfl, rfl, rfl, rfl, rfl⟩
    intro j h1 h2
    have : j = a - 1 := by omega
    subst this
    have : a - 1 + 1 - a = 0 := by omega
    rw [this, List.take_zero, compose_nil]
    exact hx
  | succ n ih =>
    intro a fr x ha hn hsz hx
    have hlt : a < fr.st.network.length := by omega
    have hs : fr.st.network[a]? = some fr.st.network[a] := List.getElem?_eq_getElem hlt
    have hj : a < fr.st.layerOutputs.length := by omega
    obtain ⟨fr1, hstep, g1, g2, g3, g4, g5, g6⟩ :=
      exec_forward_view E fr a a (Operand.layerOutput (a - 1)) _ x hs hx hj
    rw [List.range'_succ, List.map_cons, run_cons, hstep]
    simp only [Option.some_bind]
    have hread1 : read fr1 (Operand.layerOutput (a + 1 - 1)) =
        some (E.layer.Forward fr.st.network[a] x).2 := by
      rw [read_layerOutput, g2, Nat.add_sub_cancel]
      simp [List.getElem?_set, hj]
    obtain ⟨fr', h1, h2, h3, h5, h6, h7, h8, h9, h10, h11⟩ := ih (a + 1) fr1
      (E.layer.Forward fr.st.network[a] x).2 (by omega)
      (by rw [g1, List.length_set]; omega) (by rw [g1, g2, List.length_set, List.length_set]; exact hsz)
      hread1
    have hdrop : List.drop (a + 1) fr1.st.network = List.drop (a + 1) fr.st.network := by
      rw [g1]; exact List.drop_set_of_lt _ _ (Nat.lt_succ_self a)
    have hcons : List.drop a fr.st.network = fr.st.network[a] :: List.drop (a + 1) fr.st.network :=
      List.drop_eq_getElem_cons hlt
    refine ⟨fr', h1, ?_, ?_, ?_, ?_, ?_, h8.trans g3, h9.trans g4, h10.trans g5, h11.trans g6⟩
    · rw [h2, g1, List.length_set]
    · rw [h3, g2, List.length_set]
    · intro j hjlt
      rw [h5 j (by omega), read_layerOutput, read_layerOutput, g2]
      have : a ≠ j := by omega
      simp [List.getElem?_set, this]
    · intro j hj1 hj2
      rcases Nat.eq_or_lt_of_le hj1 with heq | hlt'
      · subst heq
        rw [h5 (a - 1) (by omega), read_layerOutput, g2]
        have hne : a ≠ a - 1 := by omega
        have e0 : a - 1 + 1 - a = 0 := by omega
        rw [e0, List.take_zero, compose_nil, ← hx, read_layerOutput]
        simp [List.getElem?_set, hne]
      · rw [h6 j (by omega) (by omega), hdrop, hcons]
        have e1 : j + 1 - a = (j + 1 - (a + 1)) + 1 := by omega
        rw [e1, List.take_succ_cons, compose_cons]
    · intro j hjj
      rw [h7 j (by omega), g1]
      have : a ≠ j := by omega
      simp [List.getElem?_set, this]


theorem ResetParameters_frame {σ : Type} (E : Env σ) (st : State σ) :
    (ResetParameters E st).network.length = st.network.length ∧
    (ResetParameters E st).layerOutputs = st.layerOutputs ∧
    (ResetParameters E st).responses = st.responses ∧
    (ResetParameters E st).predictors = st.predictors := by
  refine ⟨?_, rfl, rfl, rfl⟩
  simp [ResetParameters, ResetDeterministic, E.initNetwork_length]

theorem initializeIfEmpty_frame {σ : Type} (E : Env σ) (st : State σ) :
    (initializeIfEmpty E st).network.length = st.network.length ∧
    (initializeIfEmpty E st).layerOutputs = st.layerOutputs ∧
    (initializeIfEmpty E st).responses = st.responses ∧
    (initializeIfEmpty E st).predictors = st.predictors := by
  unfold initializeIfEmpty
  split
  · exact ResetParameters_frame E st
  · exact ⟨rfl, rfl, rfl, rfl⟩

theorem InitializeForwardPassMemory_frame {σ : Type} (st st' : State σ) (b : Nat)
    (h : st'.dropOutputs = (reallocOutputs st b).dropOutputs) :
    st'.network = st.network ∧ st'.responses = st.responses ∧ st'.predictors = st.predictors ∧
    st'.layerOutputMatrix = (reallocOutputs st b).layerOutputMatrix := by
  have e : ∀ t : State σ, (reallocOutputs t b).network = t.network ∧
      (reallocOutputs t b).responses = t.responses ∧ (reallocOutputs t b).predictors = t.predictors := by
    intro t; unfold reallocOutputs; split <;> exact ⟨rfl, rfl, rfl⟩
  have h4 : st'.dropOutputs.layerOutputMatrix = (reallocOutputs st b).dropOutputs.layerOutputMatrix :=
    congrArg State.layerOutputMatrix h
  exact ⟨(congrArg State.network h).trans (e st).1, (congrArg State.responses h).trans (e st).2.1,
    (congrArg State.predictors h).trans (e st).2.2, h4⟩

theorem propagateIfNeeded_ok {σ : Type} (E : Env σ) (st : State σ) (r : Nat)
    (h : 0 < st.network.length) (hs : st.network.length < SIZE) :
    ∃ st', propagateIfNeeded E st r = some st' ∧ st'.network.length = st.network.length ∧
      st'.layerOutputs = st.layerOutputs ∧ st'.responses = st.responses ∧
      st'.predictors = st.predictors := by
  unfold propagateIfNeeded
  split
  · exact ⟨st, rfl, rfl, rfl, rfl, rfl⟩
  · obtain ⟨net', p1, p2⟩ := propagateShapes_ok E st.network r h hs
    exact ⟨{ st with network := net', reset := true }, by rw [p1]; rfl, p2, rfl, rfl, rfl⟩

theorem sizeResults_ok {σ : Type} (E : Env σ) (fr : Frame σ) (results : Operand) (end_ : Nat)
    (hend : end_ < fr.st.network.length)
    (hres : results = Operand.caller ∨
      ∃ j, results = Operand.layerOutput j ∧ j < fr.st.layerOutputs.length) :
    ∃ fr1, sizeResults E fr results end_ = some fr1 ∧ fr1.st.network = fr.st.network ∧
      fr1.st.layerOutputs.length = fr.st.layerOutputs.length ∧ fr1.input = fr.input ∧
      fr1.st.responses = fr.st.responses ∧ fr1.st.predictors = fr.st.predictors := by
  unfold sizeResults
  rw [List.getElem?_eq_getElem hend]
  rcases hres with rfl | ⟨j, rfl, hj⟩
  · exact ⟨_, rfl, rfl, rfl, rfl, rfl, rfl⟩
  · let m : Mat := fr.st.layerOutputs[j].mat.set_size
      (sizeMul fr.input.n_cols (E.layer.OutputSize fr.st.network[end_]))
    let a : Alias := { fr.st.layerOutputs[j] with mat := m }
    refine ⟨{ fr with st := { fr.st with layerOutputs := fr.st.layerOutputs.set j a } },
      ?_, rfl, ?_, rfl, rfl, rfl⟩
    · simp [read, write, List.getElem?_eq_getElem hj]
    · simp

/-- The statements of `Forward` before the first layer call succeed on an engine with one
output view per layer, and keep the number of layers and of views. -/
theorem ForwardPrepare_ok {σ : Type} (E : Env σ) (fr : Frame σ) (results : Operand) (end_ : Nat)
    (hend : end_ < fr.st.network.length)
    (hsz : fr.st.layerOutputs.length = fr.st.network.length)
    (hS : fr.st.network.length < SIZE)
    (hres : results = Operand.caller ∨
      ∃ j, results = Operand.layerOutput j ∧ j < fr.st.network.length) :
    ∃ fr1, ForwardPrepare E fr results end_ = some fr1 ∧
      fr1.st.network.length = fr.st.network.length ∧
      fr1.st.layerOutputs.length = fr.st.network.length ∧
      fr1.input = fr.input ∧ fr1.st.responses = fr.st.responses ∧
      fr1.st.predictors = fr.st.predictors := by
  obtain ⟨a1, a2, a3, a4⟩ := initializeIfEmpty_frame E fr.st
  obtain ⟨st2, hst2, b1, b2⟩ := InitializeForwardPassMemory_ok E (initializeIfEmpty E fr.st)
    fr.input.n_cols (by rw [a1, a2]; omega)
  obtain ⟨b3, b4, b5, _⟩ := InitializeForwardPassMemory_frame _ _ _ b1
  obtain ⟨st3, hst3, c1, c2, c3, c4⟩ := propagateIfNeeded_ok E st2 fr.input.n_rows
    (by rw [b3, a1]; omega) (by rw [b3, a1]; exact hS)
  obtain ⟨fr1, hfr1, d1, d2, d3, d4, d5⟩ := sizeResults_ok E { fr with st := st3 } results end_
    (by show end_ < st3.network.length; rw [c1, b3, a1]; exact hend)
    (by
      rcases hres with h | ⟨j, h, hj⟩
      · exact Or.inl h
      · refine Or.inr ⟨j, h, ?_⟩
        show j < st3.layerOutputs.length
        rw [c2, b2, a2, hsz]; exact hj)
  refine ⟨fr1, ?_, ?_, ?_, d3, ?_, ?_⟩
  · unfold ForwardPrepare
    rw [hst2, Option.some_bind, hst3, Option.some_bind, hfr1]
  · rw [d1]; show st3.network.length = _; rw [c1, b3, a1]
  · rw [d2]; show st3.layerOutputs.length = _; rw [c2, b2, a2, hsz]
  · rw [d4]; show st3.responses = _; rw [c3, b4, a3]
  · rw [d5]; show st3.predictors = _; rw [c4, b5, a4]


theorem compose_append {σ : Type} (E : Env σ) (l : List σ) (s : σ) (x : Mat) :
    compose E (l ++ [s]) x = (E.layer.Forward s (compose E l x)).2 := by
  simp [compose, List.foldl_append]

theorem take_drop_succ {α : Type} (l : List α) (b n : Nat) (s : α) (h : l[b + n]? = some s) :
    (l.drop b).take (n + 1) = (l.drop b).take n ++ [s] := by
  rw [List.take_succ]
  simp [List.getElem?_drop, h]

/-- The last call of a forward pass, which writes the object passed as `results`. -/
theorem exec_forward_results {σ : Type} (E : Env σ) (fr : Frame σ) (k e : Nat)
    (src results : Operand) (s : σ) (x : Mat)
    (hs : fr.st.network[k]? = some s) (hx : read fr src = some x)
    (he : e < fr.st.layerOutputs.length)
    (hres : results = Operand.caller ∨ results = Operand.layerOutput e) :
    ∃ fr1, exec E fr (Call.forward k src results) = some fr1 ∧
      fr1.st.network = fr.st.network.set k (E.layer.Forward s x).1 ∧
      fr1.st.layerOutputs.length = fr.st.layerOutputs.length ∧
      read fr1 results = some (E.layer.Forward s x).2 ∧
      (∀ j, j ≠ e → read fr1 (Operand.layerOutput j) = read fr (Operand.layerOutput j)) ∧
      fr1.input = fr.input ∧ fr1.st.responses = fr.st.responses ∧
      fr1.st.predictors = fr.st.predictors := by
  rcases hres with rfl | rfl
  · obtain ⟨fr1, h1, h2, h3, h4, h5, h6⟩ := exec_forward_caller E fr k src s x hs hx
    refine ⟨fr1, h1, h2, by rw [h3], by simp [read, h5], ?_, h4, h6.1, h6.2⟩
    intro j _
    rw [read_layerOutput, read_layerOutput, h3]
  · obtain ⟨fr1, h1, h2, h3, h4, h5, h6⟩ := exec_forward_view E fr k e src s x hs hx he
    refine ⟨fr1, h1, h2, by rw [h3, List.length_set], ?_, ?_, h4, h6.1, h6.2⟩
    · rw [read_layerOutput, h3]
      simp [List.getElem?_set, he]
    · intro j hj
      rw [read_layerOutput, read_layerOutput, h3]
      simp [List.getElem?_set, Ne.symm hj]

theorem forwardChain_single (results : Operand) (b : Nat) :
    forwardChain results b b = [Call.forward b Operand.input results] := by
  simp [forwardChain]

theorem forwardChain_split (results : Operand) (b n : Nat) :
    forwardChain results b (b + n + 1) =
      Call.forward b Operand.input (Operand.layerOutput b) ::
        ((List.range' (b + 1) n).map (fun k =>
            Call.forward k (Operand.layerOutput (k - 1)) (Operand.layerOutput k)) ++
          [Call.forward (b + n + 1) (Operand.layerOutput (b + n)) results]) := by
  unfold forwardChain
  have e1 : b + n + 1 - b + 1 = (n + 1) + 1 := by omega
  rw [e1, List.range'_succ, List.range'_concat]
  have hne : ¬ (b = b + n + 1) := by omega
  have hne2 : ¬ (b + 1 + n = b) := by omega
  have e2 : b + 1 + n = b + n + 1 := by omega
  simp only [List.map_cons, List.map_append, List.map_nil, if_true, if_neg hne, Nat.one_mul,
    if_neg hne2, e2, Nat.add_sub_cancel]
  have hmid : ∀ k ∈ List.range' (b + 1) n,
      Call.forward k (if k = b then Operand.input else Operand.layerOutput (k - 1))
          (if k = b + n + 1 then results else Operand.layerOutput k) =
        Call.forward k (Operand.layerOutput (k - 1)) (Operand.layerOutput k) := by
    intro k hk
    obtain ⟨h1, h2⟩ := List.mem_range'_1.1 hk
    have c1 : ¬ (k = b) := by omega
    have c2 : ¬ (k = b + n + 1) := by omega
    simp [c1, c2]
  rw [List.map_congr_left hmid]
  have hne3 : ¬ (b + n + 1 = b) := by omega
  simp [hne3]


/-- The layer calls of a forward pass over `begin .. end_`, run on a frame with one
output view per layer: the object passed as `results` ends up holding the composition of
the layers, every output view before `end_` the composition up to its layer, and no layer
outside the range changes. -/
theorem run_forwardChain {σ : Type} (E : Env σ) (fr : Frame σ) (results : Operand)
    (begin end_ : Nat) (hbe : begin ≤ end_) (hend : end_ < fr.st.network.length)
    (hsz : fr.st.layerOutputs.length = fr.st.network.length)
    (hres : results = Operand.caller ∨ results = Operand.layerOutput end_) :
    ∃ fr', run E fr (forwardChain results begin end_) = some fr' ∧
      read fr' results =
        some (compose E ((fr.st.network.drop begin).take (end_ - begin + 1)) fr.input) ∧
      (∀ k, begin ≤ k → k < end_ → read fr' (Operand.layerOutput k) =
        some (compose E ((fr.st.network.drop begin).take (k - begin + 1)) fr.input)) ∧
      (∀ j, j < begin ∨ end_ < j → fr'.st.network[j]? = fr.st.network[j]?) ∧
      fr'.st.network.length = fr.st.network.length ∧
      fr'.st.layerOutputs.length = fr.st.layerOutputs.length ∧
      fr'.st.responses = fr.st.responses ∧ fr'.st.predictors = fr.st.predictors := by
  rcases Nat.eq_or_lt_of_le hbe with heq | hlt
  · subst heq
    have hs : fr.st.network[begin]? = some fr.st.network[begin] := List.getElem?_eq_getElem hend
    obtain ⟨fr1, h1, h2, h3, h4, h5, h6, h7, h8⟩ := exec_forward_results E fr begin begin
      Operand.input results _ fr.input hs rfl (by omega) hres
    refine ⟨fr1, ?_, ?_, ?_, ?_, ?_, h3, h7, h8⟩
    · rw [forwardChain_single, run_cons, h1, Option.some_bind, run_nil]
    · rw [h4, Nat.sub_self, Nat.zero_add, List.drop_eq_getElem_cons hend]
      rfl
    · intro k hk1 hk2; omega
    · intro j hj
      rw [h2]
      have : begin ≠ j := by omega
      simp [List.getElem?_set, this]
    · rw [h2, List.length_set]
  · obtain ⟨n, rfl⟩ : ∃ n, end_ = begin + n + 1 := ⟨end_ - begin - 1, by omega⟩
    have hb : begin < fr.st.network.length := by omega
    have hs : fr.st.network[begin]? = some fr.st.network[begin] := List.getElem?_eq_getElem hb
    -- the first layer
    obtain ⟨fr1, f1, f2, f3, f4, f5, f6, f7⟩ := exec_forward_view E fr begin begin Operand.input
      _ fr.input hs rfl (by omega)
    have hread1 : read fr1 (Operand.layerOutput (begin + 1 - 1)) =
        some (E.layer.Forward fr.st.network[begin] fr.input).2 := by
      rw [read_layerOutput, f3, Nat.add_sub_cancel]
      simp [List.getElem?_set, hsz, hb]
    have hlen1 : fr1.st.network.length = fr.st.network.length := by rw [f2, List.length_set]
    have hlo1 : fr1.st.layerOutputs.length = fr.st.layerOutputs.length := by
      rw [f3, List.length_set]
    -- the layers in between
    obtain ⟨fr2, m1, m2, m3, _, m5, m6, m7, m8, m9, m10⟩ := run_views E n (begin + 1) fr1 _
      (by omega) (by rw [hlen1]; omega) (by rw [hlen1, hlo1]; exact hsz) hread1
    have hdrop : List.drop (begin + 1) fr1.st.network = List.drop (begin + 1) fr.st.network := by
      rw [f2]; exact List.drop_set_of_lt _ _ (Nat.lt_succ_self begin)
    have hcons : List.drop begin fr.st.network =
        fr.st.network[begin] :: List.drop (begin + 1) fr.st.network :=
      List.drop_eq_getElem_cons hb
    have hview : ∀ k, begin ≤ k → k < begin + n + 1 → read fr2 (Operand.layerOutput k) =
        some (compose E ((fr.st.network.drop begin).take (k - begin + 1)) fr.input) := by
      intro k hk1 hk2
      rw [m5 k (by omega) (by omega), hdrop, hcons]
      have e1 : k - begin + 1 = (k + 1 - (begin + 1)) + 1 := by omega
      rw [e1, List.take_succ_cons, compose_cons]
    -- the last layer
    have hnet2 : fr2.st.network[begin + n + 1]? = some fr.st.network[begin + n + 1] := by
      rw [m6 (begin + n + 1) (Or.inr (by omega)), f2]
      have : begin ≠ begin + n + 1 := by omega
      simp [List.getElem?_set, this, List.getElem?_eq_getElem hend]
    obtain ⟨fr3, l1, l2, l3, l4, l5, l6, l7, l8⟩ := exec_forward_results E fr2 (begin + n + 1)
      (begin + n + 1) (Operand.layerOutput (begin + n)) results _ _ hnet2
      (hview (begin + n) (by omega) (by omega)) (by rw [m3, hlo1, hsz]; exact hend) hres
    refine ⟨fr3, ?_, ?_, ?_, ?_, ?_, ?_, ?_, ?_⟩
    · rw [forwardChain_split, run_cons, f1, Option.some_bind, run_append, m1, Option.some_bind,
        run_cons, l1, Option.some_bind, run_nil]
    · have e : List.take (begin + n + 1 - begin + 1) (List.drop begin fr.st.network) =
          List.take (begin + n - begin + 1) (List.drop begin fr.st.network) ++
            [fr.st.network[begin + n + 1]] := by
        have h := take_drop_succ fr.st.network begin (n + 1) fr.st.network[begin + n + 1]
          (List.getElem?_eq_getElem hend)
        have e1 : begin + n + 1 - begin + 1 = (n + 1) + 1 := by omega
        have e2 : begin + n - begin + 1 = n + 1 := by omega
        rw [e1, e2]; exact h
      rw [l4, e, compose_append]
    · intro k hk1 hk2
      rw [l5 k (by omega)]
      exact hview k hk1 (by omega)
    · intro j hj
      have hj1 : begin + n + 1 ≠ j := by omega
      have hj2 : begin ≠ j := by omega
      rw [l2, List.getElem?_set_ne hj1, m6 j (by omega), f2, List.getElem?_set_ne hj2]
    · rw [l2, List.length_set, m2, hlen1]
    · rw [l3, m3, hlo1]
    · rw [l7, m9, f6]
    · rw [l8, m10, f7]


theorem read_isSome {σ : Type} (fr : Frame σ) (o : Operand) (h : o.inRange fr.st.sizes = true) :
    ∃ x, read fr o = some x := by
  cases o with
  | input => exact ⟨_, rfl⟩
  | caller => exact ⟨_, rfl⟩
  | error => exact ⟨_, rfl⟩
  | layerOutput i =>
    have hi : i < fr.st.layerOutputs.length := by simpa [Operand.inRange, State.sizes] using h
    simp only [read, List.getElem?_eq_getElem hi, Option.map_some']
    exact ⟨_, rfl⟩
  | layerDelta i =>
    have hi : i < fr.st.layerDeltas.length := by simpa [Operand.inRange, State.sizes] using h
    simp only [read, List.getElem?_eq_getElem hi, Option.map_some']
    exact ⟨_, rfl⟩
  | layerGradient i =>
    have hi : i < fr.st.layerGradients.length := by simpa [Operand.inRange, State.sizes] using h
    simp only [read, List.getElem?_eq_getElem hi, Option.map_some']
    exact ⟨_, rfl⟩

theorem write_isSome {σ : Type} (fr : Frame σ) (o : Operand) (y : Mat)
    (h : o.inRange fr.st.sizes = true) (hne : o ≠ Operand.input) :
    ∃ fr', write fr o y = some fr' ∧ fr'.st.sizes = fr.st.sizes ∧ fr'.input = fr.input ∧
      fr'.st.network = fr.st.network ∧
      (o ≠ Operand.caller → (∀ i, o ≠ Operand.layerGradient i) → fr'.caller = fr.caller) ∧
      fr'.caller.n_rows = (if o = Operand.caller then y.n_rows else fr.caller.n_rows) ∧
      fr'.caller.n_cols = (if o = Operand.caller then y.n_cols else fr.caller.n_cols) := by
  cases o with
  | input => exact absurd rfl hne
  | caller => exact ⟨_, rfl, rfl, rfl, rfl, fun h => absurd rfl h, by simp, by simp⟩
  | error => exact ⟨_, rfl, rfl, rfl, rfl, fun _ _ => rfl, by simp, by simp⟩
  | layerOutput i =>
    have hi : i < fr.st.layerOutputs.length := by simpa [Operand.inRange, State.sizes] using h
    simp only [write, List.getElem?_eq_getElem hi, Option.map_some']
    exact ⟨_, rfl, by simp [State.sizes], rfl, rfl, fun _ _ => rfl, by simp, by simp⟩
  | layerDelta i =>
    have hi : i < fr.st.layerDeltas.length := by simpa [Operand.inRange, State.sizes] using h
    simp only [write, List.getElem?_eq_getElem hi, Option.map_some']
    exact ⟨_, rfl, by simp [State.sizes], rfl, rfl, fun _ _ => rfl, by simp, by simp⟩
  | layerGradient i =>
    have hi : i < fr.st.layerGradients.length := by simpa [Operand.inRange, State.sizes] using h
    simp only [write, List.getElem?_eq_getElem hi, Option.map_some']
    exact ⟨_, rfl, rfl, rfl, rfl, fun _ h2 => absurd rfl (h2 i), by simp, by simp⟩


/-- A call whose indices are in range executes, and changes neither the sizes of the
vectors nor the input; unless it writes the caller's matrix itself, the shape of that
matrix stays. -/
theorem exec_inRange {σ : Type} (E : Env σ) (fr : Frame σ) (c : Call)
    (h : c.inRange fr.st.sizes = true) :
    ∃ fr', exec E fr c = some fr' ∧ fr'.st.sizes = fr.st.sizes ∧ fr'.input = fr.input ∧
      (c.target ≠ Operand.caller →
        fr'.caller.n_rows = fr.caller.n_rows ∧ fr'.caller.n_cols = fr.caller.n_cols) := by
  cases c with
  | forward k src dst =>
    simp only [Call.inRange, Call.layer, Call.sources, Call.target, List.all_cons, List.all_nil,
      Bool.and_true, Bool.and_eq_true, decide_eq_true_eq] at h
    obtain ⟨⟨⟨hk, hsrc⟩, hdst⟩, hne⟩ := h
    have hk' : k < fr.st.network.length := hk
    obtain ⟨x, hx⟩ := read_isSome fr src hsrc
    obtain ⟨fr', w1, w2, w3, _, _, w6, w7⟩ := write_isSome
      { fr with st := { fr.st with network := fr.st.network.set k (E.layer.Forward fr.st.network[k] x).1 } }
      dst (E.layer.Forward fr.st.network[k] x).2 (by simpa [State.sizes] using hdst) hne
    refine ⟨fr', ?_, ?_, w3, ?_⟩
    · simp only [exec, List.getElem?_eq_getElem hk', hx, Option.bind_eq_bind, Option.some_bind]
      exact w1
    · rw [w2]; simp [State.sizes]
    · intro hc
      simp only [Call.target] at hc
      rw [w6, w7, if_neg hc, if_neg hc]
      exact ⟨rfl, rfl⟩
  | backward k out gy g =>
    simp only [Call.inRange, Call.layer, Call.sources, Call.target, List.all_cons, List.all_nil,
      Bool.and_true, Bool.and_eq_true, decide_eq_true_eq] at h
    obtain ⟨⟨⟨hk, hout, hgy⟩, hg⟩, hne⟩ := h
    have hk' : k < fr.st.network.length := hk
    obtain ⟨y, hy⟩ := read_isSome fr out hout
    obtain ⟨e, he⟩ := read_isSome fr gy hgy
    obtain ⟨fr', w1, w2, w3, _, _, w6, w7⟩ := write_isSome fr g
      (E.layer.Backward fr.st.network[k] y e) hg hne
    refine ⟨fr', ?_, w2, w3, ?_⟩
    · simp only [exec, List.getElem?_eq_getElem hk', hy, he, Option.bind_eq_bind, Option.some_bind]
      exact w1
    · intro hc
      simp only [Call.target] at hc
      rw [w6, w7, if_neg hc, if_neg hc]
      exact ⟨rfl, rfl⟩
  | gradient k src err grad =>
    simp only [Call.inRange, Call.layer, Call.sources, Call.target, List.all_cons, List.all_nil,
      Bool.and_true, Bool.and_eq_true, decide_eq_true_eq] at h
    obtain ⟨⟨⟨hk, hsrc, herr, hgrad⟩, hg⟩, hne⟩ := h
    have hk' : k < fr.st.network.length := hk
    obtain ⟨x, hx⟩ := read_isSome fr src hsrc
    obtain ⟨e, he⟩ := read_isSome fr err herr
    obtain ⟨old, hold⟩ := read_isSome fr grad hgrad
    obtain ⟨fr', w1, w2, w3, _, _, w6, w7⟩ := write_isSome fr grad
      (E.layer.Gradient fr.st.network[k] x e old) hg hne
    refine ⟨fr', ?_, w2, w3, ?_⟩
    · simp only [exec, List.getElem?_eq_getElem hk', hx, he, hold, Option.bind_eq_bind,
        Option.some_bind]
      exact w1
    · intro hc
      simp only [Call.target] at hc
      rw [w6, w7, if_neg hc, if_neg hc]
      exact ⟨rfl, rfl⟩

/-- A list of calls whose indices are all in range executes. -/
theorem run_inRange {σ : Type} (E : Env σ) :
    ∀ (cs : List Call) (fr : Frame σ), (∀ c ∈ cs, c.inRange fr.st.sizes = true) →
      (∀ c ∈ cs, c.target ≠ Operand.caller) →
      ∃ fr', run E fr cs = some fr' ∧ fr'.st.sizes = fr.st.sizes ∧ fr'.input = fr.input ∧
        fr'.caller.n_rows = fr.caller.n_rows ∧ fr'.caller.n_cols = fr.caller.n_cols := by
  intro cs
  induction cs with
  | nil => intro fr _ _; exact ⟨fr, run_nil E fr, rfl, rfl, rfl, rfl⟩
  | cons c cs ih =>
    intro fr h ht
    obtain ⟨fr1, e1, e2, e3, e4⟩ := exec_inRange E fr c (h c (by simp))
    obtain ⟨e4a, e4b⟩ := e4 (ht c (by simp))
    obtain ⟨fr', r1, r2, r3, r4, r5⟩ := ih fr1
      (fun d hd => by rw [e2]; exact h d (by simp [hd])) (fun d hd => ht d (by simp [hd]))
    exact ⟨fr', by rw [run_cons, e1, Option.some_bind, r1], r2.trans e2, r3.trans e3,
      r4.trans e4a, r5.trans e4b⟩


theorem mem_loopRange {i lo hi : Nat} (h : i ∈ loopRange lo hi) : lo ≤ i ∧ i < hi := by
  have := List.mem_range'_1.1 h
  omega

theorem dropGradients_fields {σ : Type} {a b : State σ} (h : a.dropGradients = b.dropGradients) :
    a.network = b.network ∧ a.layerOutputs = b.layerOutputs ∧ a.layerDeltas = b.layerDeltas ∧
    a.error = b.error ∧ a.predictors = b.predictors ∧ a.responses = b.responses := by
  have h1 : a.dropGradients.network = b.dropGradients.network := congrArg State.network h
  have h2 : a.dropGradients.layerOutputs = b.dropGradients.layerOutputs :=
    congrArg State.layerOutputs h
  have h3 : a.dropGradients.layerDeltas = b.dropGradients.layerDeltas :=
    congrArg State.layerDeltas h
  have h4 : a.dropGradients.error = b.dropGradients.error := congrArg State.error h
  have h5 : a.dropGradients.predictors = b.dropGradients.predictors :=
    congrArg State.predictors h
  have h6 : a.dropGradients.responses = b.dropGradients.responses :=
    congrArg State.responses h
  exact ⟨h1, h2, h3, h4, h5, h6⟩

/-- The gradient-view set-up succeeds when there are at least as many layers as gradient
views; it changes nothing but the views and keeps their number. -/
theorem InitializeGradientPassMemory_ok {σ : Type} (E : Env σ) (st : State σ) (g : Mat)
    (h : st.layerGradients.length ≤ st.network.length) :
    ∃ st', InitializeGradientPassMemory E st g = some st' ∧
      st'.dropGradients = st.dropGradients ∧
      st'.layerGradients.length = st.layerGradients.length := by
  obtain ⟨acc, hacc, hI1, hI2⟩ := foldlM_invariant (aliasGradient E g)
    (fun acc => acc.1.dropGradients = st.dropGradients ∧
      acc.1.layerGradients.length = st.layerGradients.length)
    (loopRange 0 st.layerGradients.length) (st, 0) ⟨rfl, rfl⟩
    (by
      intro acc i hi hI
      obtain ⟨hI1, hI2⟩ := hI
      have hi' : i < st.layerGradients.length := mem_loopRange_zero hi
      have hn : acc.1.network = st.network := (dropGradients_fields hI1).1
      have h1 : i < acc.1.network.length := by rw [hn]; omega
      have h2 : i < acc.1.layerGradients.length := by rw [hI2]; exact hi'
      simp only [aliasGradient, List.getElem?_eq_getElem h1, List.getElem?_eq_getElem h2,
        Option.bind_eq_bind, Option.some_bind]
      exact ⟨_, rfl, hI1, by simp [hI2]⟩)
  exact ⟨acc.1, by simp [InitializeGradientPassMemory, hacc], hI1, hI2⟩

theorem GradientCalls_eq (L : Nat) (h2 : 2 ≤ L) (hS : L < SIZE) :
    GradientCalls L L =
      (List.range' 0 L).map (fun i =>
        Call.gradient i (if i = 0 then Operand.input else Operand.layerOutput (i - 1))
          (if i = L - 1 then Operand.error else Operand.layerDelta (i + 1))
          (Operand.layerGradient i)) := by
  obtain ⟨n, rfl⟩ : ∃ n, L = n + 2 := ⟨L - 2, by omega⟩
  have e1 : sizeSub (n + 2) 1 = n + 1 := by rw [sizeSub_of_le (by omega) hS]; rfl
  have e2 : sizeSub (n + 2) 2 = n := by rw [sizeSub_of_le (by omega) hS]; rfl
  have e3 : List.range' 0 (n + 2) = 0 :: (List.range' 1 n ++ [n + 1]) := by
    rw [List.range'_succ, List.range'_concat]
    simp [Nat.add_comm]
  unfold GradientCalls
  rw [e1, e2, e3]
  have hmid : ∀ i ∈ List.range' 1 n,
      Call.gradient i (Operand.layerOutput (sizeSub i 1)) (Operand.layerDelta (sizeAdd i 1))
          (Operand.layerGradient i) =
        Call.gradient i (if i = 0 then Operand.input else Operand.layerOutput (i - 1))
          (if i = n + 2 - 1 then Operand.error else Operand.layerDelta (i + 1))
          (Operand.layerGradient i) := by
    intro i hi
    obtain ⟨h1, h3⟩ := List.mem_range'_1.1 hi
    have a1 : sizeSub i 1 = i - 1 := sizeSub_of_le h1 (by omega)
    have a2 : sizeAdd i 1 = i + 1 := sizeAdd_of_lt (by omega)
    have c1 : ¬ (i = 0) := by omega
    have c2 : ¬ (i = n + 2 - 1) := by omega
    rw [a1, a2, if_neg c1, if_neg c2]
  have hl : loopRange 1 (n + 1) = List.range' 1 n := by simp [loopRange]
  rw [hl, List.map_congr_left hmid]
  have c3 : ¬ (0 = n + 2 - 1) := by omega
  have c4 : ¬ (n + 1 = 0) := by omega
  simp [c3, c4]


theorem EvaluatePrepare_frame {σ : Type} (E : Env σ) (st : State σ) (d : Bool) :
    (EvaluatePrepare E st d).network.length = st.network.length ∧
    (EvaluatePrepare E st d).layerOutputs = st.layerOutputs ∧
    (EvaluatePrepare E st d).responses = st.responses ∧
    (EvaluatePrepare E st d).predictors = st.predictors := by
  obtain ⟨a1, a2, a3, a4⟩ := initializeIfEmpty_frame E st
  unfold EvaluatePrepare
  split
  · refine ⟨?_, a2, a3, a4⟩
    simp [ResetDeterministic, a1]
  · exact ⟨a1, a2, a3, a4⟩

theorem lastCol_eq (begin batchSize n : Nat) (h1 : 1 ≤ batchSize) (h2 : begin + batchSize ≤ n)
    (hn : n < SIZE) : lastCol begin batchSize = begin + batchSize - 1 := by
  unfold lastCol
  rw [sizeAdd_of_lt (by omega), sizeSub_of_le (by omega) (by omega)]

theorem cols_isSome (m : Mat) (first last : Nat) (h1 : first ≤ last) (h2 : last < m.n_cols) :
    m.cols first last = some ⟨m.n_rows, last - first + 1,
      (m.mem.drop (first * m.n_rows)).take ((last - first + 1) * m.n_rows)⟩ := by
  unfold Mat.cols
  rw [if_pos ⟨h1, h2⟩]

theorem addLosses_eq {σ : Type} (E : Env σ) (net : List σ) (res : Int) :
    addLosses E net res = res + (net.map E.layer.Loss).sum := by
  unfold addLosses
  induction net generalizing res with
  | nil => simp
  | cons s l ih => rw [List.foldl_cons, ih]; simp [Int.add_assoc]

/-- The full-range forward pass made by `Evaluate`, whose `results` is the output view of
the last layer: that view ends up holding the composition of all layers. -/
theorem ForwardAll_into_last_view {σ : Type} (E : Env σ) (fr : Frame σ)
    (hL : 0 < fr.st.network.length) (hsz : fr.st.layerOutputs.length = fr.st.network.length)
    (hS : fr.st.network.length < SIZE) :
    ∃ fr1 fr' out, ForwardPrepare E fr (Operand.layerOutput (fr.st.network.length - 1))
        (fr.st.network.length - 1) = some fr1 ∧
      ForwardAll E fr (Operand.layerOutput (sizeSub fr.st.layerOutputs.length 1)) = some fr' ∧
      fr'.st.layerOutputs[sizeSub fr'.st.layerOutputs.length 1]? = some out ∧
      out.mat = compose E fr1.st.network fr.input ∧
      fr'.st.responses = fr.st.responses ∧ fr'.st.predictors = fr.st.predictors ∧
      fr'.st.network.length = fr.st.network.length ∧
      fr'.st.layerOutputs.length = fr.st.network.length := by
  have e1 : sizeSub fr.st.network.length 1 = fr.st.network.length - 1 :=
    sizeSub_of_le hL hS
  obtain ⟨fr1, p1, p2, p3, p4, p5, p6⟩ := ForwardPrepare_ok E fr
    (Operand.layerOutput (fr.st.network.length - 1)) (fr.st.network.length - 1) (by omega) hsz hS
    (Or.inr ⟨_, rfl, by omega⟩)
  obtain ⟨fr', r1, r2, _, _, r5, r6, r7, r8⟩ := run_forwardChain E fr1
    (Operand.layerOutput (fr.st.network.length - 1)) 0 (fr.st.network.length - 1)
    (Nat.zero_le _) (by rw [p2]; omega) (by rw [p2, p3]) (Or.inr rfl)
  have hcalls := ForwardCalls_eq_forwardChain (Operand.layerOutput (fr.st.network.length - 1)) 0
    (fr.st.network.length - 1) (Nat.zero_le _) (by omega)
  have hlen : fr'.st.layerOutputs.length = fr.st.network.length := by rw [r6, p3]
  have htake : List.take (fr.st.network.length - 1 - 0 + 1) (List.drop 0 fr1.st.network) =
      fr1.st.network := by
    rw [List.drop_zero]
    apply List.take_of_length_le
    rw [p2]; omega
  rw [htake, p4, read_layerOutput] at r2
  obtain ⟨out, o1, o2⟩ := Option.map_eq_some'.1 r2
  refine ⟨fr1, fr', out, p1, ?_, ?_, o2, r7.trans p5, r8.trans p6, r5.trans p2, hlen⟩
  · unfold ForwardAll Forward
    rw [hsz, e1, if_neg (by omega), p1, Option.some_bind, hcalls, r1]
  · rw [hlen, e1]; exact o1


/-- On a sized engine and a batch inside the cached dataset `Evaluate` returns, and keeps
the sizes of the engine and the cached dataset. -/
theorem Evaluate_ok {σ : Type} (E : Env σ) (st : State σ) (begin batchSize : Nat) (d : Bool)
    (hL : 0 < st.network.length) (hsz : st.layerOutputs.length = st.network.length)
    (hS : st.network.length < SIZE) (hb : 1 ≤ batchSize)
    (hp : begin + batchSize ≤ st.predictors.n_cols)
    (hr : begin + batchSize ≤ st.responses.n_cols)
    (hN : st.predictors.n_cols < SIZE) :
    ∃ r, Evaluate E st begin batchSize d = some r ∧
      r.1.network.length = st.network.length ∧
      r.1.layerOutputs.length = st.network.length ∧
      r.1.predictors = st.predictors ∧ r.1.responses = st.responses := by
  obtain ⟨q1, q2, q3, q4⟩ := EvaluatePrepare_frame E st d
  have hlast := lastCol_eq begin batchSize _ hb hp hN
  have hpc := cols_isSome st.predictors begin (begin + batchSize - 1) (by omega) (by omega)
  have hrc := cols_isSome st.responses begin (begin + batchSize - 1) (by omega) (by omega)
  obtain ⟨fr1, fr', out, _, f2, f3, _, f5, f6, f7, f8⟩ := ForwardAll_into_last_view E
    (⟨EvaluatePrepare E st d, _, Mat.empty⟩ : Frame σ)
    (by show 0 < (EvaluatePrepare E st d).network.length; rw [q1]; exact hL)
    (by show (EvaluatePrepare E st d).layerOutputs.length = (EvaluatePrepare E st d).network.length
        rw [q1, q2]; exact hsz)
    (by show (EvaluatePrepare E st d).network.length < SIZE; rw [q1]; exact hS)
  refine ⟨(fr'.st, addLosses E fr'.st.network (E.outputLayer.Forward out.mat
    ⟨st.responses.n_rows, begin + batchSize - 1 - begin + 1,
      (st.responses.mem.drop (begin * st.responses.n_rows)).take
        ((begin + batchSize - 1 - begin + 1) * st.responses.n_rows)⟩)),
    ?_, f7.trans q1, f8.trans q1, f6.trans q4, f5.trans q3⟩
  unfold Evaluate
  rw [q4, hlast, hpc, Option.some_bind, f2, Option.some_bind, f3, Option.some_bind, f5, q3, hrc,
    Option.some_bind]

theorem write_keeps_shape {σ : Type} (fr fr' : Frame σ) (o : Operand) (y : Mat)
    (h : write fr o y = some fr') (hne : o ≠ Operand.caller) :
    fr'.caller.n_rows = fr.caller.n_rows ∧ fr'.caller.n_cols = fr.caller.n_cols := by
  cases o with
  | input => simp [write] at h
  | caller => exact absurd rfl hne
  | error =>
    simp only [write, Option.some.injEq] at h
    subst h; exact ⟨rfl, rfl⟩
  | layerOutput i =>
    simp only [write] at h
    obtain ⟨a, _, rfl⟩ := Option.map_eq_some'.1 h
    exact ⟨rfl, rfl⟩
  | layerDelta i =>
    simp only [write] at h
    obtain ⟨a, _, rfl⟩ := Option.map_eq_some'.1 h
    exact ⟨rfl, rfl⟩
  | layerGradient i =>
    simp only [write] at h
    obtain ⟨a, _, rfl⟩ := Option.map_eq_some'.1 h
    exact ⟨rfl, rfl⟩

theorem exec_keeps_shape {σ : Type} (E : Env σ) (fr fr' : Frame σ) (c : Call)
    (h : exec E fr c = some fr') (hne : c.target ≠ Operand.caller) :
    fr'.caller.n_rows = fr.caller.n_rows ∧ fr'.caller.n_cols = fr.caller.n_cols := by
  cases c with
  | forward k src dst =>
    simp only [exec, Option.bind_eq_bind, Option.bind_eq_some] at h
    obtain ⟨s, _, x, _, hw⟩ := h
    have := write_keeps_shape _ _ _ _ hw hne
    exact this
  | backward k out gy g =>
    simp only [exec, Option.bind_eq_bind, Option.bind_eq_some] at h
    obtain ⟨s, _, y, _, e, _, hw⟩ := h
    exact write_keeps_shape _ _ _ _ hw hne
  | gradient k src err grad =>
    simp only [exec, Option.bind_eq_bind, Option.bind_eq_some] at h
    obtain ⟨s, _, x, _, e, _, old, _, hw⟩ := h
    exact write_keeps_shape _ _ _ _ hw hne

theorem run_keeps_shape {σ : Type} (E : Env σ) :
    ∀ (cs : List Call) (fr fr' : Frame σ), run E fr cs = some fr' →
      (∀ c ∈ cs, c.target ≠ Operand.caller) →
      fr'.caller.n_rows = fr.caller.n_rows ∧ fr'.caller.n_cols = fr.caller.n_cols := by
  intro cs
  induction cs with
  | nil =>
    intro fr fr' h _
    rw [run_nil] at h
    cases h; exact ⟨rfl, rfl⟩
  | cons c cs ih =>
    intro fr fr' h ht
    rw [run_cons] at h
    obtain ⟨fr1, h1, h2⟩ := Option.bind_eq_some.1 h
    obtain ⟨a1, a2⟩ := exec_keeps_shape E fr fr1 c h1 (ht c (by simp))
    obtain ⟨b1, b2⟩ := ih fr1 fr' h2 (fun d hd => ht d (by simp [hd]))
    exact ⟨b1.trans a1, b2.trans a2⟩

theorem GradientCalls_target (a b : Nat) : ∀ c ∈ GradientCalls a b, c.target ≠ Operand.caller := by
  intro c hc
  simp only [GradientCalls, List.mem_append, List.mem_singleton, List.mem_map] at hc
  rcases hc with (rfl | ⟨i, _, rfl⟩) | rfl <;> simp [Call.target]

/-- The member function `Gradient(input, gradient)` never changes the shape of
`gradient`. -/
theorem Gradient_keeps_shape {σ : Type} (E : Env σ) (fr fr' : Frame σ)
    (h : Gradient E fr = some fr') :
    fr'.caller.n_rows = fr.caller.n_rows ∧ fr'.caller.n_cols = fr.caller.n_cols := by
  simp only [Gradient, Option.bind_eq_bind, Option.bind_eq_some] at h
  obtain ⟨st1, _, h2⟩ := h
  have := run_keeps_shape E _ _ _ h2 (GradientCalls_target _ _)
  exact this


/-- A counting loop in the `Option` monad whose body succeeds and takes the invariant of
index `i` to that of index `i + 1` succeeds and establishes the invariant of the bound. -/
theorem foldlM_range_invariant {β : Type} (f : β → Nat → Option β) (I : Nat → β → Prop) :
    ∀ (n s : Nat) (b : β), I s b →
      (∀ i b, s ≤ i → i < s + n → I i b → ∃ b', f b i = some b' ∧ I (i + 1) b') →
      ∃ b', (List.range' s n).foldlM f b = some b' ∧ I (s + n) b' := by
  intro n
  induction n with
  | zero => intro s b hb _; exact ⟨b, by simp, hb⟩
  | succ n ih =>
    intro s b hb hstep
    obtain ⟨b1, h1, hI1⟩ := hstep s b (Nat.le_refl s) (by omega) hb
    obtain ⟨b2, h2, hI2⟩ := ih (s + 1) b1 hI1
      (fun i b' hi1 hi2 hI => hstep i b' (by omega) (by omega) hI)
    refine ⟨b2, ?_, ?_⟩
    · rw [List.range'_succ, List.foldlM_cons, h1]
      exact h2
    · have e : s + 1 + n = s + (n + 1) := by omega
      rw [← e]; exact hI2

/-- After `InitializeGradientPassMemory(gradient)` on an engine with one gradient view per
layer, every view starts at offset 0 of `gradient`; view `i` has `WeightSize(i)` rows and
one column. -/
theorem InitializeGradientPassMemory_views {σ : Type} (E : Env σ) (st : State σ) (g : Mat)
    (h : st.layerGradients.length = st.network.length) :
    ∃ st', InitializeGradientPassMemory E st g = some st' ∧
      st'.layerGradients.length = st.network.length ∧
      ∀ (i : Nat) (s : σ), st.network[i]? = some s →
        (st'.layerGradients[i]?).map (fun a : Alias => (a.start, a.mat.n_rows, a.mat.n_cols)) =
          some (0, E.layer.WeightSize s, 1) := by
  obtain ⟨acc, hacc, hI1, hI2, hI3, hI4⟩ := foldlM_range_invariant (aliasGradient E g)
    (fun n acc => acc.1.network = st.network ∧ acc.2 = 0 ∧
      acc.1.layerGradients.length = st.network.length ∧
      ∀ (i : Nat) (s : σ), i < n → st.network[i]? = some s →
        (acc.1.layerGradients[i]?).map (fun a : Alias => (a.start, a.mat.n_rows, a.mat.n_cols)) =
          some (0, E.layer.WeightSize s, 1))
    st.layerGradients.length 0 (st, 0) ⟨rfl, rfl, h, fun i s hi _ => absurd hi (by omega)⟩
    (by
      intro i acc _ hi hI
      obtain ⟨a1, a2, a3, a4⟩ := hI
      have h1 : i < acc.1.network.length := by rw [a1]; omega
      have h2 : i < acc.1.layerGradients.length := by rw [a3]; omega
      simp only [aliasGradient, List.getElem?_eq_getElem h1, List.getElem?_eq_getElem h2,
        Option.bind_eq_bind, Option.some_bind]
      refine ⟨_, rfl, a1, a2, by simp [a3], ?_⟩
      intro j s hj hs
      rcases Nat.lt_or_ge j i with hlt | hge
      · have hne : i ≠ j := by omega
        simp only [List.getElem?_set_ne hne]
        exact a4 j s hlt hs
      · have hji : j = i := by omega
        subst hji
        have hs' : acc.1.network[j] = s := by
          have e : acc.1.network[j]? = some s := by rw [a1]; exact hs
          rw [List.getElem?_eq_getElem h1] at e
          exact Option.some.inj e
        simp [List.getElem?_set, h2, a2, Mat.colptr, sizeMul, hs'])
  refine ⟨acc.1, ?_, hI3, ?_⟩
  · simp [InitializeGradientPassMemory, loopRange, hacc]
  · intro i s hs
    have hi : i < st.network.length := by
      rcases Nat.lt_or_ge i st.network.length with h1 | h1
      · exact h1
      · rw [List.getElem?_eq_none h1] at hs; cases hs
    exact hI4 i s (by omega) hs


/-- A loop in the `Option` monad that returns keeps every invariant its body keeps. -/
theorem foldlM_preserves {α β : Type} (f : β → α → Option β) (I : β → Prop)
    (hstep : ∀ b a b', I b → f b a = some b' → I b') :
    ∀ (l : List α) (b b' : β), I b → l.foldlM f b = some b' → I b' := by
  intro l
  induction l with
  | nil =>
    intro b b' hb h
    simp only [List.foldlM_nil] at h
    cases h; exact hb
  | cons a l ih =>
    intro b b' hb h
    rw [List.foldlM_cons] at h
    obtain ⟨b1, h1, h2⟩ := Option.bind_eq_some.1 h
    exact ih b1 b' (hstep b a b1 hb h1) h2

theorem write_sizes {σ : Type} (fr fr' : Frame σ) (o : Operand) (y : Mat)
    (h : write fr o y = some fr') : fr'.st.sizes = fr.st.sizes := by
  cases o with
  | input => simp [write] at h
  | caller =>
    simp only [write, Option.some.injEq] at h
    subst h; rfl
  | error =>
    simp only [write, Option.some.injEq] at h
    subst h; rfl
  | layerOutput i =>
    simp only [write] at h
    obtain ⟨a, _, rfl⟩ := Option.map_eq_some'.1 h
    simp [State.sizes]
  | layerDelta i =>
    simp only [write] at h
    obtain ⟨a, _, rfl⟩ := Option.map_eq_some'.1 h
    simp [State.sizes]
  | layerGradient i =>
    simp only [write] at h
    obtain ⟨a, _, rfl⟩ := Option.map_eq_some'.1 h
    rfl

/-- A call that executes keeps the sizes of the vectors of the engine. -/
theorem exec_sizes {σ : Type} (E : Env σ) (fr fr' : Frame σ) (c : Call)
    (h : exec E fr c = some fr') : fr'.st.sizes = fr.st.sizes := by
  cases c with
  | forward k src dst =>
    simp only [exec, Option.bind_eq_bind, Option.bind_eq_some] at h
    obtain ⟨s, _, x, _, hw⟩ := h
    have := write_sizes _ _ _ _ hw
    rw [this]
    simp [State.sizes]
  | backward k out gy g =>
    simp only [exec, Option.bind_eq_bind, Option.bind_eq_some] at h
    obtain ⟨s, _, y, _, e, _, hw⟩ := h
    exact write_sizes _ _ _ _ hw
  | gradient k src err grad =>
    simp only [exec, Option.bind_eq_bind, Option.bind_eq_some] at h
    obtain ⟨s, _, x, _, e, _, old, _, hw⟩ := h
    exact write_sizes _ _ _ _ hw

/-- When `InitializeBackwardPassMemory` returns, the layer list, the output views and the
number of delta views are as before. -/
theorem InitializeBackwardPassMemory_sizes {σ : Type} (E : Env σ) (st st' : State σ) (b : Nat)
    (h : InitializeBackwardPassMemory E st b = some st') :
    st'.network = st.network ∧ st'.layerOutputs = st.layerOutputs ∧
    st'.layerDeltas.length = st.layerDeltas.length := by
  simp only [InitializeBackwardPassMemory, Option.bind_eq_bind, Option.bind_eq_some,
    Option.map_eq_some'] at h
  obtain ⟨st1, h1, acc, h2, rfl⟩ := h
  have hst1 : st1.network = st.network ∧ st1.layerOutputs = st.layerOutputs ∧
      st1.layerDeltas = st.layerDeltas := by
    simp only [reallocDeltas, Option.map_eq_some'] at h1
    obtain ⟨t, _, rfl⟩ := h1
    split <;> exact ⟨rfl, rfl, rfl⟩
  have := foldlM_preserves (aliasDelta E b)
    (fun acc => acc.1.network = st.network ∧ acc.1.layerOutputs = st.layerOutputs ∧
      acc.1.layerDeltas.length = st.layerDeltas.length)
    (by
      intro acc i acc' hI hf
      simp only [aliasDelta, Option.bind_eq_some] at hf
      obtain ⟨sz, _, old, _, hf⟩ := hf
      simp only [Option.some.injEq] at hf
      subst hf
      exact ⟨hI.1, hI.2.1, by simp [hI.2.2]⟩)
    _ (st1, 0) acc ⟨hst1.1, hst1.2.1, by rw [hst1.2.2]⟩ h2
  exact this

/-- On an engine of two or more layers with one delta view per layer, `Backward()` does
not return: its second call names the delta view of index `network.size()`. -/
theorem Backward_undefined_of_two_layers {σ : Type} (E : Env σ) (st : State σ)
    (h2 : 2 ≤ st.network.length) (hS : st.network.length < SIZE)
    (hd : st.layerDeltas.length = st.network.length) :
    Backward E st = none := by
  apply Option.eq_none_iff_forall_not_mem.2
  intro res hres
  simp only [Option.mem_def, Backward, Option.bind_eq_bind, Option.bind_eq_some] at hres
  obtain ⟨back, _, st1, hinit, fr, hrun, _⟩ := hres
  obtain ⟨n1, _, n3⟩ := InitializeBackwardPassMemory_sizes E st st1 _ hinit
  obtain ⟨m, hm⟩ : ∃ m, st.network.length = m + 2 := ⟨st.network.length - 2, by omega⟩
  have e1 : sizeSub (m + 2) 1 = m + 1 := by
    rw [sizeSub_of_le (by omega) (by omega)]; rfl
  have e2 : sizeAdd (m + 1) 1 = m + 2 := sizeAdd_of_lt (by omega)
  rw [n1, n3, hd, hm] at hrun
  have hl : loopRange 1 (m + 2) = 1 :: List.range' 2 m := by
    simp [loopRange, List.range'_succ]
  have hcalls : BackwardCalls (m + 2) st1.layerOutputs.length (m + 2) =
      Call.backward (m + 1) (Operand.layerOutput (sizeSub st1.layerOutputs.length 1))
          Operand.error (Operand.layerDelta (m + 1)) ::
        Call.backward (m + 1) (Operand.layerOutput (m + 1)) (Operand.layerDelta (m + 2))
          (Operand.layerDelta (m + 1)) ::
        (List.range' 2 m).map (fun i =>
          Call.backward (sizeSub (m + 2) i) (Operand.layerOutput (sizeSub (m + 2) i))
            (Operand.layerDelta (sizeAdd (sizeSub (m + 2) i) 1))
            (Operand.layerDelta (sizeSub (m + 2) i))) := by
    simp only [BackwardCalls, hl, List.map_cons, List.singleton_append, e1, e2]
  rw [hcalls, run_cons] at hrun
  obtain ⟨fr1, x1, hrest⟩ := Option.bind_eq_some.1 hrun
  rw [run_cons] at hrest
  obtain ⟨fr2, x2, _⟩ := Option.bind_eq_some.1 hrest
  have hs1 := exec_sizes E _ _ _ x1
  have hlen : fr1.st.layerDeltas.length = m + 2 := by
    have := congrArg Sizes.nDelta hs1
    simp only [State.sizes] at this
    rw [this, n3, hd, hm]
  simp only [exec, Option.bind_eq_bind, Option.bind_eq_some] at x2
  obtain ⟨_, _, _, _, e, he, _⟩ := x2
  simp only [read, Option.map_eq_some'] at he
  obtain ⟨a, ha, _⟩ := he
  rw [List.getElem?_eq_none (by omega)] at ha
  cases ha

/-- A store into an operand changes neither the layer list nor the members. -/
theorem write_members {σ : Type} (fr fr' : Frame σ) (o : Operand) (y : Mat)
    (h : write fr o y = some fr') :
    fr'.st.network = fr.st.network ∧ fr'.st.members = fr.st.members := by
  cases o with
  | input => simp [write] at h
  | caller =>
    simp only [write, Option.some.injEq] at h
    subst h; exact ⟨rfl, rfl⟩
  | error =>
    simp only [write, Option.some.injEq] at h
    subst h; exact ⟨rfl, rfl⟩
  | layerOutput i =>
    simp only [write] at h
    obtain ⟨a, _, rfl⟩ := Option.map_eq_some'.1 h
    exact ⟨rfl, rfl⟩
  | layerDelta i =>
    simp only [write] at h
    obtain ⟨a, _, rfl⟩ := Option.map_eq_some'.1 h
    exact ⟨rfl, rfl⟩
  | layerGradient i =>
    simp only [write] at h
    obtain ⟨a, _, rfl⟩ := Option.map_eq_some'.1 h
    exact ⟨rfl, rfl⟩

/-- A call of a layer method changes no member, keeps the number of layers, and keeps
every attribute of the layers that `Forward` keeps. -/
theorem exec_members {σ β : Type} (E : Env σ) (g : σ → β)
    (hg : ∀ s x, g (E.layer.Forward s x).1 = g s) (fr fr' : Frame σ) (c : Call)
    (h : exec E fr c = some fr') :
    fr'.st.members = fr.st.members ∧ fr'.st.network.map g = fr.st.network.map g := by
  cases c with
  | forward k src dst =>
    simp only [exec, Option.bind_eq_bind, Option.bind_eq_some] at h
    obtain ⟨s, hs, x, _, hw⟩ := h
    obtain ⟨hn, hm⟩ := write_members _ _ _ _ hw
    refine ⟨hm, ?_⟩
    rw [hn]
    simp only [List.map_set, hg]
    apply List.ext_getElem?
    intro j
    by_cases hj : k = j
    · subst hj
      have hk : k < fr.st.network.length := by
        rcases Nat.lt_or_ge k fr.st.network.length with h1 | h1
        · exact h1
        · rw [List.getElem?_eq_none h1] at hs; cases hs
      rw [List.getElem?_set_self (by simpa using hk)]
      simp [List.getElem?_map, hs]
    · rw [List.getElem?_set_ne hj]
  | backward k out gy g' =>
    simp only [exec, Option.bind_eq_bind, Option.bind_eq_some] at h
    obtain ⟨s, _, y, _, e, _, hw⟩ := h
    obtain ⟨hn, hm⟩ := write_members _ _ _ _ hw
    exact ⟨hm, by rw [hn]⟩
  | gradient k src err grad =>
    simp only [exec, Option.bind_eq_bind, Option.bind_eq_some] at h
    obtain ⟨s, _, x, _, e, _, old, _, hw⟩ := h
    obtain ⟨hn, hm⟩ := write_members _ _ _ _ hw
    exact ⟨hm, by rw [hn]⟩

/-- A list of calls changes no member and keeps every attribute of the layers that
`Forward` keeps. -/
theorem run_members {σ β : Type} (E : Env σ) (g : σ → β)
    (hg : ∀ s x, g (E.layer.Forward s x).1 = g s) (cs : List Call) (fr fr' : Frame σ)
    (h : run E fr cs = some fr') :
    fr'.st.members = fr.st.members ∧ fr'.st.network.map g = fr.st.network.map g := by
  have := foldlM_preserves (exec E)
    (fun f : Frame σ => f.st.members = fr.st.members ∧ f.st.network.map g = fr.st.network.map g)
    (by
      intro b c b' hI hf
      obtain ⟨h1, h2⟩ := exec_members E g hg b b' c hf
      exact ⟨h1.trans hI.1, h2.trans hI.2⟩)
    cs fr fr' ⟨rfl, rfl⟩ h
  exact this

/-- When `InitializeForwardPassMemory` returns, the layer list and the members are as
before. -/
theorem InitializeForwardPassMemory_members {σ : Type} (E : Env σ) (st st' : State σ) (b : Nat)
    (h : InitializeForwardPassMemory E st b = some st') :
    st'.network = st.network ∧ st'.members = st.members := by
  simp only [InitializeForwardPassMemory, Option.map_eq_some'] at h
  obtain ⟨acc, h2, rfl⟩ := h
  have h0 : (reallocOutputs st b).network = st.network ∧
      (reallocOutputs st b).members = st.members := by
    unfold reallocOutputs
    split <;> exact ⟨rfl, rfl⟩
  exact foldlM_preserves (aliasOutput E b)
    (fun acc => acc.1.network = st.network ∧ acc.1.members = st.members)
    (by
      intro acc i acc' hI hf
      simp only [aliasOutput, Option.bind_eq_bind, Option.bind_eq_some] at hf
      obtain ⟨s, _, old, _, hf⟩ := hf
      simp only [Option.some.injEq] at hf
      subst hf
      exact ⟨hI.1, hI.2⟩)
    _ (reallocOutputs st b, 0) acc h0 h2

/-- When `InitializeBackwardPassMemory` returns, the members are as before. -/
theorem InitializeBackwardPassMemory_members {σ : Type} (E : Env σ) (st st' : State σ) (b : Nat)
    (h : InitializeBackwardPassMemory E st b = some st') :
    st'.members = st.members := by
  simp only [InitializeBackwardPassMemory, Option.bind_eq_bind, Option.bind_eq_some,
    Option.map_eq_some'] at h
  obtain ⟨st1, h1, acc, h2, rfl⟩ := h
  have hst1 : st1.members = st.members := by
    simp only [reallocDeltas, Option.map_eq_some'] at h1
    obtain ⟨t, _, rfl⟩ := h1
    split <;> rfl
  exact foldlM_preserves (aliasDelta E b)
    (fun acc => acc.1.members = st.members)
    (by
      intro acc i acc' hI hf
      simp only [aliasDelta, Option.bind_eq_some] at hf
      obtain ⟨sz, _, old, _, hf⟩ := hf
      simp only [Option.some.injEq] at hf
      subst hf
      exact hI)
    _ (st1, 0) acc hst1 h2

/-- When `InitializeGradientPassMemory` returns, the layer list and the members are as
before. -/
theorem InitializeGradientPassMemory_members {σ : Type} (E : Env σ) (st st' : State σ) (g : Mat)
    (h : InitializeGradientPassMemory E st g = some st') :
    st'.network = st.network ∧ st'.members = st.members := by
  simp only [InitializeGradientPassMemory, Option.map_eq_some'] at h
  obtain ⟨acc, h2, rfl⟩ := h
  exact foldlM_preserves (aliasGradient E g)
    (fun acc => acc.1.network = st.network ∧ acc.1.members = st.members)
    (by
      intro acc i acc' hI hf
      simp only [aliasGradient, Option.bind_eq_bind, Option.bind_eq_some] at hf
      obtain ⟨s, _, old, _, hf⟩ := hf
      simp only [Option.some.injEq] at hf
      subst hf
      exact ⟨hI.1, hI.2⟩)
    _ (st, 0) acc ⟨rfl, rfl⟩ h2


/-- Replacing an entry of a list by one with the same attribute keeps the list of
attributes. -/
theorem map_set_same {α β : Type} (g : α → β) (l : List α) (i : Nat) (a b : α)
    (ha : l[i]? = some a) (hb : g b = g a) : (l.set i b).map g = l.map g := by
  apply List.ext_getElem?
  intro j
  rw [List.map_set]
  by_cases hj : i = j
  · subst hj
    have hi : i < l.length := by
      rcases Nat.lt_or_ge i l.length with h1 | h1
      · exact h1
      · rw [List.getElem?_eq_none h1] at ha; cases ha
    rw [List.getElem?_set_self (by simpa using hi)]
    simp [List.getElem?_map, ha, hb]
  · rw [List.getElem?_set_ne hj]

/-- The member function `ResetParameters` changes the layer list and the parameter buffer
only. -/
theorem ResetParameters_members {σ : Type} (E : Env σ) (st : State σ) :
    (ResetParameters E st).reset = st.reset ∧
    (ResetParameters E st).deterministic = st.deterministic :=
  ⟨rfl, rfl⟩

/-- The lazy initialization changes neither `reset` nor the mode flag. -/
theorem initializeIfEmpty_members {σ : Type} (E : Env σ) (st : State σ) :
    (initializeIfEmpty E st).reset = st.reset ∧
    (initializeIfEmpty E st).deterministic = st.deterministic := by
  unfold initializeIfEmpty
  split
  · exact ResetParameters_members E st
  · exact ⟨rfl, rfl⟩

/-- The lazy initialization does nothing on a non-empty parameter buffer. -/
theorem initializeIfEmpty_of_nonempty {σ : Type} (E : Env σ) (st : State σ)
    (h : st.parameters.is_empty = false) : initializeIfEmpty E st = st := by
  unfold initializeIfEmpty
  rw [h]
  rfl

/-- The shape propagation keeps every attribute of the layers that an assignment to
`InputDimensions()` keeps. -/
theorem propagateShapes_map {σ β : Type} (E : Env σ) (g : σ → β)
    (hg : ∀ s d, g (E.layer.setInputDimensions s d) = g s) (net net' : List σ) (r : Nat)
    (h : propagateShapes E net r = some net') : net'.map g = net.map g := by
  simp only [propagateShapes, Option.bind_eq_bind, Option.bind_eq_some] at h
  obtain ⟨front, hfront, h⟩ := h
  have h0 : (net.set 0 (E.layer.setInputDimensions front [r, 1])).map g = net.map g :=
    map_set_same g net 0 front _ hfront (hg _ _)
  exact foldlM_preserves (propagateStep E) (fun l : List σ => l.map g = net.map g)
    (by
      intro l i l' hI hf
      simp only [propagateStep, Option.bind_eq_bind, Option.bind_eq_some] at hf
      obtain ⟨prev, _, cur, hcur, hf⟩ := hf
      simp only [Option.some.injEq] at hf
      subst hf
      rw [map_set_same g l i cur _ hcur (hg _ _)]
      exact hI)
    _ _ net' h0 h

/-- When the guarded shape propagation returns, `reset` is true, the other members are as
before, an engine whose `reset` was true is unchanged, and every attribute of the layers
that an assignment to `InputDimensions()` keeps is kept. -/
theorem propagateIfNeeded_members {σ : Type} (E : Env σ) (st st' : State σ) (r : Nat)
    (h : propagateIfNeeded E st r = some st') :
    st'.reset = true ∧ st'.deterministic = st.deterministic ∧
    st'.parameters = st.parameters ∧ (st.reset = true → st' = st) ∧
    (st.reset = false → propagateShapes E st.network r = some st'.network) := by
  unfold propagateIfNeeded at h
  by_cases hr : st.reset = true
  · rw [if_pos hr] at h
    simp only [Option.some.injEq] at h
    subst h
    exact ⟨hr, rfl, rfl, fun _ => rfl, fun h0 => by rw [hr] at h0; cases h0⟩
  · rw [if_neg hr] at h
    obtain ⟨net, hnet, rfl⟩ := Option.map_eq_some'.1 h
    exact ⟨rfl, rfl, rfl, fun h1 => absurd h1 hr, fun _ => hnet⟩

/-- When the sizing of `results` returns, the layer list and the members are as before. -/
theorem sizeResults_members {σ : Type} (E : Env σ) (fr fr1 : Frame σ) (results : Operand)
    (end_ : Nat) (h : sizeResults E fr results end_ = some fr1) :
    fr1.st.network = fr.st.network ∧ fr1.st.members = fr.st.members := by
  simp only [sizeResults, Option.bind_eq_some] at h
  obtain ⟨last, _, old, _, hw⟩ := h
  exact write_members _ _ _ _ hw

/-- The steps of a `Forward` that returns on a range that is not empty. -/
theorem Forward_inv {σ : Type} (E : Env σ) (fr fr' : Frame σ) (results : Operand)
    (begin end_ : Nat) (hbe : ¬ end_ < begin)
    (h : Forward E fr results begin end_ = some fr') :
    ∃ st2 st3 fr1,
      InitializeForwardPassMemory E (initializeIfEmpty E fr.st) fr.input.n_cols = some st2 ∧
      propagateIfNeeded E st2 fr.input.n_rows = some st3 ∧
      sizeResults E { fr with st := st3 } results end_ = some fr1 ∧
      run E fr1 (ForwardCalls results begin end_) = some fr' := by
  unfold Forward at h
  rw [if_neg hbe] at h
  simp only [ForwardPrepare, Option.bind_eq_some] at h
  obtain ⟨fr1, ⟨st2, h1, st3, h2, h3⟩, h4⟩ := h
  exact ⟨st2, st3, fr1, h1, h2, h3, h4⟩

/-- A `Forward` that returns leaves the mode flag of the engine as it was, and leaves
`reset` true when it was true or when the range is not empty. -/
theorem Forward_members {σ : Type} (E : Env σ) (fr fr' : Frame σ) (results : Operand)
    (begin end_ : Nat) (h : Forward E fr results begin end_ = some fr') :
    fr'.st.deterministic = fr.st.deterministic ∧
    (fr.st.reset = true → fr'.st.reset = true) ∧
    (begin ≤ end_ → fr'.st.reset = true) := by
  by_cases hbe : end_ < begin
  · unfold Forward at h
    rw [if_pos hbe] at h
    simp only [Option.some.injEq] at h
    subst h
    exact ⟨rfl, fun h => h, fun h => absurd hbe (by omega)⟩
  · obtain ⟨st2, st3, fr1, h1, h2, h3, h4⟩ := Forward_inv E fr fr' results begin end_ hbe h
    obtain ⟨_, m1⟩ := InitializeForwardPassMemory_members E _ _ _ h1
    obtain ⟨p1, p2, _, _, _⟩ := propagateIfNeeded_members E _ _ _ h2
    obtain ⟨_, m3⟩ := sizeResults_members E _ _ _ _ h3
    obtain ⟨m4, _⟩ := run_members E (fun _ => ()) (fun _ _ => rfl) _ _ _ h4
    have e4 : fr'.st.deterministic = fr1.st.deterministic := congrArg Members.deterministic m4
    have e4r : fr'.st.reset = fr1.st.reset := congrArg Members.reset m4
    have e3 : fr1.st.deterministic = st3.deterministic := congrArg Members.deterministic m3
    have e3r : fr1.st.reset = st3.reset := congrArg Members.reset m3
    have e1 : st2.deterministic = (initializeIfEmpty E fr.st).deterministic :=
      congrArg Members.deterministic m1
    have hr : fr'.st.reset = true := by rw [e4r, e3r, p1]
    refine ⟨?_, fun _ => hr, fun _ => hr⟩
    rw [e4, e3, p2, e1]
    exact (initializeIfEmpty_members E fr.st).2

/-- A `Forward` that returns keeps every attribute of the layers that the layer method
`Forward` keeps and that the shape propagation, if it runs, keeps: the attributes are
those of the layers after the lazy initialization. -/
theorem Forward_network_map {σ β : Type} (E : Env σ) (g : σ → β)
    (hF : ∀ s x, g (E.layer.Forward s x).1 = g s) (fr fr' : Frame σ) (results : Operand)
    (begin end_ : Nat)
    (hD : fr.st.reset = true ∨ ∀ s d, g (E.layer.setInputDimensions s d) = g s)
    (h : Forward E fr results begin end_ = some fr') :
    fr'.st.network.map g =
      (if end_ < begin then fr.st.network else (initializeIfEmpty E fr.st).network).map g := by
  by_cases hbe : end_ < begin
  · unfold Forward at h
    rw [if_pos hbe] at h
    simp only [Option.some.injEq] at h
    subst h
    rw [if_pos hbe]
  · rw [if_neg hbe]
    obtain ⟨st2, st3, fr1, h1, h2, h3, h4⟩ := Forward_inv E fr fr' results begin end_ hbe h
    obtain ⟨n1, m1⟩ := InitializeForwardPassMemory_members E _ _ _ h1
    obtain ⟨_, _, _, p4, p5⟩ := propagateIfNeeded_members E _ _ _ h2
    obtain ⟨n3, _⟩ := sizeResults_members E _ _ _ _ h3
    obtain ⟨_, n4⟩ := run_members E g hF _ _ _ h4
    rw [n4, n3]
    have e1 : st2.reset = fr.st.reset := by
      have : st2.reset = (initializeIfEmpty E fr.st).reset := congrArg Members.reset m1
      rw [this]; exact (initializeIfEmpty_members E fr.st).1
    show st3.network.map g = _
    by_cases hr : st2.reset = true
    · rw [p4 hr, n1]
    · have hr' : st2.reset = false := by simpa using hr
      rcases hD with hD | hD
      · rw [e1] at hr; exact absurd hD hr
      · rw [propagateShapes_map E g hD _ _ _ (p5 hr'), n1]


/-- On a non-empty parameter buffer the first two statements of `Evaluate` run the sweep
`ResetDeterministic` after setting the mode flag when the argument differs from the flag,
and do nothing when it equals the flag. -/
theorem EvaluatePrepare_of_nonempty {σ : Type} (E : Env σ) (st : State σ) (d : Bool)
    (hpar : st.parameters.is_empty = false) :
    (d ≠ st.deterministic →
      EvaluatePrepare E st d = ResetDeterministic E { st with deterministic := d }) ∧
    (d = st.deterministic → EvaluatePrepare E st d = st) ∧
    (EvaluatePrepare E st d).deterministic = d ∧
    (EvaluatePrepare E st d).parameters = st.parameters := by
  unfold EvaluatePrepare
  rw [initializeIfEmpty_of_nonempty E st hpar]
  by_cases h : d = st.deterministic
  · have hb : (d != st.deterministic) = false := by simp [h]
    rw [hb]
    exact ⟨fun h1 => absurd h h1, fun _ => rfl, h.symm, rfl⟩
  · have hb : (d != st.deterministic) = true := by simpa using h
    rw [hb]
    exact ⟨fun _ => rfl, fun h1 => absurd h1 h, rfl, rfl⟩

/-- The engine that `Evaluate` returns is the one its `Forward` call leaves. -/
theorem Evaluate_inv {σ : Type} (E : Env σ) (st : State σ) (begin batchSize : Nat) (d : Bool)
    (r : State σ × Int) (h : Evaluate E st begin batchSize d = some r) :
    ∃ p fr, ForwardAll E ⟨EvaluatePrepare E st d, p, Mat.empty⟩
        (Operand.layerOutput (sizeSub (EvaluatePrepare E st d).layerOutputs.length 1)) = some fr ∧
      r.1 = fr.st := by
  simp only [Evaluate, Option.bind_eq_some] at h
  obtain ⟨p, _, fr, hfr, out, _, t, _, hr⟩ := h
  simp only [Option.some.injEq] at hr
  subst hr
  exact ⟨p, fr, hfr, rfl⟩

/-- The sample layers keep their members as `MemberContract` says. -/
theorem sampleOps_contract : MemberContract sampleOps :=
  ⟨fun _ _ => rfl, fun _ _ => rfl, fun _ _ => rfl, fun _ _ => rfl, fun _ _ => rfl,
    fun _ _ => rfl, fun _ _ => rfl⟩


/-- The shape propagation, when it returns, leaves the first layer with the input
dimensions `[n_rows, 1]` and every later layer with the output dimensions of the layer
before it as input dimensions. -/
theorem propagateShapes_dims {σ : Type} (E : Env σ) (hc : MemberContract E.layer)
    (net net' : List σ) (r : Nat) (hS : net.length < SIZE)
    (h : propagateShapes E net r = some net') :
    net'.length = net.length ∧
    (net'[0]?).map E.layer.InputDimensions = some [r, 1] ∧
    ∀ i, 1 ≤ i → i < net.length →
      (net'[i]?).map E.layer.InputDimensions = (net'[i - 1]?).map E.layer.OutputDimensions := by
  simp only [propagateShapes, Option.bind_eq_bind, Option.bind_eq_some] at h
  obtain ⟨front, hfront, h⟩ := h
  have hL : 0 < net.length := by
    rcases Nat.lt_or_ge 0 net.length with h1 | h1
    · exact h1
    · rw [List.getElem?_eq_none h1] at hfront; cases hfront
  have hrange : loopRange 1 net.length = List.range' 1 (net.length - 1) := rfl
  rw [hrange] at h
  obtain ⟨l, hl, hI⟩ := foldlM_range_invariant (propagateStep E)
    (fun k (l : List σ) => l.length = net.length ∧
      (l[0]?).map E.layer.InputDimensions = some [r, 1] ∧
      ∀ j, 1 ≤ j → j < k →
        (l[j]?).map E.layer.InputDimensions = (l[j - 1]?).map E.layer.OutputDimensions)
    (net.length - 1) 1 (net.set 0 (E.layer.setInputDimensions front [r, 1]))
    ⟨by simp, by
      rw [List.getElem?_set_self (by simpa using hL)]
      simp [hc.dims_set], by
      intro j h1 h2; omega⟩
    (by
      intro i l hi1 hi2 ⟨I1, I2, I3⟩
      have hi : i < l.length := by omega
      have hprev : i - 1 < l.length := by omega
      have e1 : sizeSub i 1 = i - 1 := sizeSub_of_le hi1 (by omega)
      refine ⟨l.set i (E.layer.setInputDimensions l[i] (E.layer.OutputDimensions l[i - 1])), ?_,
        ?_, ?_, ?_⟩
      · simp only [propagateStep, Option.bind_eq_bind, e1]
        rw [List.getElem?_eq_getElem hprev, List.getElem?_eq_getElem hi]
        rfl
      · simp [I1]
      · rw [List.getElem?_set_ne (by omega)]
        exact I2
      · intro j hj1 hj2
        by_cases hji : j = i
        · subst hji
          rw [List.getElem?_set_self hi, List.getElem?_set_ne (by omega),
            List.getElem?_eq_getElem hprev]
          simp [hc.dims_set]
        · rw [List.getElem?_set_ne (by omega), List.getElem?_set_ne (by omega)]
          exact I3 j hj1 (by omega))
  rw [hl] at h
  simp only [Option.some.injEq] at h
  subst h
  obtain ⟨I1, I2, I3⟩ := hI
  refine ⟨I1, I2, ?_⟩
  intro i h1 h2
  exact I3 i h1 (by omega)


/-! ## The flag `reset` is never cleared -/

/-- When `Backward()` returns, the members are as before. -/
theorem Backward_members {σ : Type} (E : Env σ) (st st' : State σ)
    (h : Backward E st = some st') : st'.members = st.members := by
  simp only [Backward, Option.bind_eq_bind, Option.bind_eq_some] at h
  obtain ⟨back, _, st1, hinit, fr, hrun, hfr⟩ := h
  simp only [Option.some.injEq] at hfr
  subst hfr
  obtain ⟨m, _⟩ := run_members E (fun _ => ()) (fun _ _ => rfl) _ _ _ hrun
  rw [m]
  exact InitializeBackwardPassMemory_members E _ _ _ hinit

/-- When `Gradient` returns, the members are as before. -/
theorem Gradient_members {σ : Type} (E : Env σ) (fr fr' : Frame σ)
    (h : Gradient E fr = some fr') : fr'.st.members = fr.st.members := by
  simp only [Gradient, Option.bind_eq_bind, Option.bind_eq_some] at h
  obtain ⟨st1, hinit, hrun⟩ := h
  obtain ⟨m, _⟩ := run_members E (fun _ => ()) (fun _ _ => rfl) _ _ _ hrun
  rw [m]
  exact (InitializeGradientPassMemory_members E _ _ _ hinit).2

/-- The first statements of `Evaluate` leave `reset` as it is. -/
theorem EvaluatePrepare_reset {σ : Type} (E : Env σ) (st : State σ) (d : Bool) :
    (EvaluatePrepare E st d).reset = st.reset := by
  unfold EvaluatePrepare
  split
  · exact (initializeIfEmpty_members E st).1
  · exact (initializeIfEmpty_members E st).1

/-- When `Evaluate` returns on an engine whose `reset` is true, `reset` is true. -/
theorem Evaluate_reset {σ : Type} (E : Env σ) (st : State σ) (begin batchSize : Nat) (d : Bool)
    (r : State σ × Int) (h : Evaluate E st begin batchSize d = some r)
    (hr : st.reset = true) : r.1.reset = true := by
  obtain ⟨p, fr, hfr, hr1⟩ := Evaluate_inv E st begin batchSize d r h
  unfold ForwardAll at hfr
  obtain ⟨_, f2, _⟩ := Forward_members E _ _ _ _ _ hfr
  rw [hr1]
  apply f2
  show (EvaluatePrepare E st d).reset = true
  rw [EvaluatePrepare_reset, hr]

/-- When `EvaluateWithGradient` returns on an engine whose `reset` is true, `reset` is
true. -/
theorem EvaluateWithGradient_reset {σ : Type} (E : Env σ) (st : State σ) (parameters : Mat)
    (begin : Nat) (gradient : Mat) (batchSize : Nat) (r : State σ × Mat × Int)
    (h : EvaluateWithGradient E st parameters begin gradient batchSize = some r)
    (hr : st.reset = true) : r.1.reset = true := by
  simp only [EvaluateWithGradient, EvaluateWithGradientLoss, Option.bind_eq_bind,
    Option.bind_eq_some, Option.map_eq_some'] at h
  obtain ⟨r0, ⟨r1, hev, hr0⟩, out, _, t, _, st2, hback, p, _, fr, hgrad, hres⟩ := h
  simp only [Option.some.injEq] at hres
  subst hres
  subst hr0
  have e1 : r1.1.reset = true := Evaluate_reset E st begin batchSize false r1 hev hr
  have e2 : st2.reset = r1.1.reset := congrArg Members.reset (Backward_members E _ _ hback)
  have e3 : fr.st.reset = st2.reset := congrArg Members.reset (Gradient_members E _ _ hgrad)
  show fr.st.reset = true
  rw [e3, e2, e1]

/-- The statement of `Predict` that forces the inference mode leaves `reset` as it is. -/
theorem forceDeterministic_reset {σ : Type} (E : Env σ) (st : State σ) :
    (forceDeterministic E st).reset = st.reset := by
  unfold forceDeterministic
  split <;> rfl

/-- When `Predict` returns on an engine whose `reset` is true, `reset` is true. -/
theorem Predict_reset {σ : Type} (E : Env σ) (st : State σ) (predictors results : Mat)
    (batchSize : Nat) (r : State σ × Mat)
    (h : Predict E st predictors results batchSize = some r)
    (hr : st.reset = true) : r.1.reset = true := by
  simp only [Predict, Option.bind_eq_some] at h
  obtain ⟨back, _, hfold⟩ := h
  refine foldlM_preserves (predictColumn E predictors)
    (fun acc : State σ × Mat => acc.1.reset = true) ?_ _ _ r ?_ hfold
  · intro acc i acc' hI hf
    simp only [predictColumn, Option.map_eq_some'] at hf
    obtain ⟨fr, hfr, rfl⟩ := hf
    unfold ForwardAll at hfr
    exact (Forward_members E _ _ _ _ _ hfr).2.1 hI
  · show (forceDeterministic E (initializeIfEmpty E st)).reset = true
    rw [forceDeterministic_reset, (initializeIfEmpty_members E st).1, hr]

/-- The member function `ResetData` leaves a true `reset` true. -/
theorem ResetData_reset {σ : Type} (E : Env σ) (st : State σ) (predictors responses : Mat)
    (hr : st.reset = true) : (ResetData E st predictors responses).reset = true := by
  unfold ResetData
  simp only [ResetDeterministic]
  rw [if_pos hr]
  exact hr

/-- No call made from outside clears `reset`. -/
theorem EngineCall_reset {σ : Type} (E : Env σ) (st st' : State σ) (c : EngineCall)
    (h : EngineCall.apply E st c = some st') (hr : st.reset = true) : st'.reset = true := by
  cases c with
  | forward inputs results begin end_ =>
    simp only [EngineCall.apply, Option.map_eq_some'] at h
    obtain ⟨fr, hfr, rfl⟩ := h
    exact (Forward_members E _ _ _ _ _ hfr).2.1 hr
  | backward =>
    simp only [EngineCall.apply] at h
    have : st'.reset = st.reset := congrArg Members.reset (Backward_members E _ _ h)
    rw [this, hr]
  | gradient input gradient =>
    simp only [EngineCall.apply, Option.map_eq_some'] at h
    obtain ⟨fr, hfr, rfl⟩ := h
    have : fr.st.reset = st.reset := congrArg Members.reset (Gradient_members E _ _ hfr)
    rw [this, hr]
  | evaluate begin batchSize deterministic =>
    simp only [EngineCall.apply, Option.map_eq_some'] at h
    obtain ⟨r, hev, rfl⟩ := h
    exact Evaluate_reset E st _ _ _ r hev hr
  | evaluateWithGradient parameters begin gradient batchSize =>
    simp only [EngineCall.apply, Option.map_eq_some'] at h
    obtain ⟨r, hev, rfl⟩ := h
    exact EvaluateWithGradient_reset E st _ _ _ _ r hev hr
  | predict predictors results batchSize =>
    simp only [EngineCall.apply, Option.map_eq_some'] at h
    obtain ⟨r, hev, rfl⟩ := h
    exact Predict_reset E st _ _ _ r hev hr
  | resetData predictors responses =>
    simp only [EngineCall.apply, Option.some.injEq] at h
    subst h
    exact ResetData_reset E st _ _ hr


/-- On an engine with one output view per layer, `Forward` returns for every range
`begin <= end < L`, with `results` the caller's matrix or the output view of layer
`end`. -/
theorem Forward_ok {σ : Type} (E : Env σ) (fr : Frame σ) (results : Operand) (begin end_ : Nat)
    (hbe : begin ≤ end_) (hend : end_ < fr.st.network.length)
    (hsz : fr.st.layerOutputs.length = fr.st.network.length)
    (hS : fr.st.network.length < SIZE)
    (hres : results = Operand.caller ∨ results = Operand.layerOutput end_) :
    ∃ fr', Forward E fr results begin end_ = some fr' := by
  have hcalls := ForwardCalls_eq_forwardChain results begin end_ hbe (by omega)
  obtain ⟨fr1, p1, p2, p3, _⟩ := ForwardPrepare_ok E fr results end_ hend hsz hS
    (by
      rcases hres with h | h
      · exact Or.inl h
      · exact Or.inr ⟨end_, h, hend⟩)
  obtain ⟨fr', r1, _⟩ := run_forwardChain E fr1 results begin end_ hbe
    (by rw [p2]; exact hend) (by rw [p2, p3]) hres
  refine ⟨fr', ?_⟩
  unfold Forward
  rw [if_neg (by omega), p1, Option.some_bind, hcalls, r1]

/-- The lazy initialization keeps the input dimensions of the layers when the
initialization rule keeps them. -/
theorem initializeIfEmpty_dims {σ : Type} (E : Env σ) (hc : MemberContract E.layer)
    (hinit : ∀ net p, (E.initNetwork net p).1.map E.layer.InputDimensions =
      net.map E.layer.InputDimensions) (st : State σ) :
    (initializeIfEmpty E st).network.map E.layer.InputDimensions =
      st.network.map E.layer.InputDimensions := by
  unfold initializeIfEmpty
  split
  · show (E.initNetwork (ResetDeterministic E st).network st.parameters).1.map _ = _
    rw [hinit]
    simp only [ResetDeterministic, List.map_map]
    apply List.map_congr_left
    intro s _
    exact hc.dims_deterministic s true
  · rfl


/-! ## Batches and columns -/

/-- The columns of a batch inside the matrix, as `cols` returns them. -/
theorem cols_batch (m : Mat) (begin batchSize : Nat) (h1 : 1 ≤ batchSize)
    (h2 : begin + batchSize ≤ m.n_cols) :
    m.cols begin (begin + batchSize - 1) = some (m.batch begin batchSize) := by
  rw [cols_isSome m begin (begin + batchSize - 1) (by omega) (by omega)]
  have e : begin + batchSize - 1 - begin + 1 = batchSize := by omega
  rw [e]
  rfl

/-- The value that `Evaluate` returns: the output loss of the composition of the layers,
as `Forward` has prepared them, on the batch of predictors, against the batch of
responses, plus the losses of the layers after the pass. -/
theorem Evaluate_value {σ : Type} (E : Env σ) (st : State σ) (begin batchSize : Nat) (d : Bool)
    (hL : 0 < st.network.length) (hsz : st.layerOutputs.length = st.network.length)
    (hS : st.network.length < SIZE) (hb : 1 ≤ batchSize)
    (hp : begin + batchSize ≤ st.predictors.n_cols)
    (hr : begin + batchSize ≤ st.responses.n_cols)
    (hN : st.predictors.n_cols < SIZE) :
    ∃ fr1 st',
      ForwardPrepare E ⟨EvaluatePrepare E st d, st.predictors.batch begin batchSize, Mat.empty⟩
        (Operand.layerOutput (st.network.length - 1)) (st.network.length - 1) = some fr1 ∧
      Evaluate E st begin batchSize d =
        some (st', E.outputLayer.Forward
            (compose E fr1.st.network (st.predictors.batch begin batchSize))
            (st.responses.batch begin batchSize) +
          (st'.network.map E.layer.Loss).sum) := by
  obtain ⟨q1, q2, q3, q4⟩ := EvaluatePrepare_frame E st d
  have hlast := lastCol_eq begin batchSize _ hb hp hN
  have hpc := cols_batch st.predictors begin batchSize hb hp
  have hrc := cols_batch st.responses begin batchSize hb hr
  obtain ⟨fr1, fr', out, f1, f2, f3, f4, f5, _, _, _⟩ := ForwardAll_into_last_view E
    (⟨EvaluatePrepare E st d, st.predictors.batch begin batchSize, Mat.empty⟩ : Frame σ)
    (by show 0 < (EvaluatePrepare E st d).network.length; rw [q1]; exact hL)
    (by show (EvaluatePrepare E st d).layerOutputs.length = (EvaluatePrepare E st d).network.length
        rw [q1, q2]; exact hsz)
    (by show (EvaluatePrepare E st d).network.length < SIZE; rw [q1]; exact hS)
  simp only [q1] at f1
  refine ⟨fr1, fr'.st, f1, ?_⟩
  unfold Evaluate
  rw [q4, hlast, hpc, Option.some_bind, f2, Option.some_bind, f3, Option.some_bind, f5, q3, hrc,
    Option.some_bind, addLosses_eq, f4]

/-- The layers that `Forward` has prepared depend on the engine and on the number of rows
of the input only. -/
theorem ForwardPrepare_network {σ : Type} (E : Env σ) (fr gr fr1 gr1 : Frame σ)
    (results : Operand) (end_ : Nat) (hst : gr.st = fr.st)
    (hrows : gr.input.n_rows = fr.input.n_rows)
    (hf : ForwardPrepare E fr results end_ = some fr1)
    (hg : ForwardPrepare E gr results end_ = some gr1) :
    gr1.st.network = fr1.st.network := by
  simp only [ForwardPrepare, Option.bind_eq_some] at hf hg
  obtain ⟨a2, a1, a3, a4, a5⟩ := hf
  obtain ⟨b2, b1, b3, b4, b5⟩ := hg
  obtain ⟨an, am⟩ := InitializeForwardPassMemory_members E _ _ _ a1
  obtain ⟨bn, bm⟩ := InitializeForwardPassMemory_members E _ _ _ b1
  obtain ⟨_, _, _, ap, aq⟩ := propagateIfNeeded_members E _ _ _ a4
  obtain ⟨_, _, _, bp, bq⟩ := propagateIfNeeded_members E _ _ _ b4
  obtain ⟨as, _⟩ := sizeResults_members E _ _ _ _ a5
  obtain ⟨bs, _⟩ := sizeResults_members E _ _ _ _ b5
  have as' : fr1.st.network = a3.network := as
  have bs' : gr1.st.network = b3.network := bs
  rw [hst] at bn bm
  have hnet : b2.network = a2.network := by rw [an, bn]
  have hres : b2.reset = a2.reset := by
    have h1 : a2.reset = (initializeIfEmpty E fr.st).reset := congrArg Members.reset am
    have h2 : b2.reset = (initializeIfEmpty E fr.st).reset := congrArg Members.reset bm
    rw [h1, h2]
  rw [as', bs']
  by_cases hr : a2.reset = true
  · rw [ap hr, bp (by rw [hres]; exact hr), hnet]
  · have hr' : a2.reset = false := by simpa using hr
    have h1 := aq hr'
    have h2 := bq (by rw [hres]; exact hr')
    rw [hnet, hrows, h1] at h2
    simp only [Option.some.injEq] at h2
    exact h2.symm

/-- The sample layers without auxiliary loss act column by column. -/
theorem quietOps_columnwise : ColumnwiseLayers quietOps := by
  intro s x
  refine ⟨rfl, ?_⟩
  intro i _
  simp [Mat.batch, quietOps, sampleOps, List.map_drop, List.map_take]


/-! ## The mode flag through `Evaluate` -/

/-- A `Forward` that returns on an engine with a non-empty parameter buffer leaves the
buffer as it was. -/
theorem Forward_parameters {σ : Type} (E : Env σ) (fr fr' : Frame σ) (results : Operand)
    (begin end_ : Nat) (hpar : fr.st.parameters.is_empty = false)
    (h : Forward E fr results begin end_ = some fr') :
    fr'.st.parameters = fr.st.parameters := by
  by_cases hbe : end_ < begin
  · unfold Forward at h
    rw [if_pos hbe] at h
    simp only [Option.some.injEq] at h
    subst h
    rfl
  · obtain ⟨st2, st3, fr1, h1, h2, h3, h4⟩ := Forward_inv E fr fr' results begin end_ hbe h
    rw [initializeIfEmpty_of_nonempty E fr.st hpar] at h1
    obtain ⟨_, m1⟩ := InitializeForwardPassMemory_members E _ _ _ h1
    obtain ⟨_, _, p3, _, _⟩ := propagateIfNeeded_members E _ _ _ h2
    obtain ⟨_, m3⟩ := sizeResults_members E _ _ _ _ h3
    obtain ⟨m4, _⟩ := run_members E (fun _ => ()) (fun _ _ => rfl) _ _ _ h4
    have e4 : fr'.st.parameters = fr1.st.parameters := congrArg Members.parameters m4
    have e3 : fr1.st.parameters = st3.parameters := congrArg Members.parameters m3
    have e1 : st2.parameters = fr.st.parameters := congrArg Members.parameters m1
    rw [e4, e3, p3, e1]

/-- What `Evaluate` does to the mode flags and to the parameter buffer, on an engine with
a non-empty parameter buffer and a cached dataset that holds the batch: the call returns,
the flag of the engine is the argument, the buffer is kept; the flags of the layers are
all true when the argument differs from the flag of the engine, and kept otherwise. -/
theorem Evaluate_mode {σ : Type} (E : Env σ) (st : State σ) (begin batchSize : Nat) (d : Bool)
    (hc : MemberContract E.layer)
    (hpar : st.parameters.is_empty = false)
    (hL : 0 < st.network.length) (hsz : st.layerOutputs.length = st.network.length)
    (hS : st.network.length < SIZE) (hb : 1 ≤ batchSize)
    (hp : begin + batchSize ≤ st.predictors.n_cols)
    (hr : begin + batchSize ≤ st.responses.n_cols) (hN : st.predictors.n_cols < SIZE) :
    ∃ r, Evaluate E st begin batchSize d = some r ∧
      r.1.deterministic = d ∧ r.1.parameters = st.parameters ∧
      r.1.network.length = st.network.length ∧
      r.1.layerOutputs.length = st.network.length ∧
      r.1.predictors = st.predictors ∧ r.1.responses = st.responses ∧
      (d ≠ st.deterministic →
        r.1.network.map E.layer.Deterministic = st.network.map (fun _ => true)) ∧
      (d = st.deterministic →
        r.1.network.map E.layer.Deterministic = st.network.map E.layer.Deterministic) := by
  obtain ⟨r, hr0, k1, k2, k3, k4⟩ := Evaluate_ok E st begin batchSize d hL hsz hS hb hp hr hN
  obtain ⟨p, fr, hfr, hr1⟩ := Evaluate_inv E st begin batchSize d r hr0
  obtain ⟨q1, q2, q3, q4⟩ := EvaluatePrepare_of_nonempty E st d hpar
  unfold ForwardAll at hfr
  obtain ⟨f1, _, _⟩ := Forward_members E _ _ _ _ _ hfr
  have f2 := Forward_network_map E E.layer.Deterministic hc.deterministic_forward _ _ _ _ _
    (Or.inr hc.deterministic_dims) hfr
  rw [if_neg (Nat.not_lt_zero _)] at f2
  have hpar' : (EvaluatePrepare E st d).parameters.is_empty = false := by rw [q4]; exact hpar
  have f3 := Forward_parameters E _ _ _ _ _ hpar' hfr
  have hi : initializeIfEmpty E (EvaluatePrepare E st d) = EvaluatePrepare E st d :=
    initializeIfEmpty_of_nonempty E _ hpar'
  have f1' : fr.st.deterministic = (EvaluatePrepare E st d).deterministic := f1
  have f3' : fr.st.parameters = (EvaluatePrepare E st d).parameters := f3
  have f2' : fr.st.network.map E.layer.Deterministic =
      (EvaluatePrepare E st d).network.map E.layer.Deterministic := by
    rw [f2]
    show (initializeIfEmpty E (EvaluatePrepare E st d)).network.map _ = _
    rw [hi]
  refine ⟨r, hr0, ?_, ?_, k1, k2, k3, k4, ?_, ?_⟩
  · rw [hr1, f1', q3]
  · rw [hr1, f3', q4]
  · intro hd
    rw [hr1, f2', q1 hd]
    simp only [ResetDeterministic, List.map_map]
    apply List.map_congr_left
    intro s _
    exact hc.deterministic_set s true
  · intro hd
    rw [hr1, f2', q2 hd]


/-! ## Sums of sizes -/

/-- The sum of a prefix of a list of sizes with one more entry. -/
theorem sum_take_succ (l : List Nat) (i x : Nat) (h : l[i]? = some x) :
    (l.take (i + 1)).sum = (l.take i).sum + x := by
  rw [List.take_succ, h]
  simp

/-- A shorter prefix of a list of sizes has a smaller sum. -/
theorem sum_take_le (l : List Nat) (m n : Nat) (h : m ≤ n) :
    (l.take m).sum ≤ (l.take n).sum := by
  have e : l.take m = (l.take n).take m := by
    rw [List.take_take, Nat.min_eq_left h]
  have := List.take_append_drop m (l.take n)
  rw [← this, List.sum_append, ← e]
  omega

/-- A prefix of a list of sizes has a sum that is at most that of the list. -/
theorem sum_take_le_sum (l : List Nat) (m : Nat) : (l.take m).sum ≤ l.sum := by
  have := List.take_append_drop m l
  rw [← this, List.sum_append, List.take_append_drop]
  omega

/-- The sum of the sizes of views of `b` columns. -/
theorem sum_map_mul (l : List Nat) (b : Nat) : (l.map (fun r => r * b)).sum = l.sum * b := by
  induction l with
  | nil => simp
  | cons x l ih => simp [ih, Nat.add_mul]

/-- Views of `b` columns whose numbers of rows are those of a list `rows`, and each of
which starts at `b` times the sum of the numbers of rows before it, lie one after the
other, do not overlap, and have `b` times the sum of `rows` elements in all. -/
theorem carved_layout (views : List Alias) (rows : List Nat) (b : Nat)
    (hlen : views.length = rows.length)
    (h : ∀ (i r : Nat), rows[i]? = some r →
      (views[i]?).map (fun a : Alias => (a.start, a.mat.n_rows, a.mat.n_cols)) =
        some (b * (rows.take i).sum, r, b)) :
    contiguousViews views ∧ disjointViews views ∧
    (views.map (fun a => a.mat.n_elem)).sum = b * rows.sum := by
  have hmap : views.map (fun a => a.mat.n_elem) = rows.map (fun r => r * b) := by
    apply List.ext_getElem?
    intro i
    simp only [List.getElem?_map]
    by_cases hi : i < rows.length
    · have hr : rows[i]? = some rows[i] := List.getElem?_eq_getElem hi
      have hv := h i _ hr
      rw [hr]
      obtain ⟨a, ha, hq⟩ := Option.map_eq_some'.1 hv
      rw [ha]
      simp only [Prod.mk.injEq] at hq
      simp [Mat.n_elem, hq.2.1, hq.2.2]
    · rw [List.getElem?_eq_none (by omega), List.getElem?_eq_none (by omega)]
      rfl
  have hcont : contiguousViews views := by
    intro i a ha
    have hi : i < views.length := by
      rcases Nat.lt_or_ge i views.length with h1 | h1
      · exact h1
      · rw [List.getElem?_eq_none h1] at ha; cases ha
    have hr : rows[i]? = some rows[i] := List.getElem?_eq_getElem (by omega)
    have hv := h i _ hr
    rw [ha] at hv
    simp only [Option.map_some', Option.some.injEq, Prod.mk.injEq] at hv
    rw [List.map_take, hmap, ← List.map_take, sum_map_mul, hv.1, Nat.mul_comm]
  refine ⟨hcont, ?_, ?_⟩
  · intro i j a c hij ha hc
    have h1 := hcont i a ha
    have h2 := hcont j c hc
    have h3 : ((views.map (fun v => v.mat.n_elem)).take (i + 1)).sum =
        ((views.map (fun v => v.mat.n_elem)).take i).sum + a.mat.n_elem :=
      sum_take_succ _ i _ (by simp [List.getElem?_map, ha])
    have h4 := sum_take_le (views.map (fun v => v.mat.n_elem)) (i + 1) j (by omega)
    rw [List.map_take] at h1 h2
    rw [h1, h2]
    omega
  · rw [hmap, sum_map_mul, Nat.mul_comm]


/-! ## The layout of the output arena -/

/-- After `InitializeForwardPassMemory(b)` on an engine with one output view per layer,
when `b` times the sum of the output sizes is a `size_t`: the backing buffer is the one
the first statement leaves, and view `i` is made at `colptr` of `b` times the sum of the
output sizes of the layers before `i`, with `OutputSize(i)` rows and `b` columns. -/
theorem InitializeForwardPassMemory_views {σ : Type} (E : Env σ) (st : State σ) (b : Nat)
    (hsz : st.layerOutputs.length = st.network.length)
    (hover : b * (st.network.map E.layer.OutputSize).sum < SIZE) :
    ∃ st', InitializeForwardPassMemory E st b = some st' ∧
      st'.layerOutputMatrix = (reallocOutputs st b).layerOutputMatrix ∧
      st'.layerOutputs.length = st.network.length ∧
      ∀ (i r : Nat), (st.network.map E.layer.OutputSize)[i]? = some r →
        (st'.layerOutputs[i]?).map (fun a : Alias => (a.start, a.mat.n_rows, a.mat.n_cols)) =
          some ((reallocOutputs st b).layerOutputMatrix.colptr
            (b * ((st.network.map E.layer.OutputSize).take i).sum), r, b) := by
  obtain ⟨hlo, hnet⟩ := reallocOutputs_dropOutputs st b
  obtain ⟨acc, hacc, hI1, hI2, hI3, hI4, hI5⟩ := foldlM_range_invariant (aliasOutput E b)
    (fun n acc => acc.1.network = st.network ∧
      acc.1.layerOutputMatrix = (reallocOutputs st b).layerOutputMatrix ∧
      acc.1.layerOutputs.length = st.network.length ∧
      acc.2 = b * ((st.network.map E.layer.OutputSize).take n).sum ∧
      ∀ (i r : Nat), i < n → (st.network.map E.layer.OutputSize)[i]? = some r →
        (acc.1.layerOutputs[i]?).map (fun a : Alias => (a.start, a.mat.n_rows, a.mat.n_cols)) =
          some ((reallocOutputs st b).layerOutputMatrix.colptr
            (b * ((st.network.map E.layer.OutputSize).take i).sum), r, b))
    st.layerOutputs.length 0 (reallocOutputs st b, 0)
    ⟨hnet, rfl, by rw [hlo]; exact hsz, by simp, fun i r hi _ => absurd hi (by omega)⟩
    (by
      intro i acc _ hi hI
      obtain ⟨a1, a2, a3, a4, a5⟩ := hI
      have hiL : i < st.network.length := by omega
      have h1 : i < acc.1.network.length := by rw [a1]; exact hiL
      have h2 : i < acc.1.layerOutputs.length := by rw [a3]; exact hiL
      have hrow : (st.network.map E.layer.OutputSize)[i]? =
          some (E.layer.OutputSize acc.1.network[i]) := by
        rw [List.getElem?_map, ← a1, List.getElem?_eq_getElem h1]
        rfl
      have hsucc := sum_take_succ _ i _ hrow
      have hle := sum_take_le_sum (st.network.map E.layer.OutputSize) (i + 1)
      have hb1 : b * ((st.network.map E.layer.OutputSize).take (i + 1)).sum < SIZE :=
        Nat.lt_of_le_of_lt (Nat.mul_le_mul_left b hle) hover
      rw [hsucc, Nat.mul_add] at hb1
      have e1 : sizeMul b (E.layer.OutputSize acc.1.network[i]) =
          b * E.layer.OutputSize acc.1.network[i] := sizeMul_of_lt (by omega)
      have e2 : sizeAdd acc.2 (sizeMul b (E.layer.OutputSize acc.1.network[i])) =
          b * ((st.network.map E.layer.OutputSize).take (i + 1)).sum := by
        rw [e1, a4, hsucc, Nat.mul_add]
        exact sizeAdd_of_lt hb1
      simp only [aliasOutput, List.getElem?_eq_getElem h1, List.getElem?_eq_getElem h2,
        Option.bind_eq_bind, Option.some_bind]
      refine ⟨_, rfl, a1, a2, by simp [a3], e2, ?_⟩
      intro j r hj hr
      rcases Nat.lt_or_ge j i with hlt | hge
      · have hne : i ≠ j := by omega
        simp only [List.getElem?_set_ne hne]
        exact a5 j r hlt hr
      · have hji : j = i := by omega
        subst hji
        rw [hrow] at hr
        simp only [Option.some.injEq] at hr
        simp [List.getElem?_set, h2, a2, a4, hr])
  refine ⟨acc.1, ?_, hI2, hI3, ?_⟩
  · simp [InitializeForwardPassMemory, loopRange, hacc]
  · intro i r hr
    have hi : i < st.layerOutputs.length := by
      rcases Nat.lt_or_ge i (st.network.map E.layer.OutputSize).length with h1 | h1
      · rw [hsz]; simpa using h1
      · rw [List.getElem?_eq_none h1] at hr; cases hr
    exact hI5 i r (by omega) hr

/-- The buffer that the first statement of `InitializeForwardPassMemory(b)` leaves holds
the `b * totalOutputSize` elements requested; it has one row, unless it was kept and
nothing is requested. -/
theorem reallocOutputs_capacity {σ : Type} (st : State σ) (b : Nat)
    (hover : b * st.totalOutputSize < SIZE)
    (hbuf : st.layerOutputMatrix.n_rows = 1 ∨ st.layerOutputMatrix.n_elem = 0) :
    b * st.totalOutputSize ≤ (reallocOutputs st b).layerOutputMatrix.n_elem ∧
    ((reallocOutputs st b).layerOutputMatrix.n_rows = 1 ∨ b * st.totalOutputSize = 0) := by
  have e : sizeMul b st.totalOutputSize = b * st.totalOutputSize := sizeMul_of_lt hover
  unfold reallocOutputs
  rw [e]
  split
  · exact ⟨by simp [Arena.replace, Arena.n_elem], Or.inl rfl⟩
  · rename_i hno
    simp only [outputNeedsRealloc, Bool.or_eq_true, decide_eq_true_eq, not_or, not_lt] at hno
    refine ⟨hno.1, ?_⟩
    rcases hbuf with h1 | h1
    · exact Or.inl h1
    · right
      have := hno.1
      omega

/-- On a buffer of one row, or when nothing is requested, `colptr` of an offset inside
the request is the offset. -/
theorem colptr_of_one_row (a : Arena) (c total : Nat) (hc : c ≤ total) (ht : total < SIZE)
    (h : a.n_rows = 1 ∨ total = 0) : a.colptr c = c := by
  unfold Arena.colptr
  rcases h with h1 | h1
  · rw [h1, sizeMul_of_lt (by omega)]
    omega
  · have : c = 0 := by omega
    subst this
    simp [sizeMul]


/-! ## The layout of the delta arena -/

/-- The local variable `layerInputSize` for an index up to the number of layers is the
entry of that index in the list of `inputSize` followed by the output sizes. -/
theorem layerInputSize_eq {σ : Type} (E : Env σ) (st : State σ) (i : Nat) (hi : i < SIZE) :
    layerInputSize E st i = (inputSize st :: st.network.map E.layer.OutputSize)[i]? := by
  unfold layerInputSize
  cases i with
  | zero => simp
  | succ k =>
    have e : sizeSub (k + 1) 1 = k := by
      rw [sizeSub_of_le (by omega) hi]; rfl
    rw [if_neg (by omega), e]
    simp [List.getElem?_map]

/-- An entry of `deltaRows` is an entry of the list of `inputSize` followed by the output
sizes. -/
theorem deltaRows_getElem {σ : Type} (E : Env σ) (st : State σ) (i : Nat)
    (hi : i < st.network.length) :
    (deltaRows E st)[i]? = (inputSize st :: st.network.map E.layer.OutputSize)[i]? := by
  unfold deltaRows
  rw [List.getElem?_take]
  simp [hi]

/-- A prefix of `deltaRows` is a prefix of the list of `inputSize` followed by the output
sizes. -/
theorem deltaRows_take {σ : Type} (E : Env σ) (st : State σ) (i : Nat)
    (hi : i ≤ st.network.length) :
    (deltaRows E st).take i = (inputSize st :: st.network.map E.layer.OutputSize).take i := by
  unfold deltaRows
  rw [List.take_take, Nat.min_eq_left hi]

/-- After `InitializeBackwardPassMemory(b)` on an engine of at least one layer with one
delta view per layer, when `b` times the sum of `deltaRows` is a `size_t`: the backing
buffer is the one the first statements leave, and view `i` is made at `colptr` of `b` times
the sum of the entries of `deltaRows` before `i`, with as many rows as entry `i` says and
`b` columns. -/
theorem InitializeBackwardPassMemory_views {σ : Type} (E : Env σ) (st : State σ) (b : Nat)
    (hL : 0 < st.network.length) (hS : st.network.length < SIZE)
    (hsz : st.layerDeltas.length = st.network.length)
    (hover : b * (deltaRows E st).sum < SIZE) :
    ∃ st1 st', reallocDeltas E st b = some st1 ∧
      InitializeBackwardPassMemory E st b = some st' ∧
      st'.deltaMatrix = st1.deltaMatrix ∧
      st'.layerDeltas.length = st.network.length ∧
      ∀ (i r : Nat), (deltaRows E st)[i]? = some r →
        (st'.layerDeltas[i]?).map (fun a : Alias => (a.start, a.mat.n_rows, a.mat.n_cols)) =
          some (st1.deltaMatrix.colptr (b * ((deltaRows E st).take i).sum), r, b) := by
  have hback : sizeSub st.network.length 1 < st.network.length := by
    rw [sizeSub_of_le (by omega) hS]; omega
  obtain ⟨st1, hst1⟩ : ∃ st1, reallocDeltas E st b = some st1 := by
    simp only [reallocDeltas, totalInputSize, List.getElem?_eq_getElem hback, Option.map_some']
    exact ⟨_, rfl⟩
  have hfr : st1.network = st.network ∧ st1.inputDimensions = st.inputDimensions ∧
      st1.layerDeltas = st.layerDeltas := by
    simp only [reallocDeltas, Option.map_eq_some'] at hst1
    obtain ⟨t, _, rfl⟩ := hst1
    split <;> exact ⟨rfl, rfl, rfl⟩
  obtain ⟨acc, hacc, hI1, hI2, hI3, hI4, hI5, hI6⟩ := foldlM_range_invariant (aliasDelta E b)
    (fun n acc => acc.1.network = st.network ∧
      acc.1.inputDimensions = st.inputDimensions ∧
      acc.1.deltaMatrix = st1.deltaMatrix ∧
      acc.1.layerDeltas.length = st.network.length ∧
      acc.2 = b * ((deltaRows E st).take n).sum ∧
      ∀ (i r : Nat), i < n → (deltaRows E st)[i]? = some r →
        (acc.1.layerDeltas[i]?).map (fun a : Alias => (a.start, a.mat.n_rows, a.mat.n_cols)) =
          some (st1.deltaMatrix.colptr (b * ((deltaRows E st).take i).sum), r, b))
    st1.layerDeltas.length 0 (st1, 0)
    ⟨hfr.1, hfr.2.1, rfl, by rw [hfr.2.2]; exact hsz, by simp,
      fun i r hi _ => absurd hi (by omega)⟩
    (by
      intro i acc _ hi hI
      obtain ⟨a1, a2, a3, a4, a5, a6⟩ := hI
      have hiL : i < st.network.length := by rw [hfr.2.2, hsz] at hi; omega
      have h2 : i < acc.1.layerDeltas.length := by rw [a4]; exact hiL
      have hsame : layerInputSize E acc.1 i = layerInputSize E st i := by
        unfold layerInputSize inputSize
        rw [a1, a2]
      have hlen : i < (inputSize st :: st.network.map E.layer.OutputSize).length := by
        simp; omega
      have hrow : (deltaRows E st)[i]? =
          some (inputSize st :: st.network.map E.layer.OutputSize)[i] := by
        rw [deltaRows_getElem E st i hiL, List.getElem?_eq_getElem hlen]
      have hsize : layerInputSize E acc.1 i =
          some (inputSize st :: st.network.map E.layer.OutputSize)[i] := by
        rw [hsame, layerInputSize_eq E st i (by omega), List.getElem?_eq_getElem hlen]
      have hsucc := sum_take_succ _ i _ hrow
      have hle := sum_take_le_sum (deltaRows E st) (i + 1)
      have hb1 : b * ((deltaRows E st).take (i + 1)).sum < SIZE :=
        Nat.lt_of_le_of_lt (Nat.mul_le_mul_left b hle) hover
      rw [hsucc, Nat.mul_add] at hb1
      have e1 : sizeMul b (inputSize st :: st.network.map E.layer.OutputSize)[i] =
          b * (inputSize st :: st.network.map E.layer.OutputSize)[i] :=
        sizeMul_of_lt (by omega)
      have e2 : sizeAdd acc.2 (sizeMul b (inputSize st :: st.network.map E.layer.OutputSize)[i]) =
          b * ((deltaRows E st).take (i + 1)).sum := by
        rw [e1, a5, hsucc, Nat.mul_add]
        exact sizeAdd_of_lt hb1
      simp only [aliasDelta, hsize, List.getElem?_eq_getElem h2, Option.some_bind]
      refine ⟨_, rfl, a1, a2, a3, by simp [a4], e2, ?_⟩
      intro j r hj hr
      rcases Nat.lt_or_ge j i with hlt | hge
      · have hne : i ≠ j := by omega
        simp only [List.getElem?_set_ne hne]
        exact a6 j r hlt hr
      · have hji : j = i := by omega
        subst hji
        rw [hrow] at hr
        simp only [Option.some.injEq] at hr
        simp [List.getElem?_set, h2, a3, a5, hr])
  refine ⟨st1, acc.1, hst1, ?_, hI3, hI4, ?_⟩
  · simp [InitializeBackwardPassMemory, hst1, loopRange, hacc]
  · intro i r hr
    have hi : i < st1.layerDeltas.length := by
      rcases Nat.lt_or_ge i (deltaRows E st).length with h1 | h1
      · have : (deltaRows E st).length ≤ st.network.length := by
          unfold deltaRows
          rw [List.length_take]
          exact Nat.min_le_left _ _
        rw [hfr.2.2, hsz]
        omega
      · rw [List.getElem?_eq_none h1] at hr; cases hr
    exact hI6 i r (by omega) hr


/-- The sum of `deltaRows` on an engine of at least one layer: `inputSize` plus the sum of
the output sizes without that of the last layer. -/
theorem deltaRows_sum {σ : Type} (E : Env σ) (st : State σ) (last : σ)
    (hlast : st.network[st.network.length - 1]? = some last) (hL : 0 < st.network.length) :
    ∃ rest, (deltaRows E st).sum = inputSize st + rest ∧
      (st.network.map E.layer.OutputSize).sum = rest + E.layer.OutputSize last := by
  obtain ⟨m, hm⟩ : ∃ m, st.network.length = m + 1 := ⟨st.network.length - 1, by omega⟩
  have hm' : st.network.length - 1 = m := by omega
  rw [hm'] at hlast
  have hrow : (st.network.map E.layer.OutputSize)[m]? = some (E.layer.OutputSize last) := by
    rw [List.getElem?_map, hlast]
    rfl
  have h1 := sum_take_succ _ m _ hrow
  have h2 : (st.network.map E.layer.OutputSize).take (m + 1) =
      st.network.map E.layer.OutputSize := by
    apply List.take_of_length_le
    simp [hm]
  rw [h2] at h1
  refine ⟨((st.network.map E.layer.OutputSize).take m).sum, ?_, h1⟩
  have h3 : deltaRows E st =
      inputSize st :: (st.network.map E.layer.OutputSize).take m := by
    unfold deltaRows
    generalize st.network.length = n at hm
    subst hm
    rfl
  rw [h3, List.sum_cons]

/-- The local variable `totalInputSize` is the sum of `deltaRows`, when `totalOutputSize`
is the sum of the output sizes and the sums are `size_t` values. -/
theorem totalInputSize_eq {σ : Type} (E : Env σ) (st : State σ)
    (hL : 0 < st.network.length) (hS : st.network.length < SIZE)
    (hT : st.totalOutputSize = (st.network.map E.layer.OutputSize).sum)
    (hTlt : st.totalOutputSize < SIZE) (hsum : (deltaRows E st).sum < SIZE) :
    totalInputSize E st = some (deltaRows E st).sum := by
  have hidx : sizeSub st.network.length 1 = st.network.length - 1 :=
    sizeSub_of_le (by omega) hS
  have hlt : st.network.length - 1 < st.network.length := by omega
  have hlast : st.network[st.network.length - 1]? = some st.network[st.network.length - 1] :=
    List.getElem?_eq_getElem hlt
  obtain ⟨rest, r1, r2⟩ := deltaRows_sum E st _ hlast hL
  unfold totalInputSize
  rw [hidx, hlast, Option.map_some']
  have e1 : sizeSub st.totalOutputSize (E.layer.OutputSize st.network[st.network.length - 1]) =
      st.totalOutputSize - E.layer.OutputSize st.network[st.network.length - 1] :=
    sizeSub_of_le (by rw [hT]; omega) hTlt
  have hv : st.totalOutputSize - E.layer.OutputSize st.network[st.network.length - 1] +
      inputSize st = (deltaRows E st).sum := by
    rw [hT]; omega
  rw [e1, sizeAdd_of_lt (by rw [hv]; exact hsum), hv]

/-- The buffer that the first statements of `InitializeBackwardPassMemory(b)` leave holds
the elements requested, `b` times the sum of `deltaRows`; it has one row, unless it was
kept and nothing is requested. -/
theorem reallocDeltas_capacity {σ : Type} (E : Env σ) (st st1 : State σ) (b : Nat)
    (hL : 0 < st.network.length) (hS : st.network.length < SIZE)
    (hT : st.totalOutputSize = (st.network.map E.layer.OutputSize).sum)
    (hTlt : st.totalOutputSize < SIZE) (hsum : (deltaRows E st).sum < SIZE)
    (hover : b * (deltaRows E st).sum < SIZE)
    (hbuf : st.deltaMatrix.n_rows = 1 ∨ st.deltaMatrix.n_elem = 0)
    (h : reallocDeltas E st b = some st1) :
    b * (deltaRows E st).sum ≤ st1.deltaMatrix.n_elem ∧
    (st1.deltaMatrix.n_rows = 1 ∨ b * (deltaRows E st).sum = 0) := by
  unfold reallocDeltas at h
  rw [totalInputSize_eq E st hL hS hT hTlt hsum, Option.map_some', sizeMul_of_lt hover] at h
  simp only [Option.some.injEq] at h
  subst h
  split
  · exact ⟨by simp [Arena.replace, Arena.n_elem], Or.inl rfl⟩
  · rename_i hno
    simp only [deltaNeedsRealloc, Bool.or_eq_true, decide_eq_true_eq, not_or, not_lt] at hno
    refine ⟨hno.1, ?_⟩
    rcases hbuf with h1 | h1
    · exact Or.inl h1
    · right
      have := hno.1
      omega


/-! ## Passes that stay inside the output arena -/

/-- Overwriting elements of a list keeps its length. -/
theorem overwrite_length (l : List Int) (start : Nat) (ys : List Int) :
    (overwrite l start ys).length = l.length := by
  unfold overwrite
  simp only [List.length_append, List.length_take, List.length_drop]
  omega

/-- A step of the gradient pass as the specification describes it keeps the shape and
the number of elements of `gradient`. -/
theorem specGradientStep_shape {σ : Type} (E : Env σ) (st : State σ) (input g g' : Mat)
    (i : Nat) (h : specGradientStep E st input g i = some g') :
    g'.n_rows = g.n_rows ∧ g'.n_cols = g.n_cols ∧ g'.mem.length = g.mem.length := by
  simp only [specGradientStep, Option.bind_eq_some, Option.map_eq_some'] at h
  obtain ⟨s, _, x, _, e, _, v, _, rfl⟩ := h
  exact ⟨rfl, rfl, overwrite_length _ _ _⟩

/-- The call of the `Gradient` of layer `i` that the engine makes, on layers that write a
gradient of the size of the view they are given and with view `i` inside `gradient`, does
what the specification says of layer `i`. -/
theorem exec_gradient_spec {σ : Type} (E : Env σ) (hc : GradientContract E.layer)
    (st : State σ) (input g : Mat) (i : Nat) (v : Alias)
    (hv : st.layerGradients[i]? = some v)
    (hin : v.start + v.mat.n_rows * v.mat.n_cols ≤ g.mem.length) :
    exec E ⟨st, input, g⟩
      (Call.gradient i (if i = 0 then Operand.input else Operand.layerOutput (i - 1))
        (if i = st.network.length - 1 then Operand.error else Operand.layerDelta (i + 1))
        (Operand.layerGradient i)) =
      (specGradientStep E st input g i).map (fun g' => ⟨st, input, g'⟩) := by
  have hx : read (⟨st, input, g⟩ : Frame σ)
      (if i = 0 then Operand.input else Operand.layerOutput (i - 1)) =
      (if i = 0 then some input else (st.layerOutputs[i - 1]?).map (fun a => a.mat)) := by
    split <;> rfl
  have he : read (⟨st, input, g⟩ : Frame σ)
      (if i = st.network.length - 1 then Operand.error else Operand.layerDelta (i + 1)) =
      (if i = st.network.length - 1 then some st.error
        else (st.layerDeltas[i + 1]?).map (fun a => a.mat)) := by
    split <;> rfl
  have hold : read (⟨st, input, g⟩ : Frame σ) (Operand.layerGradient i) =
      some ⟨v.mat.n_rows, v.mat.n_cols,
        (g.mem.drop v.start).take (v.mat.n_rows * v.mat.n_cols)⟩ := by
    simp [read, hv]
  have hlen : ((g.mem.drop v.start).take (v.mat.n_rows * v.mat.n_cols)).length =
      v.mat.n_rows * v.mat.n_cols := by
    rw [List.length_take, List.length_drop]
    omega
  simp only [exec, specGradientStep, Option.bind_eq_bind, hx, he, hold]
  cases st.network[i]? with
  | none => rfl
  | some s =>
    simp only [Option.some_bind]
    cases (if i = 0 then some input else (st.layerOutputs[i - 1]?).map (fun a => a.mat)) with
    | none => rfl
    | some x =>
      simp only [Option.some_bind]
      cases (if i = st.network.length - 1 then some st.error
          else (st.layerDeltas[i + 1]?).map (fun a => a.mat)) with
      | none => rfl
      | some e =>
        simp only [Option.some_bind, write, hv, Option.map_some']
        have htake : (E.layer.Gradient s x e
            ⟨v.mat.n_rows, v.mat.n_cols,
              (g.mem.drop v.start).take (v.mat.n_rows * v.mat.n_cols)⟩).mem.take
            (v.mat.n_rows * v.mat.n_cols) =
            (E.layer.Gradient s x e
              ⟨v.mat.n_rows, v.mat.n_cols,
                (g.mem.drop v.start).take (v.mat.n_rows * v.mat.n_cols)⟩).mem := by
          apply List.take_of_length_le
          rw [(hc s x e _).2.2, hlen]
        rw [htake]

/-- The calls of the `Gradient` of the layers of a list, made in order by the engine, do
what the specification says, on layers that write a gradient of the size of the view they
are given and with every view inside `gradient`. -/
theorem run_gradient_spec {σ : Type} (E : Env σ) (hc : GradientContract E.layer)
    (st : State σ) (input : Mat) (n : Nat)
    (hviews : ∀ (i : Nat) (v : Alias), st.layerGradients[i]? = some v →
      v.start + v.mat.n_rows * v.mat.n_cols ≤ n) :
    ∀ (l : List Nat) (g : Mat), g.mem.length = n → (∀ i ∈ l, i < st.layerGradients.length) →
      run E ⟨st, input, g⟩ (l.map (fun i =>
        Call.gradient i (if i = 0 then Operand.input else Operand.layerOutput (i - 1))
          (if i = st.network.length - 1 then Operand.error else Operand.layerDelta (i + 1))
          (Operand.layerGradient i))) =
      (l.foldlM (specGradientStep E st input) g).map (fun g' => ⟨st, input, g'⟩) := by
  intro l
  induction l with
  | nil => intro g _ _; rfl
  | cons i l ih =>
    intro g hg hl
    have hi : i < st.layerGradients.length := hl i (List.mem_cons_self _ _)
    have hv : st.layerGradients[i]? = some st.layerGradients[i] := List.getElem?_eq_getElem hi
    rw [List.map_cons, run_cons, exec_gradient_spec E hc st input g i _ hv
      (by rw [hg]; exact hviews i _ hv), List.foldlM_cons]
    cases hstep : specGradientStep E st input g i with
    | none => rfl
    | some g' =>
      simp only [Option.map_some', Option.some_bind, Option.bind_eq_bind]
      exact ih g' ((specGradientStep_shape E st input g g' i hstep).2.2.trans hg)
        (fun j hj => hl j (List.mem_cons_of_mem _ hj))


/-! ## A batch and its examples one after the other -/

/-- The engine made by the copy constructor has the output layer and the initialization
rule of the source, a parameter buffer, flags `reset` and `deterministic`, input-shape
record, cached predictors and responses, `numFunctions` and `totalOutputSize` equal to
those of the source, the clones of the layers of the source in the same order, three
backing buffers without elements, and three view tables of one default-constructed entry
per layer. -/
theorem copyConstructor_members {σ : Type} (src : Engine σ) :
    (copyConstructor src).env = src.env ∧
    (copyConstructor src).st.parameters = src.st.parameters ∧
    (copyConstructor src).st.reset = src.st.reset ∧
    (copyConstructor src).st.deterministic = src.st.deterministic ∧
    (copyConstructor src).st.inputDimensions = src.st.inputDimensions ∧
    (copyConstructor src).st.predictors = src.st.predictors ∧
    (copyConstructor src).st.responses = src.st.responses ∧
    (copyConstructor src).st.numFunctions = src.st.numFunctions ∧
    (copyConstructor src).st.totalOutputSize = src.st.totalOutputSize ∧
    (copyConstructor src).st.network = src.st.network.map src.env.layer.Clone ∧
    (copyConstructor src).st.network.length = src.st.network.length ∧
    (copyConstructor src).st.layerOutputMatrix.n_elem = 0 ∧
    (copyConstructor src).st.deltaMatrix.n_elem = 0 ∧
    (copyConstructor src).st.gradientMatrix.n_elem = 0 ∧
    (copyConstructor src).st.layerOutputs = List.replicate src.st.network.length Alias.empty ∧
    (copyConstructor src).st.layerDeltas = List.replicate src.st.network.length Alias.empty ∧
    (copyConstructor src).st.layerGradients
      = List.replicate src.st.network.length Alias.empty :=
  ⟨rfl, rfl, rfl, rfl, rfl, rfl, rfl, rfl, rfl, rfl, by simp [copyConstructor], rfl, rfl, rfl,
    by simp [copyConstructor], by simp [copyConstructor], by simp [copyConstructor]⟩


/-- C2 (the code departs from the claim). `InitializeGradientPassMemory` never advances
its local variable `start`: on the sample engine, whose layers have 2 and 3 weights, the
two parameter-gradient views have 2 and 3 rows but both start at offset 0 of the
gradient, where the claim puts the second view at offset 2. -/
theorem InitializeGradientPassMemory_views_all_start_at_zero :
    (InitializeGradientPassMemory sampleEnv sampleState (Mat.zerosOf 5 1)).map (fun st =>
        st.layerGradients.map (fun a => (a.start, a.mat.n_rows, a.mat.n_cols))) =
      some [(0, 2, 1), (0, 3, 1)] ∧
    sampleState.network.map sampleEnv.layer.WeightSize = [2, 3] := by
  decide

/-- C3 (the code departs from the claim). For two layers `Backward()` calls the `Backward`
of layer 1 with `error`, then the `Backward` of layer 1 again with the delta view of index
2, which does not exist, and never calls layer 0; on the sample engine the call therefore
does not return.  For a single layer the only call is that of layer 0 with `error`. -/
theorem Backward_skips_layer_zero :
    BackwardCalls 2 2 2 =
      [Call.backward 1 (Operand.layerOutput 1) Operand.error (Operand.layerDelta 1),
       Call.backward 1 (Operand.layerOutput 1) (Operand.layerDelta 2) (Operand.layerDelta 1)] ∧
    (Backward sampleEnv sampleState).isSome = false ∧
    BackwardCalls 1 1 1 =
      [Call.backward 0 (Operand.layerOutput 0) Operand.error (Operand.layerDelta 0)] := by
  decide

/-- C4 (the code departs from the claim). On the sample engine, whose two layers have
auxiliary loss 1 each, `Evaluate(parameters, 0, 1, false)` returns 8, while the value `res`
that `EvaluateWithGradient(parameters, 0, gradient, 1)` computes is 10: the auxiliary
losses are added a second time.  The call then enters `Backward()` and does not return. -/
theorem EvaluateWithGradient_adds_layer_losses_twice :
    (Evaluate sampleEnv sampleState 0 1 false).map (fun r => r.2) = some 8 ∧
    (EvaluateWithGradientLoss sampleEnv sampleState (Mat.zerosOf 5 1) 0 (Mat.zerosOf 5 1) 1).map
      (fun r => r.2.2) = some 10 ∧
    (EvaluateWithGradient sampleEnv sampleState (Mat.zerosOf 5 1) 0 (Mat.zerosOf 5 1) 1).isSome =
      false := by
  decide

/-- C5 (the code departs from the claim). On the sample engine `Evaluate(parameters)`
returns 22, the sum of the two single-example results 8 and 14, but
`EvaluateWithGradient(parameters, gradient)` does not return.  On the engine with a spare
delta view, where every pass completes, the single-example calls write the gradients
`[63, 63, 8, 0, 0]` and `[126, 126, 16, 0, 0]`, and the whole-dataset call leaves
`[126, 126, 16, 0, 0]`, the gradient of the last example alone and not the sum; a
gradient passed in is discarded as well. -/
theorem EvaluateWithGradient_dataset_keeps_last_gradient_only :
    (EvaluateDataset sampleEnv sampleState).map (fun r => r.2) = some 22 ∧
    (Evaluate sampleEnv sampleState 0 1 true).map (fun r => r.2) = some 8 ∧
    (Evaluate sampleEnv sampleState 1 1 true).map (fun r => r.2) = some 14 ∧
    (EvaluateWithGradientDataset sampleEnv sampleState (Mat.zerosOf 5 1)
      (Mat.zerosOf 5 1)).isSome = false ∧
    (EvaluateWithGradient sampleEnv spareViewState (Mat.zerosOf 5 1) 0 (Mat.zerosOf 5 1) 1).map
      (fun r => r.2.1) = some ⟨5, 1, [63, 63, 8, 0, 0]⟩ ∧
    (EvaluateWithGradient sampleEnv spareViewState (Mat.zerosOf 5 1) 1 (Mat.zerosOf 5 1) 1).map
      (fun r => r.2.1) = some ⟨5, 1, [126, 126, 16, 0, 0]⟩ ∧
    (EvaluateWithGradientDataset sampleEnv spareViewState (Mat.zerosOf 5 1) (Mat.zerosOf 5 1)).map
      (fun r => r.2.1) = some ⟨5, 1, [126, 126, 16, 0, 0]⟩ ∧
    (EvaluateWithGradientDataset sampleEnv spareViewState (Mat.zerosOf 5 1)
      ⟨5, 1, [9, 9, 9, 9, 9]⟩).map (fun r => r.2.1) = some ⟨5, 1, [126, 126, 16, 0, 0]⟩ := by
  decide


/-- C7. On an engine of `L >= 2` layers with one view of each kind per layer, whose output
and delta views lie inside their buffers, with layers that write a parameter gradient of
the size of the view they are given, and a `gradient` that holds `WeightSize()` elements
for every layer: the calls that `Gradient(input, gradient)` makes are the `Gradient` of
every layer exactly once, in the order `0, 1, ..., L-1`; layer 0 is given the external
`input`, every layer `i >= 1` the output view of layer `i-1`; layer `i < L-1` is given the
delta view `i+1` and layer `L-1` is given `error`; layer `i` writes the parameter-gradient
view `i`.  The member function does what the specification says (`specGradient`): it
returns, the engine is the one `InitializeGradientPassMemory` leaves, whose views lie inside
`gradient`, and `gradient` is what the calls of the layers `0, ..., L-1` of the
specification make of it one after the other; its shape and its number of elements, and
the sizes of the engine, are as they were. -/
theorem Gradient_calls_layers_in_forward_order {σ : Type} (E : Env σ) (fr : Frame σ)
    (h2 : 2 ≤ fr.st.network.length) (hS : fr.st.network.length < SIZE)
    (ho : fr.st.layerOutputs.length = fr.st.network.length)
    (hd : fr.st.layerDeltas.length = fr.st.network.length)
    (hg : fr.st.layerGradients.length = fr.st.network.length)
    (hc : GradientContract E.layer)
    (hfit : ∀ s ∈ fr.st.network, E.layer.WeightSize s ≤ fr.caller.mem.length)
    (hvo : viewsInside fr.st.layerOutputMatrix fr.st.layerOutputs = true)
    (hvd : viewsInside fr.st.deltaMatrix fr.st.layerDeltas = true) :
    GradientCalls fr.st.network.length fr.st.layerGradients.length =
      (List.range' 0 fr.st.network.length).map (fun i =>
        Call.gradient i (if i = 0 then Operand.input else Operand.layerOutput (i - 1))
          (if i = fr.st.network.length - 1 then Operand.error else Operand.layerDelta (i + 1))
          (Operand.layerGradient i)) ∧
    Gradient E fr = specGradient E fr ∧
    ∃ st1 fr', InitializeGradientPassMemory E fr.st fr.caller = some st1 ∧
      Gradient E fr = some fr' ∧ fr'.st = st1 ∧ fr'.input = fr.input ∧
      (List.range fr.st.network.length).foldlM (specGradientStep E st1 fr.input) fr.caller =
        some fr'.caller ∧
      st1.dropGradients = fr.st.dropGradients ∧
      (∀ (i : Nat) (v : Alias), st1.layerGradients[i]? = some v →
        v.start + v.mat.n_elem ≤ fr.caller.mem.length) ∧
      viewsInside fr'.st.layerOutputMatrix fr'.st.layerOutputs = true ∧
      viewsInside fr'.st.deltaMatrix fr'.st.layerDeltas = true ∧
      fr'.st.sizes = fr.st.sizes ∧
      fr'.caller.n_rows = fr.caller.n_rows ∧ fr'.caller.n_cols = fr.caller.n_cols ∧
      fr'.caller.mem.length = fr.caller.mem.length := by
  have hcalls := GradientCalls_eq fr.st.network.length h2 hS
  refine ⟨by rw [hg]; exact hcalls, ?_⟩
  obtain ⟨st1, i1, i2, i3⟩ := InitializeGradientPassMemory_views E fr.st fr.caller hg
  obtain ⟨st1', j1, j2, _⟩ := InitializeGradientPassMemory_ok E fr.st fr.caller (by omega)
  rw [i1] at j1
  simp only [Option.some.injEq] at j1
  subst j1
  obtain ⟨n1, n2, n3, _⟩ := dropGradients_fields j2
  have n5 : st1.dropGradients.layerOutputMatrix = fr.st.dropGradients.layerOutputMatrix :=
    congrArg State.layerOutputMatrix j2
  have n6 : st1.dropGradients.deltaMatrix = fr.st.dropGradients.deltaMatrix :=
    congrArg State.deltaMatrix j2
  have hsz : st1.sizes = fr.st.sizes := by simp [State.sizes, n1, n2, n3, i2, hg]
  -- every view lies inside `gradient`
  have hviews : ∀ (i : Nat) (v : Alias), st1.layerGradients[i]? = some v →
      v.start + v.mat.n_rows * v.mat.n_cols ≤ fr.caller.mem.length := by
    intro i v hv
    have hi : i < fr.st.network.length := by
      rcases Nat.lt_or_ge i st1.layerGradients.length with h | h
      · rw [i2] at h; exact h
      · rw [List.getElem?_eq_none h] at hv; cases hv
    have hs : fr.st.network[i]? = some fr.st.network[i] := List.getElem?_eq_getElem hi
    have h := i3 i _ hs
    rw [hv] at h
    simp only [Option.map_some', Option.some.injEq, Prod.mk.injEq] at h
    rw [h.1, h.2.1, h.2.2]
    have := hfit _ (List.getElem_mem hi)
    omega
  have hrun := run_gradient_spec E hc st1 fr.input fr.caller.mem.length hviews
    (List.range' 0 fr.st.network.length) fr.caller rfl
    (by
      intro i hi
      have := List.mem_range'_1.1 hi
      rw [i2]; omega)
  have hgrad : Gradient E fr =
      ((List.range fr.st.network.length).foldlM (specGradientStep E st1 fr.input) fr.caller).map
        (fun g' => ⟨st1, fr.input, g'⟩) := by
    unfold Gradient
    rw [i1, Option.bind_eq_bind, Option.some_bind, n1, i2, hcalls, List.range_eq_range']
    rw [n1] at hrun
    exact hrun
  have hspec : specGradient E fr =
      ((List.range fr.st.network.length).foldlM (specGradientStep E st1 fr.input) fr.caller).map
        (fun g' => ⟨st1, fr.input, g'⟩) := by
    unfold specGradient
    rw [i1, Option.some_bind, n1]
  refine ⟨hgrad.trans hspec.symm, ?_⟩
  -- the call returns
  obtain ⟨fr', r1, r2, _, r4, r5⟩ := run_inRange E
    (GradientCalls fr.st.network.length fr.st.network.length) { fr with st := st1 }
    (by
      intro c hc'
      rw [hcalls] at hc'
      obtain ⟨i, hi, rfl⟩ := List.mem_map.1 hc'
      have hi' : i < fr.st.network.length := by
        have := List.mem_range'_1.1 hi
        omega
      show Call.inRange st1.sizes _ = true
      rw [hsz]
      simp only [Call.inRange, Call.layer, Call.sources, Call.target, List.all_cons,
        List.all_nil, Bool.and_true, Bool.and_eq_true, decide_eq_true_eq, State.sizes,
        Operand.inRange, ho, hd, hg]
      refine ⟨⟨⟨hi', ?_, ?_, hi'⟩, hi'⟩, by simp⟩
      · by_cases h0 : i = 0
        · rw [if_pos h0]
        · rw [if_neg h0]; simp only [Operand.inRange, decide_eq_true_eq, ho]; omega
      · by_cases h0 : i = fr.st.network.length - 1
        · rw [if_pos h0]
        · rw [if_neg h0]; simp only [Operand.inRange, decide_eq_true_eq, hd]; omega)
    (by
      intro c hc'
      rw [hcalls] at hc'
      obtain ⟨i, _, rfl⟩ := List.mem_map.1 hc'
      simp [Call.target])
  have hret : Gradient E fr = some fr' := by
    unfold Gradient
    rw [i1, Option.bind_eq_bind, Option.some_bind, n1, i2]
    exact r1
  have hfold := hgrad.symm.trans hret
  obtain ⟨g', hg1, hg2⟩ := Option.map_eq_some'.1 hfold
  subst hg2
  have hlen : g'.mem.length = fr.caller.mem.length := by
    have := foldlM_preserves (specGradientStep E st1 fr.input)
      (fun m : Mat => m.mem.length = fr.caller.mem.length)
      (fun b a b' hI hf => (specGradientStep_shape E st1 fr.input b b' a hf).2.2.trans hI)
      (List.range fr.st.network.length) fr.caller g' rfl hg1
    exact this
  refine ⟨st1, _, i1, hret, rfl, rfl, hg1, j2, ?_, ?_, ?_, hsz, r4, r5, hlen⟩
  · intro i v hv
    exact hviews i v hv
  · show viewsInside st1.dropGradients.layerOutputMatrix st1.layerOutputs = true
    rw [n5, n2]; exact hvo
  · show viewsInside st1.dropGradients.deltaMatrix st1.layerDeltas = true
    rw [n6, n3]; exact hvd

/-- The sample engine after a forward and a backward pass, with the input `[5]` and the
gradient `[1, 1, 1, 1, 1]`, satisfies the hypotheses of the theorem on `Gradient`; there
layer 0 adds `5 + 7` to the two elements of its view, layer 1 adds `10 + 9` to the three
elements of its view, which starts at the offset 0 too, and `gradient` comes back as
`[32, 32, 20, 1, 1]`. -/
theorem Gradient_calls_layers_in_forward_order_witness :
    (2 ≤ trainedFrame.st.network.length ∧ trainedFrame.st.network.length < SIZE ∧
      trainedFrame.st.layerOutputs.length = trainedFrame.st.network.length ∧
      trainedFrame.st.layerDeltas.length = trainedFrame.st.network.length ∧
      trainedFrame.st.layerGradients.length = trainedFrame.st.network.length ∧
      GradientContract sampleEnv.layer ∧
      (∀ s ∈ trainedFrame.st.network,
        sampleEnv.layer.WeightSize s ≤ trainedFrame.caller.mem.length) ∧
      viewsInside trainedFrame.st.layerOutputMatrix trainedFrame.st.layerOutputs = true ∧
      viewsInside trainedFrame.st.deltaMatrix trainedFrame.st.layerDeltas = true) ∧
    (GradientCalls trainedFrame.st.network.length trainedFrame.st.layerGradients.length =
      (List.range' 0 trainedFrame.st.network.length).map (fun i =>
        Call.gradient i (if i = 0 then Operand.input else Operand.layerOutput (i - 1))
          (if i = trainedFrame.st.network.length - 1 then Operand.error
            else Operand.layerDelta (i + 1))
          (Operand.layerGradient i)) ∧
    Gradient sampleEnv trainedFrame = specGradient sampleEnv trainedFrame ∧
    ∃ st1 fr', InitializeGradientPassMemory sampleEnv trainedFrame.st trainedFrame.caller =
        some st1 ∧
      Gradient sampleEnv trainedFrame = some fr' ∧ fr'.st = st1 ∧
      fr'.input = trainedFrame.input ∧
      (List.range trainedFrame.st.network.length).foldlM
        (specGradientStep sampleEnv st1 trainedFrame.input) trainedFrame.caller =
        some fr'.caller ∧
      st1.dropGradients = trainedFrame.st.dropGradients ∧
      (∀ (i : Nat) (v : Alias), st1.layerGradients[i]? = some v →
        v.start + v.mat.n_elem ≤ trainedFrame.caller.mem.length) ∧
      viewsInside fr'.st.layerOutputMatrix fr'.st.layerOutputs = true ∧
      viewsInside fr'.st.deltaMatrix fr'.st.layerDeltas = true ∧
      fr'.st.sizes = trainedFrame.st.sizes ∧
      fr'.caller.n_rows = trainedFrame.caller.n_rows ∧
      fr'.caller.n_cols = trainedFrame.caller.n_cols ∧
      fr'.caller.mem.length = trainedFrame.caller.mem.length) ∧
    (Gradient sampleEnv trainedFrame).map (fun f => f.caller) =
      some ⟨5, 1, [32, 32, 20, 1, 1]⟩ ∧
    (InitializeGradientPassMemory sampleEnv trainedState ⟨5, 1, [1, 1, 1, 1, 1]⟩).bind
      (fun st1 => specGradientStep sampleEnv st1 ⟨1, 1, [5]⟩ ⟨5, 1, [1, 1, 1, 1, 1]⟩ 0) =
      some ⟨5, 1, [13, 13, 1, 1, 1]⟩ :=
  ⟨⟨by decide, by decide, by decide, by decide, by decide,
      fun _ _ _ _ => ⟨rfl, rfl, by simp [sampleEnv, sampleOps]⟩, by decide, by decide, by decide⟩,
    Gradient_calls_layers_in_forward_order sampleEnv trainedFrame (by decide) (by decide)
      (by decide) (by decide) (by decide)
      (fun _ _ _ _ => ⟨rfl, rfl, by simp [sampleEnv, sampleOps]⟩) (by decide) (by decide)
      (by decide),
    by decide, by decide⟩


/-- C9. With batch size 1, total output size 2 and an output arena of 25 elements the
request of 2 elements is below 10% of the capacity (`10 * 2 < 25`), and the comment above
the test says that the buffer is resized down when 10% or less of it is needed; yet
`std::floor(0.1 * 25)` is 2, the test `2 < 2` fails, and `InitializeForwardPassMemory(1)`
keeps the buffer of 25 elements.  With an arena of 31 elements, where the floor is 3, the
buffer is replaced by one of 2 elements.  The floor is that of the `double` product: for
the capacity 9007199254740989 it is 900719925474099, one more than the integer quotient
by 10. -/
theorem InitializeForwardPassMemory_keeps_buffer_below_ten_percent :
    arena25State.totalOutputSize = 2 ∧ arena25State.layerOutputMatrix = ⟨1, 25, 0⟩ ∧
    10 * (1 * arena25State.totalOutputSize) < arena25State.layerOutputMatrix.n_elem ∧
    floorTenth 25 = 2 ∧
    outputNeedsRealloc 2 25 = false ∧
    (InitializeForwardPassMemory sampleEnv arena25State 1).map (fun st => st.layerOutputMatrix) =
      some ⟨1, 25, 0⟩ ∧
    floorTenth 31 = 3 ∧
    (InitializeForwardPassMemory sampleEnv { arena25State with layerOutputMatrix := ⟨1, 31, 0⟩ }
      1).map (fun st => st.layerOutputMatrix) = some ⟨1, 2, 1⟩ ∧
    floorTenth 9007199254740989 = 900719925474099 := by
  decide


/-- C10 (the code departs from the claim). Two engines that differ in the capacity of the
output arena only (100 and 10 elements), both with a delta arena of 5 elements and a
request of 2 elements: `InitializeBackwardPassMemory(1)` replaces the delta arena of the
first and keeps that of the second, although the request neither exceeds 5 nor is below
10% of 5. -/
theorem InitializeBackwardPassMemory_depends_on_output_arena :
    wideOutputState.deltaMatrix = narrowOutputState.deltaMatrix ∧
    totalInputSize sampleEnv wideOutputState = some 2 ∧
    totalInputSize sampleEnv narrowOutputState = some 2 ∧
    (InitializeBackwardPassMemory sampleEnv wideOutputState 1).map (fun st => st.deltaMatrix) =
      some ⟨1, 2, 1⟩ ∧
    (InitializeBackwardPassMemory sampleEnv narrowOutputState 1).map (fun st => st.deltaMatrix) =
      some ⟨1, 5, 0⟩ := by
  decide


/-- C11 (the code departs from the claim). A newly built engine of two element-wise
layers and an input of three rows and two columns.  `Forward` carves the output views with
the `OutputSize()` of before the shape propagation, which is 1: both views are handed to
the layers as 1 x 2 matrices, at offsets 0 and 2 of a buffer of 4 elements.  After the
call, in which the propagation has run, `OutputSize()` is 3 for both layers; the view of
the last layer, which no layer writes when `results` is the caller's matrix, still has 1
row.  In `Evaluate` on the sample engine with a batch of two columns, the view of the
last layer is passed as `results` and `set_size` makes it a 2 x 1 matrix before the last
layer is called. -/
theorem Forward_sizes_views_before_shape_propagation :
    freshState.reset = false ∧
    (ForwardPrepare shapedEnv freshFrame Operand.caller 1).map (fun fr =>
        fr.st.layerOutputs.map (fun a => (a.start, a.mat.n_rows, a.mat.n_cols))) =
      some [(0, 1, 2), (2, 1, 2)] ∧
    (ForwardAll shapedEnv freshFrame Operand.caller).map (fun fr =>
        fr.st.network.map shapedEnv.layer.OutputSize) = some [3, 3] ∧
    (ForwardAll shapedEnv freshFrame Operand.caller).map (fun fr =>
        (fr.st.layerOutputs.map (fun a => a.start), fr.st.layerOutputMatrix.n_elem)) =
      some ([0, 2], 4) ∧
    (ForwardAll shapedEnv freshFrame Operand.caller).map (fun fr =>
        (fr.st.layerOutputs[1]?).map (fun a => (a.mat.n_rows, a.mat.n_cols))) =
      some (some (1, 2)) ∧
    (ForwardPrepare sampleEnv ⟨EvaluatePrepare sampleEnv sampleState true, ⟨1, 2, [1, 2]⟩,
        Mat.empty⟩ (Operand.layerOutput 1) 1).map (fun fr =>
        fr.st.layerOutputs.map (fun a => (a.mat.n_rows, a.mat.n_cols))) =
      some [(1, 2), (2, 1)] := by
  decide


/-- C13. `Forward(inputs, results, begin, end)` with `end < begin` returns at its first
statement: the call succeeds and the engine, `inputs` and `results` are what they were,
whatever the state of the engine (the parameter buffer may be empty and `reset` false). -/
theorem Forward_empty_range_changes_nothing {σ : Type} (E : Env σ) (fr : Frame σ)
    (results : Operand) (begin end_ : Nat) (h : end_ < begin) :
    Forward E fr results begin end_ = some fr := by
  unfold Forward
  rw [if_pos h]

/-- C13 at the sample engine with an empty parameter buffer and `reset` false, for
`begin = 1` and `end = 0`. -/
theorem Forward_empty_range_changes_nothing_witness :
    ({ sampleState with parameters := Mat.empty }).parameters.is_empty = true ∧
    ({ sampleState with parameters := Mat.empty }).reset = false ∧
    Forward sampleEnv ⟨{ sampleState with parameters := Mat.empty }, ⟨1, 1, [5]⟩, ⟨1, 1, [7]⟩⟩
        Operand.caller 1 0 =
      some ⟨{ sampleState with parameters := Mat.empty }, ⟨1, 1, [5]⟩, ⟨1, 1, [7]⟩⟩ :=
  ⟨by decide, by decide,
    Forward_empty_range_changes_nothing sampleEnv _ Operand.caller 1 0 (by decide)⟩


/-- C14. On an engine with a non-empty parameter buffer (and a cached dataset that holds
the batch), `Evaluate(parameters, begin, batchSize, d)` returns with the mode flag of the
engine equal to `d`.  When `d` differs from the flag before the call, the first statements
set the flag and run the sweep `ResetDeterministic` (after which, and after the whole
call, the `Deterministic()` flag of every layer is true); when `d` equals the flag they do
nothing, and after the call the flag of the engine and the `Deterministic()` flag of every
layer are what they were.  The layers are those of `MemberContract`. -/
theorem Evaluate_switches_mode_when_it_differs {σ : Type} (E : Env σ) (st : State σ)
    (begin batchSize : Nat) (d : Bool)
    (hc : MemberContract E.layer)
    (hpar : st.parameters.is_empty = false)
    (hL : 0 < st.network.length) (hsz : st.layerOutputs.length = st.network.length)
    (hS : st.network.length < SIZE) (hb : 1 ≤ batchSize)
    (hp : begin + batchSize ≤ st.predictors.n_cols)
    (hr : begin + batchSize ≤ st.responses.n_cols) (hN : st.predictors.n_cols < SIZE) :
    ∃ r, Evaluate E st begin batchSize d = some r ∧
      r.1.deterministic = d ∧
      (d ≠ st.deterministic →
        EvaluatePrepare E st d = ResetDeterministic E { st with deterministic := d } ∧
        r.1.network.map E.layer.Deterministic = st.network.map (fun _ => true)) ∧
      (d = st.deterministic →
        EvaluatePrepare E st d = st ∧
        r.1.deterministic = st.deterministic ∧
        r.1.network.map E.layer.Deterministic = st.network.map E.layer.Deterministic) := by
  obtain ⟨r, hr0, _⟩ := Evaluate_ok E st begin batchSize d hL hsz hS hb hp hr hN
  obtain ⟨p, fr, hfr, hr1⟩ := Evaluate_inv E st begin batchSize d r hr0
  obtain ⟨q1, q2, q3, q4⟩ := EvaluatePrepare_of_nonempty E st d hpar
  unfold ForwardAll at hfr
  obtain ⟨f1, _, _⟩ := Forward_members E _ _ _ _ _ hfr
  have f2 := Forward_network_map E E.layer.Deterministic hc.deterministic_forward _ _ _ _ _
    (Or.inr hc.deterministic_dims) hfr
  rw [if_neg (Nat.not_lt_zero _)] at f2
  have hpar' : (EvaluatePrepare E st d).parameters.is_empty = false := by rw [q4]; exact hpar
  have hi : initializeIfEmpty E (EvaluatePrepare E st d) = EvaluatePrepare E st d :=
    initializeIfEmpty_of_nonempty E _ hpar'
  have f1' : fr.st.deterministic = (EvaluatePrepare E st d).deterministic := f1
  have f2' : fr.st.network.map E.layer.Deterministic =
      (EvaluatePrepare E st d).network.map E.layer.Deterministic := by
    rw [f2]
    show (initializeIfEmpty E (EvaluatePrepare E st d)).network.map _ = _
    rw [hi]
  refine ⟨r, hr0, ?_, ?_, ?_⟩
  · rw [hr1, f1', q3]
  · intro hd
    refine ⟨q1 hd, ?_⟩
    rw [hr1, f2', q1 hd]
    simp only [ResetDeterministic, List.map_map]
    apply List.map_congr_left
    intro s _
    exact hc.deterministic_set s true
  · intro hd
    refine ⟨q2 hd, ?_, ?_⟩
    · rw [hr1, f1', q3]; exact hd
    · rw [hr1, f2', q2 hd]

/-- C14 at the sample engine, whose mode flag is false and whose layers have the flag
false: `Evaluate(parameters, 0, 1, true)` leaves the flag of the engine and of both
layers true, `Evaluate(parameters, 0, 1, false)` leaves all three false. -/
theorem Evaluate_switches_mode_when_it_differs_witness :
    ((sampleState.parameters.is_empty = false ∧ 0 < sampleState.network.length ∧
      sampleState.layerOutputs.length = sampleState.network.length ∧
      sampleState.network.length < SIZE ∧ 1 ≤ 1 ∧
      0 + 1 ≤ sampleState.predictors.n_cols ∧ 0 + 1 ≤ sampleState.responses.n_cols ∧
      sampleState.predictors.n_cols < SIZE) ∧
    ∃ r, Evaluate sampleEnv sampleState 0 1 true = some r ∧
      r.1.deterministic = true ∧
      (true ≠ sampleState.deterministic →
        EvaluatePrepare sampleEnv sampleState true =
          ResetDeterministic sampleEnv { sampleState with deterministic := true } ∧
        r.1.network.map sampleEnv.layer.Deterministic = sampleState.network.map (fun _ => true)) ∧
      (true = sampleState.deterministic →
        EvaluatePrepare sampleEnv sampleState true = sampleState ∧
        r.1.deterministic = sampleState.deterministic ∧
        r.1.network.map sampleEnv.layer.Deterministic =
          sampleState.network.map sampleEnv.layer.Deterministic)) ∧
    (Evaluate sampleEnv sampleState 0 1 true).map (fun r =>
        (r.1.deterministic, r.1.network.map sampleEnv.layer.Deterministic)) =
      some (true, [true, true]) ∧
    (Evaluate sampleEnv sampleState 0 1 false).map (fun r =>
        (r.1.deterministic, r.1.network.map sampleEnv.layer.Deterministic)) =
      some (false, [false, false]) :=
  ⟨⟨⟨by decide, by decide, by decide, by decide, by decide, by decide, by decide, by decide⟩,
    Evaluate_switches_mode_when_it_differs sampleEnv sampleState 0 1 true sampleOps_contract
      (by decide) (by decide) (by decide) (by decide) (by decide) (by decide) (by decide)
      (by decide)⟩, by decide, by decide⟩


/-- C15 (counterexample). Predictors of two columns and responses of three: `ResetData`
raises nothing and stores both, `numFunctions` becomes 3, the parameter buffer of the
sample engine (whose `reset` is false) is initialized again, and `Train` hands the engine
so changed to the optimizer. -/
theorem ResetData_accepts_mismatched_columns :
    (ResetData sampleEnv sampleState ⟨1, 2, [1, 2]⟩ ⟨1, 3, [7, 8, 9]⟩).predictors.n_cols = 2 ∧
    (ResetData sampleEnv sampleState ⟨1, 2, [1, 2]⟩ ⟨1, 3, [7, 8, 9]⟩).responses
      = ⟨1, 3, [7, 8, 9]⟩ ∧
    (ResetData sampleEnv sampleState ⟨1, 2, [1, 2]⟩ ⟨1, 3, [7, 8, 9]⟩).numFunctions = 3 ∧
    sampleState.numFunctions = 2 ∧
    (ResetData sampleEnv sampleState ⟨1, 2, [1, 2]⟩ ⟨1, 3, [7, 8, 9]⟩).network.map
      sampleOps.Deterministic = [true, true] ∧
    sampleState.network.map sampleOps.Deterministic = [false, false] ∧
    (Train sampleEnv (fun st => some (st, 0)) sampleState ⟨1, 2, [1, 2]⟩ ⟨1, 3, [7, 8, 9]⟩).map
      (fun r => r.1.numFunctions) = some 3 := by
  decide

/-- C15 (amended). For predictors and responses whose column counts differ, `ResetData`
makes no comparison of the two: it sets `numFunctions` to the column count of the
responses, caches both matrices as given and sets the mode flag to false; the parameter
buffer is kept when `reset` is true; and `Train` is the optimizer run on the engine so
prepared. -/
theorem ResetData_stores_mismatched_dataset {σ : Type} (E : Env σ)
    (Optimize : State σ → Option (State σ × Int)) (st : State σ) (predictors responses : Mat)
    (_h : predictors.n_cols ≠ responses.n_cols) :
    (ResetData E st predictors responses).numFunctions = responses.n_cols ∧
    (ResetData E st predictors responses).predictors = predictors ∧
    (ResetData E st predictors responses).responses = responses ∧
    (ResetData E st predictors responses).deterministic = false ∧
    (st.reset = true → (ResetData E st predictors responses).parameters = st.parameters) ∧
    Train E Optimize st predictors responses =
      Optimize (ResetData E st predictors responses) := by
  refine ⟨?_, ?_, ?_, ?_, ?_, rfl⟩
  · unfold ResetData; simp only [ResetDeterministic, ResetParameters]; split <;> rfl
  · unfold ResetData; simp only [ResetDeterministic, ResetParameters]; split <;> rfl
  · unfold ResetData; simp only [ResetDeterministic, ResetParameters]; split <;> rfl
  · unfold ResetData; simp only [ResetDeterministic, ResetParameters]; split <;> rfl
  · intro hr
    unfold ResetData; simp only [ResetDeterministic, ResetParameters]
    rw [if_pos hr]

/-- C15 (amended) at the sample engine, with predictors of two columns and responses of
three. -/
theorem ResetData_stores_mismatched_dataset_witness :
    (⟨1, 2, [1, 2]⟩ : Mat).n_cols ≠ (⟨1, 3, [7, 8, 9]⟩ : Mat).n_cols ∧
    (ResetData sampleEnv sampleState ⟨1, 2, [1, 2]⟩ ⟨1, 3, [7, 8, 9]⟩).numFunctions = 3 :=
  ⟨by decide,
    (ResetData_stores_mismatched_dataset sampleEnv (fun st => some (st, 0)) sampleState
      ⟨1, 2, [1, 2]⟩ ⟨1, 3, [7, 8, 9]⟩ (by decide)).1⟩


/-- C16 (the code departs from the claim). `Predict` on a newly built engine of two
element-wise layers, with predictors of three rows and two columns: `results` is sized
with the `OutputSize()` of before the shape propagation, which is 1, so it has 1 row and
2 columns, while the forward pass on the first column alone yields the three values
`[6, 12, 18]` and `OutputSize()` of the last layer is 3 after the call.  The engine and
the layers are left in inference mode. -/
theorem Predict_sizes_results_before_shape_propagation :
    (Predict shapedEnv freshState ⟨3, 2, [1, 2, 3, 4, 5, 6]⟩ Mat.empty 1).map (fun r => r.2) =
      some ⟨1, 2, [6, 24]⟩ ∧
    (Predict shapedEnv freshState ⟨3, 2, [1, 2, 3, 4, 5, 6]⟩ Mat.empty 1).map (fun r =>
        r.1.network.map shapedEnv.layer.OutputSize) = some [3, 3] ∧
    (ForwardAll shapedEnv ⟨freshState, ⟨3, 1, [1, 2, 3]⟩, Mat.empty⟩ Operand.caller).map
        (fun fr => fr.caller) = some ⟨3, 1, [6, 12, 18]⟩ ∧
    (Predict shapedEnv freshState ⟨3, 2, [1, 2, 3, 4, 5, 6]⟩ Mat.empty 1).map (fun r =>
        (r.1.deterministic, r.1.network.map shapedEnv.layer.Deterministic)) =
      some (true, [true, true]) ∧
    (Predict sampleEnv sampleState ⟨1, 2, [1, 2]⟩ Mat.empty 1).map (fun r => r.2) =
      some ⟨1, 2, [6, 12]⟩ := by
  decide


/-- C17. Loading the archive of a saved engine into any engine: the output layer, the
initialization rule, the layer list, the parameter buffer, the input-shape record and
`reset` are those of the saved engine; the cached predictors and responses are empty,
`numFunctions` is 0, the three backing buffers have no element, each of the three view
tables has one empty entry per layer, and `deterministic` is true, whatever the loading
engine was. -/
theorem serializeLoad_restores_and_clears {σ : Type} (saved loading : Engine σ) :
    (serializeLoad (serializeSave saved) loading).env.outputLayer = saved.env.outputLayer ∧
    (serializeLoad (serializeSave saved) loading).env.initNetwork = saved.env.initNetwork ∧
    (serializeLoad (serializeSave saved) loading).st.network = saved.st.network ∧
    (serializeLoad (serializeSave saved) loading).st.parameters = saved.st.parameters ∧
    (serializeLoad (serializeSave saved) loading).st.inputDimensions
      = saved.st.inputDimensions ∧
    (serializeLoad (serializeSave saved) loading).st.reset = saved.st.reset ∧
    (serializeLoad (serializeSave saved) loading).st.predictors = Mat.empty ∧
    (serializeLoad (serializeSave saved) loading).st.responses = Mat.empty ∧
    (serializeLoad (serializeSave saved) loading).st.numFunctions = 0 ∧
    (serializeLoad (serializeSave saved) loading).st.layerOutputMatrix.n_elem = 0 ∧
    (serializeLoad (serializeSave saved) loading).st.deltaMatrix.n_elem = 0 ∧
    (serializeLoad (serializeSave saved) loading).st.gradientMatrix.n_elem = 0 ∧
    (serializeLoad (serializeSave saved) loading).st.layerOutputs
      = List.replicate saved.st.network.length Alias.empty ∧
    (serializeLoad (serializeSave saved) loading).st.layerDeltas
      = List.replicate saved.st.network.length Alias.empty ∧
    (serializeLoad (serializeSave saved) loading).st.layerGradients
      = List.replicate saved.st.network.length Alias.empty ∧
    (serializeLoad (serializeSave saved) loading).st.deterministic = true :=
  ⟨rfl, rfl, rfl, rfl, rfl, rfl, rfl, rfl, rfl, rfl, rfl, rfl, rfl, rfl, rfl, rfl⟩


/-- C18 (the code departs from the claim). The sample engine, of two layers and
`totalOutputSize` 2, saved and loaded into an engine without layers, whose
`totalOutputSize` is 0: the loaded engine keeps the value 0.  The forward pass of
`Predict` on the original engine carves its two views inside a buffer of 2 elements; on
the loaded engine the buffer has no element and both views are carved at offset 0 of it,
one element each, so the first layer stores its output outside the buffer. -/
theorem serializeLoad_keeps_stale_totalOutputSize :
    sampleEngine.st.totalOutputSize = 2 ∧
    (serializeLoad (serializeSave sampleEngine) blankEngine).st.totalOutputSize = 0 ∧
    (serializeLoad (serializeSave sampleEngine) blankEngine).st.network
      = sampleEngine.st.network ∧
    (Predict sampleEnv sampleEngine.st ⟨1, 2, [1, 2]⟩ Mat.empty 1).map (fun r =>
        (r.1.layerOutputMatrix.n_elem,
         r.1.layerOutputs.map (fun a => (a.start, a.mat.n_elem)),
         viewsInside r.1.layerOutputMatrix r.1.layerOutputs)) =
      some (2, [(0, 1), (1, 1)], true) ∧
    (Predict sampleEnv (serializeLoad (serializeSave sampleEngine) blankEngine).st
        ⟨1, 2, [1, 2]⟩ Mat.empty 1).map (fun r =>
        (r.1.layerOutputMatrix.n_elem,
         r.1.layerOutputs.map (fun a => (a.start, a.mat.n_elem)),
         viewsInside r.1.layerOutputMatrix r.1.layerOutputs)) =
      some (0, [(0, 1), (0, 1)], false) := by
  decide


/-- C19 (the code departs from the claim). The sample engine satisfies the invariant
(`totalOutputSize` is 2, the sum of the output sizes 1 and 1).  The copy constructor,
`Swap` and the assignment from a copy keep it.  The move constructor does not initialize
`totalOutputSize`: with the value 7 in the member the engine made by it, and the engine
assigned from it, break the invariant.  Loading the archive of the sample engine into an
engine without layers, for which the invariant holds with the value 0, leaves two layers
and the value 0. -/
theorem moveConstructor_and_load_break_totalOutputSize :
    totalOutputSizeInvariant sampleEngine = true ∧
    totalOutputSizeInvariant blankEngine = true ∧
    totalOutputSizeInvariant (copyConstructor sampleEngine) = true ∧
    totalOutputSizeInvariant (Swap blankEngine sampleEngine).1 = true ∧
    totalOutputSizeInvariant (Swap blankEngine sampleEngine).2 = true ∧
    totalOutputSizeInvariant (assign blankEngine (copyConstructor sampleEngine)) = true ∧
    totalOutputSizeInvariant (moveConstructor 7 sampleEngine) = false ∧
    (moveConstructor 7 sampleEngine).st.network = sampleEngine.st.network ∧
    totalOutputSizeInvariant (assign blankEngine (moveConstructor 7 sampleEngine)) = false ∧
    totalOutputSizeInvariant (serializeLoad (serializeSave sampleEngine) blankEngine) = false ∧
    (serializeLoad (serializeSave sampleEngine) blankEngine).st.totalOutputSize = 0 ∧
    ((serializeLoad (serializeSave sampleEngine) blankEngine).st.network.map
      sampleEnv.layer.OutputSize).sum = 2 := by
  decide


/-- C20. On an engine with one output view per layer, a `Forward` on a range
`begin <= end < L` returns with `reset` true.  If `reset` was false, layer 0 then has the
input dimensions `[inputs.n_rows, 1]` and every layer `i` with `1 <= i < L` has as input
dimensions the output dimensions of layer `i - 1`; if `reset` was true, the input
dimensions of every layer are what they were, whatever `inputs` is.  And no sequence of
`Forward`, `Backward`, `Gradient`, `Evaluate`, `EvaluateWithGradient`, `Predict` and
`ResetData` calls that starts with `reset` true ends with `reset` false.  The layers are
those of `MemberContract`, and the initialization rule leaves their input dimensions. -/
theorem Forward_propagates_shapes_once {σ : Type} (E : Env σ) (fr : Frame σ)
    (results : Operand) (begin end_ : Nat)
    (hc : MemberContract E.layer)
    (hinit : ∀ net p, (E.initNetwork net p).1.map E.layer.InputDimensions =
      net.map E.layer.InputDimensions)
    (hbe : begin ≤ end_) (hend : end_ < fr.st.network.length)
    (hsz : fr.st.layerOutputs.length = fr.st.network.length)
    (hS : fr.st.network.length < SIZE)
    (hres : results = Operand.caller ∨ results = Operand.layerOutput end_) :
    (∃ fr', Forward E fr results begin end_ = some fr' ∧ fr'.st.reset = true ∧
      (fr.st.reset = false →
        (fr'.st.network[0]?).map E.layer.InputDimensions = some [fr.input.n_rows, 1] ∧
        ∀ i, 1 ≤ i → i < fr.st.network.length →
          (fr'.st.network[i]?).map E.layer.InputDimensions =
            (fr'.st.network[i - 1]?).map E.layer.OutputDimensions) ∧
      (fr.st.reset = true →
        fr'.st.network.map E.layer.InputDimensions =
          fr.st.network.map E.layer.InputDimensions)) ∧
    (∀ (calls : List EngineCall) (st0 st1 : State σ), st0.reset = true →
      applyCalls E st0 calls = some st1 → st1.reset = true) := by
  constructor
  · obtain ⟨fr', hfr⟩ := Forward_ok E fr results begin end_ hbe hend hsz hS hres
    have hnot : ¬ end_ < begin := by omega
    refine ⟨fr', hfr, (Forward_members E _ _ _ _ _ hfr).2.2 hbe, ?_, ?_⟩
    · intro hr
      obtain ⟨st2, st3, fr1, h1, h2, h3, h4⟩ := Forward_inv E fr fr' results begin end_ hnot hfr
      obtain ⟨n1, m1⟩ := InitializeForwardPassMemory_members E _ _ _ h1
      have e1 : st2.reset = false := by
        have : st2.reset = (initializeIfEmpty E fr.st).reset := congrArg Members.reset m1
        rw [this, (initializeIfEmpty_members E fr.st).1, hr]
      obtain ⟨_, _, _, _, p5⟩ := propagateIfNeeded_members E _ _ _ h2
      obtain ⟨n3, _⟩ := sizeResults_members E _ _ _ _ h3
      have n3' : fr1.st.network = st3.network := n3
      obtain ⟨_, d4⟩ := run_members E E.layer.InputDimensions hc.dims_forward _ _ _ h4
      obtain ⟨_, o4⟩ := run_members E E.layer.OutputDimensions hc.outputDimensions_forward
        _ _ _ h4
      have hlen : st2.network.length = fr.st.network.length := by
        rw [n1]; exact (initializeIfEmpty_frame E fr.st).1
      obtain ⟨_, q2, q3⟩ := propagateShapes_dims E hc st2.network st3.network fr.input.n_rows
        (by rw [hlen]; exact hS) (p5 e1)
      have dget : ∀ j : Nat, (fr'.st.network[j]?).map E.layer.InputDimensions =
          (st3.network[j]?).map E.layer.InputDimensions := by
        intro j
        rw [← List.getElem?_map, ← List.getElem?_map, d4, n3']
      have oget : ∀ j : Nat, (fr'.st.network[j]?).map E.layer.OutputDimensions =
          (st3.network[j]?).map E.layer.OutputDimensions := by
        intro j
        rw [← List.getElem?_map, ← List.getElem?_map, o4, n3']
      refine ⟨?_, ?_⟩
      · rw [dget, q2]
      · intro i hi1 hi2
        rw [dget, oget]
        exact q3 i hi1 (by rw [hlen]; exact hi2)
    · intro hr
      have := Forward_network_map E E.layer.InputDimensions hc.dims_forward _ _ _ _ _
        (Or.inl hr) hfr
      rw [if_neg hnot] at this
      rw [this]
      exact initializeIfEmpty_dims E hc hinit fr.st
  · intro calls st0 st1 h0 h
    exact foldlM_preserves (EngineCall.apply E) (fun st : State σ => st.reset = true)
      (fun b c b' hI hf => EngineCall_reset E b b' c hf hI) calls st0 st1 h0 h

/-- C20 at the sample engine, whose `reset` is false, for the layers 0 to 1 and the
one-example input `[5]`: after the call `reset` is true and both layers have the input
dimensions `[1, 1]`; a second call with an input of two rows leaves these dimensions. -/
theorem Forward_propagates_shapes_once_witness :
    ((0 ≤ 1 ∧ 1 < sampleFrame.st.network.length ∧
      sampleFrame.st.layerOutputs.length = sampleFrame.st.network.length ∧
      sampleFrame.st.network.length < SIZE) ∧
    ((∃ fr', Forward sampleEnv sampleFrame Operand.caller 0 1 = some fr' ∧
      fr'.st.reset = true ∧
      (sampleFrame.st.reset = false →
        (fr'.st.network[0]?).map sampleEnv.layer.InputDimensions =
          some [sampleFrame.input.n_rows, 1] ∧
        ∀ i, 1 ≤ i → i < sampleFrame.st.network.length →
          (fr'.st.network[i]?).map sampleEnv.layer.InputDimensions =
            (fr'.st.network[i - 1]?).map sampleEnv.layer.OutputDimensions) ∧
      (sampleFrame.st.reset = true →
        fr'.st.network.map sampleEnv.layer.InputDimensions =
          sampleFrame.st.network.map sampleEnv.layer.InputDimensions)) ∧
    (∀ (calls : List EngineCall) (st0 st1 : State SampleLayer), st0.reset = true →
      applyCalls sampleEnv st0 calls = some st1 → st1.reset = true))) ∧
    (applyCalls sampleEnv sampleState
        [EngineCall.forward ⟨1, 1, [5]⟩ Mat.empty 0 1]).map (fun st =>
        (st.reset, st.network.map sampleEnv.layer.InputDimensions)) =
      some (true, [[1, 1], [1, 1]]) ∧
    (applyCalls sampleEnv sampleState
        [EngineCall.forward ⟨1, 1, [5]⟩ Mat.empty 0 1,
         EngineCall.forward ⟨2, 1, [5, 6]⟩ Mat.empty 0 1,
         EngineCall.resetData ⟨1, 1, [1]⟩ ⟨1, 1, [0]⟩,
         EngineCall.evaluate 0 1 false]).map (fun st =>
        (st.reset, st.network.map sampleEnv.layer.InputDimensions)) =
      some (true, [[1, 1], [1, 1]]) :=
  ⟨⟨⟨by decide, by decide, by decide, by decide⟩,
    Forward_propagates_shapes_once sampleEnv sampleFrame Operand.caller 0 1 sampleOps_contract
      (fun _ _ => rfl) (by decide) (by decide) (by decide) (by decide) (Or.inl rfl)⟩,
    by decide, by decide⟩


/-- C21. On an engine whose `totalOutputSize` is the sum of the output sizes of its
layers, with one output view and one delta view per layer, backing buffers that have one
row or no element, and sizes that are `size_t` values: `InitializeForwardPassMemory(b)`
returns, and `InitializeBackwardPassMemory(b)` returns; after each, the views of the
respective table lie one after the other from the start of the buffer in the order of the
layers, no two of them overlap, and the sum of their sizes is at most the number of
elements of the backing buffer. -/
theorem arena_views_contiguous_within_buffer {σ : Type} (E : Env σ) (st : State σ) (b : Nat)
    (hT : st.totalOutputSize = (st.network.map E.layer.OutputSize).sum)
    (hL : 0 < st.network.length) (hS : st.network.length < SIZE)
    (hszO : st.layerOutputs.length = st.network.length)
    (hszD : st.layerDeltas.length = st.network.length)
    (hTlt : st.totalOutputSize < SIZE) (hoverO : b * st.totalOutputSize < SIZE)
    (hsumD : (deltaRows E st).sum < SIZE) (hoverD : b * (deltaRows E st).sum < SIZE)
    (hbufO : st.layerOutputMatrix.n_rows = 1 ∨ st.layerOutputMatrix.n_elem = 0)
    (hbufD : st.deltaMatrix.n_rows = 1 ∨ st.deltaMatrix.n_elem = 0) :
    (∃ st', InitializeForwardPassMemory E st b = some st' ∧
      st'.layerOutputs.length = st.network.length ∧
      contiguousViews st'.layerOutputs ∧ disjointViews st'.layerOutputs ∧
      (st'.layerOutputs.map (fun a => a.mat.n_elem)).sum = b * st.totalOutputSize ∧
      (st'.layerOutputs.map (fun a => a.mat.n_elem)).sum ≤ st'.layerOutputMatrix.n_elem) ∧
    (∃ st', InitializeBackwardPassMemory E st b = some st' ∧
      st'.layerDeltas.length = st.network.length ∧
      contiguousViews st'.layerDeltas ∧ disjointViews st'.layerDeltas ∧
      (st'.layerDeltas.map (fun a => a.mat.n_elem)).sum ≤ st'.deltaMatrix.n_elem) := by
  constructor
  · obtain ⟨st', h1, h2, h3, h4⟩ := InitializeForwardPassMemory_views E st b hszO
      (by rw [← hT]; exact hoverO)
    obtain ⟨c1, c2⟩ := reallocOutputs_capacity st b hoverO hbufO
    obtain ⟨l1, l2, l3⟩ := carved_layout st'.layerOutputs (st.network.map E.layer.OutputSize) b
      (by rw [h3]; simp)
      (by
        intro i r hr
        rw [h4 i r hr, colptr_of_one_row _ _ (b * st.totalOutputSize)
          (by rw [hT]; exact Nat.mul_le_mul_left b (sum_take_le_sum _ i)) hoverO c2])
    refine ⟨st', h1, h3, l1, l2, by rw [l3, hT], ?_⟩
    rw [l3, ← hT, h2]
    exact c1
  · obtain ⟨st1, st', g0, g1, g2, g3, g4⟩ := InitializeBackwardPassMemory_views E st b hL hS
      hszD hoverD
    obtain ⟨c1, c2⟩ := reallocDeltas_capacity E st st1 b hL hS hT hTlt hsumD hoverD hbufD g0
    have hlenD : (deltaRows E st).length = st.network.length := by
      unfold deltaRows
      rw [List.length_take]
      simp
    obtain ⟨l1, l2, l3⟩ := carved_layout st'.layerDeltas (deltaRows E st) b
      (by rw [g3, hlenD])
      (by
        intro i r hr
        rw [g4 i r hr, colptr_of_one_row _ _ (b * (deltaRows E st).sum)
          (Nat.mul_le_mul_left b (sum_take_le_sum _ i)) hoverD c2])
    refine ⟨st', g1, g3, l1, l2, ?_⟩
    rw [l3, g2]
    exact c1

/-- C21 at the sample engine for a batch of three columns: the two output views are
1 x 3 matrices at offsets 0 and 3 of a buffer of 6 elements, and so are the two delta
views. -/
theorem arena_views_contiguous_within_buffer_witness :
    ((sampleState.totalOutputSize = (sampleState.network.map sampleEnv.layer.OutputSize).sum ∧
      0 < sampleState.network.length ∧ sampleState.network.length < SIZE ∧
      sampleState.layerOutputs.length = sampleState.network.length ∧
      sampleState.layerDeltas.length = sampleState.network.length ∧
      sampleState.totalOutputSize < SIZE ∧ 3 * sampleState.totalOutputSize < SIZE ∧
      (deltaRows sampleEnv sampleState).sum < SIZE ∧
      3 * (deltaRows sampleEnv sampleState).sum < SIZE ∧
      (sampleState.layerOutputMatrix.n_rows = 1 ∨ sampleState.layerOutputMatrix.n_elem = 0) ∧
      (sampleState.deltaMatrix.n_rows = 1 ∨ sampleState.deltaMatrix.n_elem = 0)) ∧
    ((∃ st', InitializeForwardPassMemory sampleEnv sampleState 3 = some st' ∧
      st'.layerOutputs.length = sampleState.network.length ∧
      contiguousViews st'.layerOutputs ∧ disjointViews st'.layerOutputs ∧
      (st'.layerOutputs.map (fun a => a.mat.n_elem)).sum = 3 * sampleState.totalOutputSize ∧
      (st'.layerOutputs.map (fun a => a.mat.n_elem)).sum ≤ st'.layerOutputMatrix.n_elem) ∧
    (∃ st', InitializeBackwardPassMemory sampleEnv sampleState 3 = some st' ∧
      st'.layerDeltas.length = sampleState.network.length ∧
      contiguousViews st'.layerDeltas ∧ disjointViews st'.layerDeltas ∧
      (st'.layerDeltas.map (fun a => a.mat.n_elem)).sum ≤ st'.deltaMatrix.n_elem))) ∧
    (InitializeForwardPassMemory sampleEnv sampleState 3).map (fun st =>
        (st.layerOutputs.map (fun a => (a.start, a.mat.n_rows, a.mat.n_cols)),
         st.layerOutputMatrix.n_elem)) = some ([(0, 1, 3), (3, 1, 3)], 6) ∧
    (InitializeBackwardPassMemory sampleEnv sampleState 3).map (fun st =>
        (st.layerDeltas.map (fun a => (a.start, a.mat.n_rows, a.mat.n_cols)),
         st.deltaMatrix.n_elem)) = some ([(0, 1, 3), (3, 1, 3)], 6) :=
  ⟨⟨⟨by decide, by decide, by decide, by decide, by decide, by decide, by decide, by decide,
      by decide, by decide, by decide⟩,
    arena_views_contiguous_within_buffer sampleEnv sampleState 3 (by decide) (by decide)
      (by decide) (by decide) (by decide) (by decide) (by decide) (by decide) (by decide)
      (by decide) (by decide)⟩, by decide, by decide⟩


/-- C22. On an engine with a non-empty parameter buffer whose mode flag is true (and with
one output view per layer and a cached dataset that holds the two batches), the call
`Evaluate(parameters, b1, n1, false)` followed by `Evaluate(parameters, b2, n2, true)`:
both calls return and each runs the sweep `ResetDeterministic`; after the first the mode
flag of the engine is false and the `Deterministic()` flag of every layer is true; after
the second the mode flag of the engine is true, the `Deterministic()` flag of every layer
is true, and the parameter buffer is what it was before the first.  The layers are those of `MemberContract`. -/
theorem Evaluate_toggle_twice_restores_mode {σ : Type} (E : Env σ) (st : State σ)
    (b1 n1 b2 n2 : Nat)
    (hc : MemberContract E.layer)
    (hpar : st.parameters.is_empty = false) (hdet : st.deterministic = true)
    (hL : 0 < st.network.length) (hsz : st.layerOutputs.length = st.network.length)
    (hS : st.network.length < SIZE)
    (hn1 : 1 ≤ n1) (hp1 : b1 + n1 ≤ st.predictors.n_cols) (hr1 : b1 + n1 ≤ st.responses.n_cols)
    (hn2 : 1 ≤ n2) (hp2 : b2 + n2 ≤ st.predictors.n_cols) (hr2 : b2 + n2 ≤ st.responses.n_cols)
    (hN : st.predictors.n_cols < SIZE) :
    ∃ r1 r2, Evaluate E st b1 n1 false = some r1 ∧
      Evaluate E r1.1 b2 n2 true = some r2 ∧
      r1.1.deterministic = false ∧
      r1.1.network.map E.layer.Deterministic = st.network.map (fun _ => true) ∧
      r2.1.deterministic = true ∧
      r2.1.network.map E.layer.Deterministic = st.network.map (fun _ => true) ∧
      r2.1.parameters = st.parameters := by
  obtain ⟨r1, e1, d1, p1, l1, o1, x1, y1, t1, _⟩ := Evaluate_mode E st b1 n1 false hc hpar hL
    hsz hS hn1 hp1 hr1 hN
  obtain ⟨r2, e2, d2, p2, l2, _, _, _, t2, _⟩ := Evaluate_mode E r1.1 b2 n2 true hc
    (by rw [p1]; exact hpar) (by rw [l1]; exact hL) (by rw [o1, l1]) (by rw [l1]; exact hS) hn2
    (by rw [x1]; exact hp2) (by rw [y1]; exact hr2) (by rw [x1]; exact hN)
  refine ⟨r1, r2, e1, e2, d1, t1 (by rw [hdet]; decide), d2, ?_, by rw [p2, p1]⟩
  have := t2 (by rw [d1]; decide)
  rw [this]
  rw [List.map_const', List.map_const', l1]

/-- C22 at the sample engine in inference mode, with the first example in both calls:
the first call leaves the flag of the engine false, the second leaves all flags true and
the parameter buffer as it was. -/
theorem Evaluate_toggle_twice_restores_mode_witness :
    ((inferenceState.parameters.is_empty = false ∧ inferenceState.deterministic = true ∧
      0 < inferenceState.network.length ∧
      inferenceState.layerOutputs.length = inferenceState.network.length ∧
      inferenceState.network.length < SIZE ∧
      1 ≤ 1 ∧ 0 + 1 ≤ inferenceState.predictors.n_cols ∧
      0 + 1 ≤ inferenceState.responses.n_cols ∧
      inferenceState.predictors.n_cols < SIZE) ∧
    ∃ r1 r2, Evaluate sampleEnv inferenceState 0 1 false = some r1 ∧
      Evaluate sampleEnv r1.1 0 1 true = some r2 ∧
      r1.1.deterministic = false ∧
      r1.1.network.map sampleEnv.layer.Deterministic =
        inferenceState.network.map (fun _ => true) ∧
      r2.1.deterministic = true ∧
      r2.1.network.map sampleEnv.layer.Deterministic =
        inferenceState.network.map (fun _ => true) ∧
      r2.1.parameters = inferenceState.parameters) ∧
    ((Evaluate sampleEnv inferenceState 0 1 false).bind (fun r1 =>
        Evaluate sampleEnv r1.1 0 1 true)).map (fun r2 =>
        (r2.1.deterministic, r2.1.network.map sampleEnv.layer.Deterministic, r2.1.parameters)) =
      some (true, [true, true], Mat.zerosOf 5 1) :=
  ⟨⟨⟨by decide, by decide, by decide, by decide, by decide, by decide, by decide, by decide,
      by decide⟩,
    Evaluate_toggle_twice_restores_mode sampleEnv inferenceState 0 1 0 1 sampleOps_contract
      (by decide) (by decide) (by decide) (by decide) (by decide) (by decide) (by decide)
      (by decide) (by decide) (by decide) (by decide) (by decide)⟩, by decide⟩


/-- C24 (counterexample). The sample engine with the non-empty parameter buffer
`[1, 2, 3, 4, 5]` and `reset` false: `ResetData` calls `ResetParameters`, and the
initialization rule of the sample environment leaves the buffer `[0, 0, 0, 0, 0]`.  With
`reset` true the buffer is kept. -/
theorem ResetData_reinitializes_nonempty_parameters :
    presetState.parameters.is_empty = false ∧ presetState.reset = false ∧
    (ResetData sampleEnv presetState ⟨1, 2, [1, 2]⟩ ⟨1, 2, [0, 0]⟩).parameters
      = ⟨5, 1, [0, 0, 0, 0, 0]⟩ ∧
    (ResetData sampleEnv { presetState with reset := true } ⟨1, 2, [1, 2]⟩
      ⟨1, 2, [0, 0]⟩).parameters = ⟨5, 1, [1, 2, 3, 4, 5]⟩ := by
  decide

/-- C24 (amended). On an engine with a non-empty parameter buffer, `ResetData` leaves the
buffer unchanged when `reset` is true; when `reset` is false it calls `ResetParameters`,
and the buffer becomes what the initialization rule makes of it (of the layers after the
sweep `ResetDeterministic` of `ResetData` and that of `ResetParameters`, and of the buffer
as it was).  `Train` hands the engine so
prepared to the optimizer. -/
theorem ResetData_keeps_parameters_iff_reset {σ : Type} (E : Env σ)
    (Optimize : State σ → Option (State σ × Int)) (st : State σ) (predictors responses : Mat)
    (_hpar : st.parameters.is_empty = false) :
    (st.reset = true → (ResetData E st predictors responses).parameters = st.parameters) ∧
    (st.reset = false → (ResetData E st predictors responses).parameters =
      (E.initNetwork ((st.network.map (fun s => E.layer.setDeterministic s true)).map
        (fun s => E.layer.setDeterministic s true)) st.parameters).2) ∧
    Train E Optimize st predictors responses =
      Optimize (ResetData E st predictors responses) := by
  refine ⟨?_, ?_, rfl⟩
  · intro hr
    unfold ResetData
    simp only [ResetDeterministic]
    rw [if_pos hr]
  · intro hr
    unfold ResetData
    simp only [ResetDeterministic]
    rw [if_neg (by rw [hr]; decide)]
    rfl

/-- C24 (amended) at the sample engine with the parameter buffer `[1, 2, 3, 4, 5]` and
`reset` false. -/
theorem ResetData_keeps_parameters_iff_reset_witness :
    presetState.parameters.is_empty = false ∧
    ((presetState.reset = true →
      (ResetData sampleEnv presetState ⟨1, 2, [1, 2]⟩ ⟨1, 2, [0, 0]⟩).parameters
        = presetState.parameters) ∧
    (presetState.reset = false →
      (ResetData sampleEnv presetState ⟨1, 2, [1, 2]⟩ ⟨1, 2, [0, 0]⟩).parameters =
        (sampleEnv.initNetwork
          ((presetState.network.map (fun s => sampleEnv.layer.setDeterministic s true)).map
            (fun s => sampleEnv.layer.setDeterministic s true)) presetState.parameters).2) ∧
    Train sampleEnv (fun st => some (st, 0)) presetState ⟨1, 2, [1, 2]⟩ ⟨1, 2, [0, 0]⟩ =
      (fun st => some (st, 0)) (ResetData sampleEnv presetState ⟨1, 2, [1, 2]⟩ ⟨1, 2, [0, 0]⟩)) :=
  ⟨by decide,
    ResetData_keeps_parameters_iff_reset sampleEnv (fun st => some (st, 0)) presetState
      ⟨1, 2, [1, 2]⟩ ⟨1, 2, [0, 0]⟩ (by decide)⟩


/-- C25 (the code departs from the claim). The sample engine in inference mode.  After
`ResetData` the mode flag of the engine is false and the `Deterministic()` flag of both
layers is true; the same after `Evaluate(parameters, 0, 1, false)`: the sweep
`ResetDeterministic`, run after the flag of the engine is set to false, assigns `true` to
every layer.  After `Evaluate(parameters, 0, 1, true)` and after `Predict` on the sample
engine, whose flags are false, all flags are true. -/
theorem ResetDeterministic_sets_layers_to_true_in_training_mode :
    inferenceState.deterministic = true ∧
    inferenceState.network.map sampleEnv.layer.Deterministic = [true, true] ∧
    (ResetData sampleEnv inferenceState ⟨1, 2, [1, 2]⟩ ⟨1, 2, [0, 0]⟩).deterministic = false ∧
    (ResetData sampleEnv inferenceState ⟨1, 2, [1, 2]⟩ ⟨1, 2, [0, 0]⟩).network.map
      sampleEnv.layer.Deterministic = [true, true] ∧
    (Evaluate sampleEnv inferenceState 0 1 false).map (fun r =>
        (r.1.deterministic, r.1.network.map sampleEnv.layer.Deterministic)) =
      some (false, [true, true]) ∧
    (ResetDeterministic sampleEnv { sampleState with deterministic := false }).network.map
      sampleEnv.layer.Deterministic = [true, true] ∧
    (Evaluate sampleEnv sampleState 0 1 true).map (fun r =>
        (r.1.deterministic, r.1.network.map sampleEnv.layer.Deterministic)) =
      some (true, [true, true]) ∧
    (Predict sampleEnv sampleState ⟨1, 2, [1, 2]⟩ Mat.empty 1).map (fun r =>
        (r.1.deterministic, r.1.network.map sampleEnv.layer.Deterministic)) =
      some (true, [true, true]) := by
  decide


/-- C26 (the code departs from the claim). For two layers and tables of length 2, the
second call of `Backward()` names `layerDeltas[2]`; for three layers and tables of length
3 it names `layerDeltas[3]`.  For one layer and tables of length 1, the first call of
`Gradient` names `layerDeltas[1]` and the last one `layerOutputs[network.size() - 2]`,
whose index wraps around to `2^64 - 1`.  On the sample engine `Backward()`, and with it
`EvaluateWithGradient`, does not return.  The calls of `Backward()` for one layer and
those of `Gradient` for two or three layers stay inside the tables. -/
theorem Backward_and_Gradient_index_outside_tables :
    BackwardCalls 2 2 2 =
      [Call.backward 1 (Operand.layerOutput 1) Operand.error (Operand.layerDelta 1),
       Call.backward 1 (Operand.layerOutput 1) (Operand.layerDelta 2) (Operand.layerDelta 1)] ∧
    (BackwardCalls 2 2 2).map (Call.inRange ⟨2, 2, 2, 2⟩) = [true, false] ∧
    (BackwardCalls 3 3 3).map (Call.sources) =
      [[Operand.layerOutput 2, Operand.error],
       [Operand.layerOutput 2, Operand.layerDelta 3],
       [Operand.layerOutput 1, Operand.layerDelta 2]] ∧
    (BackwardCalls 3 3 3).map (Call.inRange ⟨3, 3, 3, 3⟩) = [true, false, true] ∧
    GradientCalls 1 1 =
      [Call.gradient 0 Operand.input (Operand.layerDelta 1) (Operand.layerGradient 0),
       Call.gradient 0 (Operand.layerOutput 18446744073709551615) Operand.error
         (Operand.layerGradient 0)] ∧
    (GradientCalls 1 1).map (Call.inRange ⟨1, 1, 1, 1⟩) = [false, false] ∧
    (Backward sampleEnv sampleState).isSome = false ∧
    (EvaluateWithGradient sampleEnv sampleState (Mat.zerosOf 5 1) 0 (Mat.zerosOf 5 1) 1).isSome
      = false ∧
    (BackwardCalls 1 1 1).map (Call.inRange ⟨1, 1, 1, 1⟩) = [true] ∧
    (GradientCalls 2 2).map (Call.inRange ⟨2, 2, 2, 2⟩) = [true, true] ∧
    (GradientCalls 3 3).map (Call.inRange ⟨3, 3, 3, 3⟩) = [true, true, true] := by
  decide


/-- C27 (the code departs from the claim). The sample engine with the input-shape record
`[3, 4]`, a network of 12 input features.  `inputSize` is the sum 7 of the entries, not
their product: after `InitializeBackwardPassMemory(2)` the delta view of layer 0 has 7
rows and 2 columns, and the view of layer 1 starts at offset 14.  The view of layer 1 has
the `OutputSize()` 1 of layer 0 as number of rows and 2 columns. -/
theorem InitializeBackwardPassMemory_adds_input_dimensions :
    imageState.inputDimensions = [3, 4] ∧ imageState.inputDimensions.prod = 12 ∧
    inputSize imageState = 7 ∧
    (InitializeBackwardPassMemory sampleEnv imageState 2).map (fun st =>
        st.layerDeltas.map (fun a => (a.start, a.mat.n_rows, a.mat.n_cols))) =
      some [(0, 7, 2), (14, 1, 2)] ∧
    imageState.network.map sampleEnv.layer.OutputSize = [1, 1] ∧
    inputSize { sampleState with inputDimensions := [5, 1] } = 6 := by
  decide

end FFN
